import Mathlib

/-!
Verification of the SMASH collision-grid module (`src/grid.cc`, `src/include/smash/grid.h`).

Shallow embedding conventions:

* C++ `double` values (positions, lengths, index factors) are modelled as exact
  rationals `ℚ`.  Every double is a rational, so the embedded functions compute
  the exact-arithmetic shadow of the C++ code.
* `std::nextafter(f, 0.)` (grid.cc:201) has no counterpart on the dense type `ℚ`;
  it is modelled as an abstract parameter `next : ℚ → ℚ` of the construction.
  The predicate `NextValid` records the two facts true of the IEEE-754 primitive
  on positive finite doubles: the result is strictly smaller, and it is at most
  one part in 2^52 smaller (one ulp step).  The `while` loop of grid.cc:200-202
  becomes the fueled loop `nudge`; the fuel models the finiteness of the double
  grid that makes the C++ loop terminate.
* `ParticleData` (its header is not part of the sources at hand) is modelled by
  the three fields the grid reads: an identity, the spatial position
  `position()[1..3]`, and the value of `xsec_scaling_factor(timestep_duration)`.
  The grid constructor evaluates the scaling factor only at the single given
  timestep duration, so that one value is stored directly in the field
  `xsec_scaling_factor` and the `timestep_duration` argument is dropped.
* `throw` in the constructor becomes `Except.error`; the two user-facing errors
  of grid.cc:158 and grid.cc:188 are `GridError.overflow` and
  `GridError.boxTooSmall`.  The debug-only bounds check of grid.cc:268-281 is
  kept (as in an `NDEBUG`-less build) as `GridError.outOfBounds`; an index that
  is negative (out-of-bounds `std::vector` access, undefined behaviour in C++)
  is mapped to the same fatal error.
* `iterate_cells` takes opaque callbacks; it is embedded as functions producing
  the list of callback invocations in invocation order (indices for the cell
  pairs, particle lists for the contents actually handed to the callbacks).
-/

set_option maxRecDepth 10000

namespace SmashGrid

/-- A spatial 3-vector of exact rationals (components `[1..3]` of a SMASH
`FourVector` position, or a `ThreeVector`). -/
structure V3 where
  x : ℚ
  y : ℚ
  z : ℚ
  deriving DecidableEq

/-- The slice of `smash::ParticleData` that the grid reads: an identity, the
spatial position, and the value of `xsec_scaling_factor(timestep_duration)`
for the timestep duration the grid was given (see the header comment). -/
structure ParticleData where
  pid : ℤ
  pos : V3
  xsec_scaling_factor : ℚ
  deriving DecidableEq

/-- Modelled from the spec: `ParticleData::translated` (declared in the
`particledata.h` header, which is not among the sources at hand; the spec says
a particle can "produce a translated copy of itself without mutating the
original") returns a copy whose position is shifted by the given 3-vector. -/
def ParticleData.translated (p : ParticleData) (v : V3) : ParticleData :=
  { p with pos := ⟨p.pos.x + v.x, p.pos.y + v.y, p.pos.z + v.z⟩ }

/-- `smash::GridOptions` (grid.h:25-30). -/
inductive GridOptions
  | Normal
  | PeriodicBoundaries
  deriving DecidableEq

/-- `smash::CellSizeStrategy` (grid.h:33-44). -/
inductive CellSizeStrategy
  | Optimal
  | Largest
  deriving DecidableEq

/-- `smash::CellNumberLimitation` (grid.h:55-61). -/
inductive CellNumberLimitation
  | None
  | ParticleNumber
  deriving DecidableEq

/-- The two configuration errors thrown by the grid constructor
(grid.cc:158, grid.cc:188) and the debug-build out-of-bounds error
(grid.cc:279); a negative bucket index (undefined behaviour in C++) is mapped
to the latter as well. -/
inductive GridError
  | overflow
  | boxTooSmall
  | outOfBounds
  deriving DecidableEq

instance {ε α : Type} [DecidableEq ε] [DecidableEq α] : DecidableEq (Except ε α) := fun x y =>
  match x, y with
  | .error e, .error e2 =>
    if h : e = e2 then isTrue (by rw [h]) else isFalse (fun hc => by cases hc; exact h rfl)
  | .ok a, .ok b =>
    if h : a = b then isTrue (by rw [h]) else isFalse (fun hc => by cases hc; exact h rfl)
  | .error _, .ok _ => isFalse (fun hc => by cases hc)
  | .ok _, .error _ => isFalse (fun hc => by cases hc)

/-- A triple of cell counts or cell coordinates (`std::array<int, 3>`). -/
structure I3 where
  c0 : ℤ
  c1 : ℤ
  c2 : ℤ
  deriving DecidableEq

/-- The grid state after construction (grid.h:189-199). -/
structure Grid where
  length_ : V3
  cell_volume_ : ℚ
  number_of_cells_ : I3
  cells_ : List (List ParticleData)
  deriving DecidableEq

instance : Inhabited Grid := ⟨⟨⟨0, 0, 0⟩, 0, ⟨0, 0, 0⟩, []⟩⟩

/-- `INT_MAX` = `std::numeric_limits<int>::max()` (grid.cc:157). -/
def intMax : ℤ := 2147483647

/-- `GridBase::find_min_and_length` (grid.cc:86-110): one linear pass producing
the componentwise minimum of all positions and the componentwise extents.
The C++ code reads `particles.front()` first, so an empty collection is a
caller error (undefined behaviour); the model returns zeros there. -/
def find_min_and_length (particles : List ParticleData) : V3 × V3 :=
  match particles with
  | [] => (⟨0, 0, 0⟩, ⟨0, 0, 0⟩)
  | p :: _ =>
    let min_position := particles.foldl
      (fun m q => ⟨min m.x q.pos.x, min m.y q.pos.y, min m.z q.pos.z⟩) p.pos
    let max_position := particles.foldl
      (fun m q => ⟨max m.x q.pos.x, max m.y q.pos.y, max m.z q.pos.z⟩) p.pos
    (min_position, ⟨max_position.x - min_position.x, max_position.y - min_position.y,
      max_position.z - min_position.z⟩)

/-- `static_cast<int>(std::cbrt(particle_count))` (grid.cc:144): the integer
cube root, i.e. the largest `c` with `c^3 ≤ m`.  For every particle count a
machine can hold (far below `2^78`) the double `cbrt` truncates to exactly
this value. -/
def icbrt (m : ℕ) : ℕ :=
  ((List.range m).takeWhile (fun k => (k + 1) * (k + 1) * (k + 1) ≤ m)).length

/-- The index-factor safety loop (grid.cc:200-202):
`while (index_factor * length >= number_of_cells) index_factor = nextafter(index_factor, 0.)`,
with `std::nextafter(·, 0.)` abstracted as `next` and explicit fuel (the C++
loop terminates because doubles are finite; `ℚ` is dense, so the fuel makes
termination explicit). -/
def nudge (L : ℚ) (nc : ℤ) (next : ℚ → ℚ) : ℕ → ℚ → ℚ
  | 0, f => f
  | fuel + 1, f => if (nc : ℚ) ≤ f * L then nudge L nc next fuel (next f) else f

/-- One iteration of the per-axis sizing loop of the grid constructor
(grid.cc:153-205): decide the cell count `number_of_cells_[i]` and the final
`index_factor[i]` for one axis of length `L`, or throw.  The branch structure
is transcribed literally:
* grid.cc:154-155 — `Largest` forces 2 cells;
* grid.cc:156-163 — overflow guard `length > INT_MAX / index_factor`;
* grid.cc:165-166 — `number_of_cells = floor(length * index_factor)`;
* grid.cc:168-173 — a zero count is clamped to 1 outside periodic mode;
* grid.cc:174-188 — fewer than 2 cells in periodic mode is a fatal error;
* grid.cc:189-192 — optional clamp to `max_cells`;
* grid.cc:196-204 — rescale and nudge the index factor when the axis is at
  least one interaction length long.

`size_axis_finish` is the final index-factor step grid.cc:196-204 paired with
the decided cell count `nc`: when the axis is at least one interaction length
long, the factor is rescaled to `nc / L` and nudged down; otherwise it stays
`1 / max_interaction_length`. -/
def size_axis_finish (max_interaction_length : ℚ) (next : ℚ → ℚ) (fuel : ℕ) (L : ℚ)
    (nc : ℤ) : ℤ × ℚ :=
  (nc,
    if max_interaction_length ≤ L then nudge L nc next fuel ((nc : ℚ) / L)
    else 1 / max_interaction_length)

/-- The adjustment chain grid.cc:168-192 applied to the raw count `m`,
followed by the index-factor rescale (`size_axis_finish`). -/
def size_axis_adjust (O : GridOptions) (limit : CellNumberLimitation) (max_cells : ℤ)
    (max_interaction_length : ℚ) (next : ℚ → ℚ) (fuel : ℕ) (L : ℚ) (m : ℤ) :
    Except GridError (ℤ × ℚ) :=
  if m = 0 ∧ O ≠ GridOptions.PeriodicBoundaries then
    .ok (size_axis_finish max_interaction_length next fuel L 1)
  else if m < 2 ∧ O = GridOptions.PeriodicBoundaries then .error .boxTooSmall
  else if limit = CellNumberLimitation.ParticleNumber ∧ max_cells < m then
    .ok (size_axis_finish max_interaction_length next fuel L max_cells)
  else .ok (size_axis_finish max_interaction_length next fuel L m)

def size_axis (O : GridOptions) (strategy : CellSizeStrategy) (limit : CellNumberLimitation)
    (max_cells : ℤ) (max_interaction_length : ℚ) (next : ℚ → ℚ) (fuel : ℕ) (L : ℚ) :
    Except GridError (ℤ × ℚ) :=
  if strategy = CellSizeStrategy.Largest then
    size_axis_adjust O limit max_cells max_interaction_length next fuel L 2
  else if (intMax : ℚ) / (1 / max_interaction_length) < L then .error .overflow
  else size_axis_adjust O limit max_cells max_interaction_length next fuel L
    ⌊L * (1 / max_interaction_length)⌋

/-- `Grid::make_index` (grid.cc:290-293): the flat cell index
`(z * number_of_cells[1] + y) * number_of_cells[0] + x`. -/
def make_index (n : I3) (x y z : ℤ) : ℤ :=
  (z * n.c1 + y) * n.c0 + x

/-- The `cell_index_for` lambda of the constructor (grid.cc:256-261):
`make_index(floor((pos - min) * index_factor))` per axis. -/
def cell_index_for (n : I3) (min_position : V3) (f0 f1 f2 : ℚ) (p : ParticleData) : ℤ :=
  make_index n ⌊(p.pos.x - min_position.x) * f0⌋ ⌊(p.pos.y - min_position.y) * f1⌋
    ⌊(p.pos.z - min_position.z) * f2⌋

/-- The bucketing loop of the constructor (grid.cc:262-283): skip a particle
when `!include_unformed_particles && xsec_scaling_factor <= 0` (grid.cc:263-266),
otherwise append it to the cell at its computed flat index; the debug bounds
check (grid.cc:268-281) throws when the index is not a valid cell index (the
C++ check catches `idx >= size`; a negative index would be out-of-bounds
undefined behaviour and is mapped to the same fatal error). -/
def bucket_step (include_unformed_particles : Bool) (n : I3) (min_position : V3)
    (f0 f1 f2 : ℚ) (N : ℕ) (acc : Except GridError (List (List ParticleData)))
    (p : ParticleData) : Except GridError (List (List ParticleData)) :=
  match acc with
  | .error e => .error e
  | .ok cells =>
    if include_unformed_particles = false ∧ p.xsec_scaling_factor ≤ 0 then .ok cells
    else
      let idx := cell_index_for n min_position f0 f1 f2 p
      if idx < 0 ∨ (N : ℤ) ≤ idx then .error .outOfBounds
      else .ok (cells.set idx.toNat (cells.getD idx.toNat [] ++ [p]))

def bucket_particles (include_unformed_particles : Bool) (n : I3) (min_position : V3)
    (f0 f1 f2 : ℚ) (N : ℕ) (particles : List ParticleData) :
    Except GridError (List (List ParticleData)) :=
  particles.foldl (bucket_step include_unformed_particles n min_position f0 f1 f2 N)
    (.ok (List.replicate N []))

/-- The grid constructor `Grid<O>::Grid` (grid.cc:115-287):
* grid.cc:126-133 — fast path for normal boundaries with the `Largest`
  strategy: one cell holding a copy of every particle, no filtering;
* grid.cc:142-145 — `max_cells`;
* grid.cc:150-205 — the per-axis sizing loop (`size_axis` applied to the three
  axes in order, propagating the first error);
* grid.cc:207-234 — the dilute fallback for normal mode when every axis ended
  up with at most 2 cells: a single cell, filtered by the formation test
  unless `include_unformed_particles`;
* grid.cc:235-284 — otherwise the full cell array is built by bucketing. -/
def gridConstruct (O : GridOptions) (next : ℚ → ℚ) (fuel : ℕ)
    (min_and_length : V3 × V3) (particles : List ParticleData)
    (max_interaction_length : ℚ) (limit : CellNumberLimitation)
    (include_unformed_particles : Bool) (strategy : CellSizeStrategy) :
    Except GridError Grid :=
  let min_position := min_and_length.1
  let length_ := min_and_length.2
  let particle_count := particles.length
  if O = GridOptions.Normal ∧ strategy = CellSizeStrategy.Largest then
    .ok { length_ := length_, cell_volume_ := length_.x * length_.y * length_.z,
          number_of_cells_ := ⟨1, 1, 1⟩, cells_ := [particles] }
  else
    let max_cells : ℤ :=
      if O = GridOptions.Normal then (icbrt particle_count : ℤ)
      else max 2 (icbrt particle_count : ℤ)
    match size_axis O strategy limit max_cells max_interaction_length next fuel length_.x with
    | .error e => .error e
    | .ok (n0, f0) =>
      match size_axis O strategy limit max_cells max_interaction_length next fuel length_.y with
      | .error e => .error e
      | .ok (n1, f1) =>
        match size_axis O strategy limit max_cells max_interaction_length next fuel length_.z with
        | .error e => .error e
        | .ok (n2, f2) =>
          if O = GridOptions.Normal ∧ n0 ≤ 2 ∧ n1 ≤ 2 ∧ n2 ≤ 2 then
            .ok { length_ := length_,
                  cell_volume_ := length_.x * length_.y * length_.z,
                  number_of_cells_ := ⟨1, 1, 1⟩,
                  cells_ := [if include_unformed_particles then particles
                             else particles.filter (fun p => decide (0 < p.xsec_scaling_factor))] }
          else
            let n : I3 := ⟨n0, n1, n2⟩
            let N : ℕ := (n0 * n1 * n2).toNat
            match bucket_particles include_unformed_particles n min_position f0 f1 f2 N
                particles with
            | .error e => .error e
            | .ok cells =>
              .ok { length_ := length_,
                    cell_volume_ := (length_.x / n0) * (length_.y / n1) * (length_.z / n2),
                    number_of_cells_ := n, cells_ := cells }

/-! ## Enumeration: `iterate_cells`, normal mode (grid.cc:301-345)

The static offset lists `ZERO`, `ZERO_ONE`, `MINUS_ONE_ZERO`,
`MINUS_ONE_ZERO_ONE` (grid.cc:295-299) and the per-cell selection of offset
lists (grid.cc:321-331).  The traversal is embedded as the list of callback
invocations in invocation order: `normalPairTrace` records, at the cell-index
level, which `(search, neighbor)` cell pair each `neighbor_cell_callback`
invocation receives; the contents handed over are read off the cell array by
`normalNeighborCalls`. -/

def ZERO : List ℤ := [0]

def ZERO_ONE : List ℤ := [0, 1]

def MINUS_ONE_ZERO : List ℤ := [-1, 0]

def MINUS_ONE_ZERO_ONE : List ℤ := [-1, 0, 1]

/-- The z-offset list (grid.cc:321): `{0}` at the maximal z index, `{0, 1}`
otherwise. -/
def dz_list_normal (n2 z : ℤ) : List ℤ :=
  if z = n2 - 1 then ZERO else ZERO_ONE

/-- The y- and x-offset lists (grid.cc:322-331): `{0}` on a one-cell axis,
`{0, 1}` at the axis minimum, `{-1, 0}` at the axis maximum, `{-1, 0, 1}`
otherwise. -/
def d_list_normal (na c : ℤ) : List ℤ :=
  if na = 1 then ZERO
  else if c = 0 then ZERO_ONE
  else if c = na - 1 then MINUS_ONE_ZERO
  else MINUS_ONE_ZERO_ONE

/-- `[0, 1, ..., n-1]` as integers: the raster loops of `iterate_cells`. -/
def rangeZ (n : ℤ) : List ℤ :=
  List.map Int.ofNat (List.range n.toNat)

/-- The innermost offset loop of `Grid<GridOptions::Normal>::iterate_cells`
(grid.cc:334-339): for each `dx` in the x-offset list, emit the pair
`(search cell, neighbor cell)` when the plus-direction filter
`make_index(dx, dy, dz) > 0` (grid.cc:335-336) passes.  The neighbor flat
index in the code is `search_cell_index + make_index(dx,dy,dz)`, i.e. the
flat index of `search + d` by linearity of `make_index`. -/
def normalEmitX (n : I3) (x y z dy dz : ℤ) : List (I3 × I3) :=
  (d_list_normal n.c0 x).flatMap fun dx =>
    if 0 < make_index n dx dy dz then [(⟨x, y, z⟩, ⟨x + dx, y + dy, z + dz⟩)] else []

/-- The `dy` loop (grid.cc:333). -/
def normalEmitY (n : I3) (x y z dz : ℤ) : List (I3 × I3) :=
  (d_list_normal n.c1 y).flatMap fun dy => normalEmitX n x y z dy dz

/-- The `dz` loop (grid.cc:332): all neighbor pairs emitted for one search
cell. -/
def normalEmit (n : I3) (x y z : ℤ) : List (I3 × I3) :=
  (dz_list_normal n.c2 z).flatMap fun dz => normalEmitY n x y z dz

/-- The neighbor-pair emissions of `Grid<GridOptions::Normal>::iterate_cells`
(grid.cc:312-344) at the cell-coordinate level: raster order over the search
cell (z outer, y middle, x inner), then the clipped offset lists. -/
def normalPairTrace (n : I3) : List (I3 × I3) :=
  (rangeZ n.c2).flatMap fun z =>
  (rangeZ n.c1).flatMap fun y =>
  (rangeZ n.c0).flatMap fun x => normalEmit n x y z

/-- The contents of the cell with coordinates `c` (the flat-index lookup
`cells_[make_index ...]`). -/
def cellAt (g : Grid) (c : I3) : List ParticleData :=
  g.cells_.getD (make_index g.number_of_cells_ c.c0 c.c1 c.c2).toNat []

/-- The arguments of the `search_cell_callback` invocations (grid.cc:319):
every cell in raster order, i.e. the cell array itself.  The same loop
structure is shared by both specializations (grid.cc:319, grid.cc:425). -/
def searchCalls (g : Grid) : List (List ParticleData) :=
  g.cells_

/-- The arguments of the normal-mode `neighbor_cell_callback` invocations
(grid.cc:337). -/
def normalNeighborCalls (g : Grid) : List (List ParticleData × List ParticleData) :=
  (normalPairTrace g.number_of_cells_).map (fun e => (cellAt g e.1, cellAt g e.2))

/-! ## Enumeration: `iterate_cells`, periodic mode (grid.cc:347-488) -/

/-- `NeedsToWrap` (grid.cc:355). -/
inductive NeedsToWrap
  | PlusLength
  | No
  | MinusLength
  deriving DecidableEq

/-- `NeighborLookup` (grid.cc:358-363). -/
structure NeighborLookup where
  index : ℤ
  wrap : NeedsToWrap
  deriving DecidableEq

/-- The z-axis lookup list (grid.cc:387-393): the cell itself and the next
cell up, which wraps to 0 with `MinusLength` at the top edge.  (The wrap flag
of the first entry is always `No`: it is default-initialized and never
assigned, and the flag of the second entry is only set in the last z
iteration, as the code comment on grid.cc:391 notes.) -/
def dz_list_periodic (n2 z : ℤ) : List NeighborLookup :=
  [⟨z, .No⟩, if z + 1 = n2 then ⟨0, .MinusLength⟩ else ⟨z + 1, .No⟩]

/-- The y- and x-axis lookup lists (grid.cc:394-406, grid.cc:407-419):
`[self, previous, next]` where at the lower edge `previous` is replaced by
`next` and `next` becomes the wrapped top cell with `PlusLength`, and at the
upper edge `next` wraps to 0 with `MinusLength`. -/
def d3_list_periodic (na c : ℤ) : List NeighborLookup :=
  if c = 0 then [⟨c, .No⟩, ⟨c + 1, .No⟩, ⟨na - 1, .PlusLength⟩]
  else if c + 1 = na then [⟨c, .No⟩, ⟨c - 1, .No⟩, ⟨0, .MinusLength⟩]
  else [⟨c, .No⟩, ⟨c - 1, .No⟩, ⟨c + 1, .No⟩]

/-- The per-axis component of the "virtual search index" (grid.cc:427,
grid.cc:435, grid.cc:441-444, grid.cc:450-453): the search coordinate itself
for an unwrapped neighbor, `-1` when the neighbor wrapped past the top
(`MinusLength`), and `number_of_cells[axis]` when it wrapped past the bottom
(`PlusLength`).  The wrapped entries sit at the end of each lookup list and
the components are reset when the inner loops restart (grid.cc:479-483), so
the mutable state of the C++ loop is a per-combination function of the three
chosen entries. -/
def virtualCoord (na c : ℤ) : NeedsToWrap → ℤ
  | .No => c
  | .MinusLength => -1
  | .PlusLength => na

/-- The sign of the wrap shift applied to the search-cell copy for a given
wrap flag: `wrap_vector[i] = wrapSign * length_[i]` (grid.cc:434, 440-444,
448-453). -/
def wrapSign : NeedsToWrap → ℤ
  | .PlusLength => 1
  | .No => 0
  | .MinusLength => -1

/-- The neighbor-pair emissions of
`Grid<GridOptions::PeriodicBoundaries>::iterate_cells` (grid.cc:386-487) at
the cell-coordinate level.  Each element is
`(search cell, neighbor cell, wrap signs)`: the callback receives the search
contents translated by `(wrap signs) * length_` componentwise and the
neighbor cell contents.  A combination is emitted iff the neighbor flat index
strictly exceeds the virtual search flat index (grid.cc:461-467). -/
def periodicEmitX (n : I3) (x y z : ℤ) (ey ez : NeighborLookup) : List (I3 × I3 × I3) :=
  (d3_list_periodic n.c0 x).flatMap fun ex =>
    if make_index n (virtualCoord n.c0 x ex.wrap) (virtualCoord n.c1 y ey.wrap)
        (virtualCoord n.c2 z ez.wrap) < make_index n ex.index ey.index ez.index then
      [(⟨x, y, z⟩, ⟨ex.index, ey.index, ez.index⟩,
        ⟨wrapSign ex.wrap, wrapSign ey.wrap, wrapSign ez.wrap⟩)]
    else []

/-- The `dy` loop of the periodic specialization (grid.cc:437). -/
def periodicEmitY (n : I3) (x y z : ℤ) (ez : NeighborLookup) : List (I3 × I3 × I3) :=
  (d3_list_periodic n.c1 y).flatMap fun ey => periodicEmitX n x y z ey ez

/-- The `dz` loop of the periodic specialization (grid.cc:431): all
emissions for one search cell. -/
def periodicEmit (n : I3) (x y z : ℤ) : List (I3 × I3 × I3) :=
  (dz_list_periodic n.c2 z).flatMap fun ez => periodicEmitY n x y z ez

def periodicTrace (n : I3) : List (I3 × I3 × I3) :=
  (rangeZ n.c2).flatMap fun z =>
  (rangeZ n.c1).flatMap fun y =>
  (rangeZ n.c0).flatMap fun x => periodicEmit n x y z

/-- Translate every particle of a buffered cell copy (grid.cc:469-476; the
cumulative deltas `wrap_vector - current_wrap_vector` applied to the buffer
compose to the net translation by the current wrap vector, since
`translated` shifts the position by the given vector). -/
def translateList (v : V3) (l : List ParticleData) : List ParticleData :=
  l.map (fun p => p.translated v)

/-- The arguments of the periodic-mode `neighbor_cell_callback` invocations
(grid.cc:477): the search-cell buffer translated by the accumulated wrap
vector, and the neighbor cell contents. -/
def periodicNeighborCalls (g : Grid) : List (List ParticleData × List ParticleData) :=
  (periodicTrace g.number_of_cells_).map (fun e =>
    (translateList ⟨(e.2.2.c0 : ℚ) * g.length_.x, (e.2.2.c1 : ℚ) * g.length_.y,
        (e.2.2.c2 : ℚ) * g.length_.z⟩ (cellAt g e.1),
     cellAt g e.2.1))

/-- The `neighbor_cell_callback` invocation list of the mode-matching
`iterate_cells` specialization. -/
def neighborCalls (O : GridOptions) (g : Grid) : List (List ParticleData × List ParticleData) :=
  match O with
  | .Normal => normalNeighborCalls g
  | .PeriodicBoundaries => periodicNeighborCalls g

/-! ## Claim-side notions (from the wording of the specification) -/

/-- A position lies within the bounding box:
`min_position[i] ≤ position[i] ≤ min_position[i] + length[i]` on every axis. -/
def inBox (min_position length_ : V3) (p : ParticleData) : Prop :=
  min_position.x ≤ p.pos.x ∧ p.pos.x ≤ min_position.x + length_.x ∧
  min_position.y ≤ p.pos.y ∧ p.pos.y ≤ min_position.y + length_.y ∧
  min_position.z ≤ p.pos.z ∧ p.pos.z ≤ min_position.z + length_.z

/-- A valid cell coordinate triple. -/
def inCellRange (n : I3) (c : I3) : Prop :=
  0 ≤ c.c0 ∧ c.c0 < n.c0 ∧ 0 ≤ c.c1 ∧ c.c1 < n.c1 ∧ 0 ≤ c.c2 ∧ c.c2 < n.c2

instance (n c : I3) : Decidable (inCellRange n c) := by
  unfold inCellRange; infer_instance

/-- Two cells touch geometrically (face-, edge- or corner-adjacent): they
differ by at most one cell on every axis. -/
def adjacentCells (a b : I3) : Prop :=
  |a.c0 - b.c0| ≤ 1 ∧ |a.c1 - b.c1| ≤ 1 ∧ |a.c2 - b.c2| ≤ 1

instance (a b : I3) : Decidable (adjacentCells a b) := by
  unfold adjacentCells; infer_instance

/-- How often an unordered pair of cells is passed to the neighbor callback:
the emissions `(a, b)` plus the emissions `(b, a)`. -/
def pairCount (l : List (I3 × I3)) (a b : I3) : ℕ :=
  l.count (a, b) + l.count (b, a)

/-- The per-axis displacement of a periodic adjacency: neighbor coordinate
minus search coordinate minus the wrap shift `w * n` on that axis. -/
def torusDelta (na ca cb w : ℤ) : ℤ :=
  cb - ca - w * na

/-- A periodic ("torus") adjacency between the cells `a` and `b` realized
with the wrap-sign vector `w`: both cells are in range, each wrap sign is in
`{-1, 0, 1}`, the displacement after unwrapping is at most one cell on every
axis, and the adjacency is not the trivial one of a cell with itself.  On an
axis with exactly 2 cells two cells can be adjacent both directly (`w = 0`)
and across the boundary (`w = ±1`); these are distinct adjacencies. -/
def torusAdjacency (n : I3) (a b w : I3) : Prop :=
  inCellRange n a ∧ inCellRange n b ∧
  |w.c0| ≤ 1 ∧ |w.c1| ≤ 1 ∧ |w.c2| ≤ 1 ∧
  |torusDelta n.c0 a.c0 b.c0 w.c0| ≤ 1 ∧
  |torusDelta n.c1 a.c1 b.c1 w.c1| ≤ 1 ∧
  |torusDelta n.c2 a.c2 b.c2 w.c2| ≤ 1 ∧
  ¬(a = b ∧ w = ⟨0, 0, 0⟩)

instance (n a b w : I3) : Decidable (torusAdjacency n a b w) := by
  unfold torusAdjacency; infer_instance

/-- How often the torus adjacency `(a, b, w)` is realized by the periodic
traversal, counting both orientations: `(a, b, w)` emissions plus
`(b, a, -w)` emissions. -/
def torusPairCount (l : List (I3 × I3 × I3)) (a b w : I3) : ℕ :=
  l.count (a, b, w) + l.count (b, a, ⟨-w.c0, -w.c1, -w.c2⟩)

/-- The facts about `std::nextafter(·, 0.)` on positive finite doubles used
by the proofs: the result is strictly smaller but smaller by at most one part
in `2^52` (one ulp step). -/
def NextValid (next : ℚ → ℚ) : Prop :=
  ∀ f : ℚ, 0 < f → next f < f ∧ f * (1 - 1 / 4503599627370496) ≤ next f

/-! ## Arithmetic facts about the sizing loop -/

/-- A reference model of `std::nextafter(f, 0.)`: one multiplicative ulp-sized
step toward zero.  Used to instantiate the abstract `next` parameter on
concrete inputs. -/
def nextModel : ℚ → ℚ :=
  fun f => f * (1 - 1 / 9007199254740992)

lemma nextModel_valid : NextValid nextModel := by
  intro f hf
  constructor
  · have : (1 - 1 / 9007199254740992 : ℚ) < 1 := by norm_num
    calc nextModel f = f * (1 - 1 / 9007199254740992) := rfl
    _ < f * 1 := by exact mul_lt_mul_of_pos_left this hf
    _ = f := mul_one f
  · unfold nextModel
    have h1 : (1 - 1 / 4503599627370496 : ℚ) ≤ 1 - 1 / 9007199254740992 := by norm_num
    exact mul_le_mul_of_nonneg_left h1 hf.le

lemma nudge_eq_next {L : ℚ} {nc : ℤ} {next : ℚ → ℚ} {fuel : ℕ}
    (hNV : NextValid next) (hfuel : 1 ≤ fuel) (hL : 0 < L) (hnc : 1 ≤ nc) :
    nudge L nc next fuel ((nc : ℚ) / L) = next ((nc : ℚ) / L) := by
  obtain ⟨k, rfl⟩ : ∃ k, fuel = k + 1 := ⟨fuel - 1, by omega⟩
  have hncQ : (0 : ℚ) < (nc : ℚ) := by exact_mod_cast hnc
  have hf0 : (0 : ℚ) < (nc : ℚ) / L := div_pos hncQ hL
  have hcancel : ((nc : ℚ) / L) * L = (nc : ℚ) := div_mul_cancel₀ _ hL.ne'
  have hguard : (nc : ℚ) ≤ ((nc : ℚ) / L) * L := le_of_eq hcancel.symm
  have hlt : next ((nc : ℚ) / L) * L < (nc : ℚ) := by
    calc next ((nc : ℚ) / L) * L < ((nc : ℚ) / L) * L :=
          mul_lt_mul_of_pos_right (hNV _ hf0).1 hL
    _ = (nc : ℚ) := hcancel
  rw [nudge, if_pos hguard]
  cases k with
  | zero => rfl
  | succ j => rw [nudge, if_neg (not_le.mpr hlt)]

lemma size_axis_finish_inv {ilen : ℚ} {next : ℚ → ℚ} {fuel : ℕ} {L : ℚ} {nc ncr : ℤ} {f : ℚ}
    (hi : 0 < ilen) (hL : 0 ≤ L) (hnc : 1 ≤ nc) (hmax : nc ≤ intMax)
    (hNV : NextValid next) (hfuel : 1 ≤ fuel)
    (h : size_axis_finish ilen next fuel L nc = (ncr, f)) :
    ncr = nc ∧ 0 < f ∧ f * L < (nc : ℚ) ∧
      (ilen ≤ L → (nc : ℚ) - 1 ≤ f * L) ∧ (L < ilen → f = 1 / ilen) := by
  unfold size_axis_finish at h
  injection h with hn hf
  subst hn
  refine ⟨rfl, ?_⟩
  have hncQ : (0 : ℚ) < (nc : ℚ) := by exact_mod_cast hnc
  have hu : (0 : ℚ) < 1 - 1 / 4503599627370496 := by norm_num
  by_cases hd : ilen ≤ L
  · have hLpos : 0 < L := lt_of_lt_of_le hi hd
    rw [if_pos hd, nudge_eq_next hNV hfuel hLpos hnc] at hf
    have hf0 : (0 : ℚ) < (nc : ℚ) / L := div_pos hncQ hLpos
    obtain ⟨hlt, hge⟩ := hNV _ hf0
    have hcancel : ((nc : ℚ) / L) * L = (nc : ℚ) := div_mul_cancel₀ _ hLpos.ne'
    have hfpos : 0 < f := by
      rw [← hf]
      exact lt_of_lt_of_le (mul_pos hf0 hu) hge
    refine ⟨hfpos, ?_, ?_, ?_⟩
    · rw [← hf]
      calc next ((nc : ℚ) / L) * L < ((nc : ℚ) / L) * L :=
            mul_lt_mul_of_pos_right hlt hLpos
      _ = (nc : ℚ) := hcancel
    · intro _
      have hstep : ((nc : ℚ) / L) * (1 - 1 / 4503599627370496) * L =
          (nc : ℚ) * (1 - 1 / 4503599627370496) := by
        rw [mul_right_comm, hcancel]
      have h2 : ((nc : ℚ) / L) * (1 - 1 / 4503599627370496) * L ≤ f * L := by
        apply mul_le_mul_of_nonneg_right _ hLpos.le
        rw [← hf]; exact hge
      rw [hstep] at h2
      have hsmall : (nc : ℚ) * (1 / 4503599627370496) ≤ 1 := by
        have hcast : (nc : ℚ) ≤ (intMax : ℚ) := by exact_mod_cast hmax
        have hiv : (intMax : ℚ) = 2147483647 := by norm_num [intMax]
        rw [hiv] at hcast
        nlinarith
      nlinarith [h2, hsmall]
    · intro hcon; exact absurd hd (not_le.mpr hcon)
  · rw [if_neg hd] at hf
    have hLlt : L < ilen := not_le.mp hd
    have hfpos : 0 < f := by rw [← hf]; positivity
    refine ⟨hfpos, ?_, fun hcon => absurd hcon hd, fun _ => hf.symm⟩
    have h1 : f * L < 1 := by
      rw [← hf, one_div, inv_mul_eq_div, div_lt_one hi]
      exact hLlt
    calc f * L < 1 := h1
    _ ≤ (nc : ℚ) := by exact_mod_cast hnc

lemma size_axis_adjust_inv {O : GridOptions} {limit : CellNumberLimitation}
    {mc : ℤ} {ilen : ℚ} {next : ℚ → ℚ} {fuel : ℕ} {L : ℚ} {m nc : ℤ} {f : ℚ}
    (hi : 0 < ilen) (hL : 0 ≤ L) (hmc : 1 ≤ mc)
    (hmcP : O = GridOptions.PeriodicBoundaries → 2 ≤ mc)
    (hm0 : 0 ≤ m) (hmI : m ≤ intMax)
    (hNV : NextValid next) (hfuel : 1 ≤ fuel)
    (h : size_axis_adjust O limit mc ilen next fuel L m = .ok (nc, f)) :
    1 ≤ nc ∧ nc ≤ intMax ∧ (O = GridOptions.PeriodicBoundaries → 2 ≤ nc) ∧
      0 < f ∧ f * L < (nc : ℚ) ∧
      ((1 ≤ m → ilen ≤ L) → (nc : ℚ) - 1 ≤ f * L) := by
  have hiMax : (1 : ℤ) ≤ intMax := by decide
  unfold size_axis_adjust at h
  by_cases hA : m = 0 ∧ O ≠ GridOptions.PeriodicBoundaries
  · -- zero cells, non-periodic: clamp to 1
    rw [if_pos hA] at h
    injection h with h
    obtain ⟨hn, hfpos, hflt, _, _⟩ :=
      size_axis_finish_inv hi hL le_rfl hiMax hNV hfuel h
    subst hn
    refine ⟨le_rfl, hiMax, fun hO => absurd hO hA.2, hfpos, hflt, fun _ => ?_⟩
    have : 0 ≤ f * L := mul_nonneg hfpos.le hL
    push_cast
    linarith
  · rw [if_neg hA] at h
    by_cases hB : m < 2 ∧ O = GridOptions.PeriodicBoundaries
    · rw [if_pos hB] at h
      cases h
    · rw [if_neg hB] at h
      by_cases hC : limit = CellNumberLimitation.ParticleNumber ∧ mc < m
      · -- clamp to max_cells
        rw [if_pos hC] at h
        obtain ⟨hlim, hclt⟩ := hC
        injection h with h
        obtain ⟨hn, hfpos, hflt, hbnd, _⟩ :=
          size_axis_finish_inv hi hL hmc (by omega) hNV hfuel h
        subst hn
        refine ⟨hmc, by omega, hmcP, hfpos, hflt, fun hm1L => hbnd (hm1L (by omega))⟩
      · -- keep the raw count
        rw [if_neg hC] at h
        injection h with h
        have h1m : 1 ≤ m := by
          cases O with
          | Normal =>
            simp only [ne_eq, not_and, not_not] at hA
            rcases eq_or_lt_of_le hm0 with hz | hpos
            · exact absurd (hA hz.symm) (by rintro ⟨⟩)
            · omega
          | PeriodicBoundaries =>
            simp only [and_true, not_lt] at hB
            omega
        obtain ⟨hn, hfpos, hflt, hbnd, _⟩ :=
          size_axis_finish_inv hi hL h1m hmI hNV hfuel h
        subst hn
        refine ⟨h1m, hmI, ?_, hfpos, hflt, fun hm1L => hbnd (hm1L h1m)⟩
        intro hO
        simp only [hO, and_true, not_lt] at hB
        omega

lemma size_axis_inv {O : GridOptions} {strat : CellSizeStrategy} {limit : CellNumberLimitation}
    {mc : ℤ} {ilen : ℚ} {next : ℚ → ℚ} {fuel : ℕ} {L : ℚ} {nc : ℤ} {f : ℚ}
    (hi : 0 < ilen) (hL : 0 ≤ L) (hmc : 1 ≤ mc)
    (hmcP : O = GridOptions.PeriodicBoundaries → 2 ≤ mc)
    (hNV : NextValid next) (hfuel : 1 ≤ fuel)
    (h : size_axis O strat limit mc ilen next fuel L = .ok (nc, f)) :
    1 ≤ nc ∧ nc ≤ intMax ∧ (O = GridOptions.PeriodicBoundaries → 2 ≤ nc) ∧
      0 < f ∧ f * L < (nc : ℚ) ∧
      (strat = CellSizeStrategy.Optimal → (nc : ℚ) - 1 ≤ f * L) := by
  unfold size_axis at h
  by_cases hstrat : strat = CellSizeStrategy.Largest
  · -- Largest strategy: the raw count is 2
    rw [if_pos hstrat] at h
    obtain ⟨h1, h2, h3, h4, h5, _⟩ :=
      size_axis_adjust_inv hi hL hmc hmcP (by omega) (by decide) hNV hfuel h
    refine ⟨h1, h2, h3, h4, h5, fun hopt => ?_⟩
    rw [hstrat] at hopt
    cases hopt
  · rw [if_neg hstrat] at h
    by_cases hovf : (intMax : ℚ) / (1 / ilen) < L
    · rw [if_pos hovf] at h
      cases h
    · rw [if_neg hovf] at h
      -- Optimal strategy path
      have hfac : (0 : ℚ) < 1 / ilen := by positivity
      have hm0 : (0 : ℤ) ≤ ⌊L * (1 / ilen)⌋ := Int.floor_nonneg.mpr (by positivity)
      have hmI : ⌊L * (1 / ilen)⌋ ≤ intMax := by
        have hle : L ≤ (intMax : ℚ) / (1 / ilen) := not_lt.mp hovf
        have h2 : L * (1 / ilen) ≤ (intMax : ℚ) := by
          calc L * (1 / ilen) ≤ ((intMax : ℚ) / (1 / ilen)) * (1 / ilen) :=
                mul_le_mul_of_nonneg_right hle hfac.le
          _ = (intMax : ℚ) := div_mul_cancel₀ _ hfac.ne'
        calc ⌊L * (1 / ilen)⌋ ≤ ⌊(intMax : ℚ)⌋ := Int.floor_le_floor h2
        _ = intMax := Int.floor_intCast intMax
      have hm1L : 1 ≤ ⌊L * (1 / ilen)⌋ → ilen ≤ L := by
        intro h1
        have h2 : (1 : ℚ) ≤ L * (1 / ilen) := by exact_mod_cast Int.le_floor.mp h1
        rw [mul_one_div, le_div_iff hi, one_mul] at h2
        exact h2
      obtain ⟨h1, h2, h3, h4, h5, h6⟩ :=
        size_axis_adjust_inv hi hL hmc hmcP hm0 hmI hNV hfuel h
      exact ⟨h1, h2, h3, h4, h5, fun _ => h6 hm1L⟩

lemma axis_index_range {f L q : ℚ} {nc : ℤ} (hf : 0 < f) (hfl : f * L < (nc : ℚ))
    (hq0 : 0 ≤ q) (hqL : q ≤ L) : 0 ≤ ⌊q * f⌋ ∧ ⌊q * f⌋ < nc := by
  constructor
  · exact Int.floor_nonneg.mpr (mul_nonneg hq0 hf.le)
  · apply Int.floor_lt.mpr
    calc q * f ≤ L * f := mul_le_mul_of_nonneg_right hqL hf.le
    _ = f * L := mul_comm L f
    _ < (nc : ℚ) := hfl

lemma axis_index_boundary {f L : ℚ} {nc : ℤ} (hfl : f * L < (nc : ℚ))
    (hlow : (nc : ℚ) - 1 ≤ f * L) : ⌊L * f⌋ = nc - 1 := by
  rw [Int.floor_eq_iff]
  constructor
  · push_cast
    linarith [mul_comm L f]
  · push_cast
    linarith [mul_comm L f]

lemma make_index_range {n : I3} {x y z : ℤ}
    (hx0 : 0 ≤ x) (hx : x < n.c0) (hy0 : 0 ≤ y) (hy : y < n.c1)
    (hz0 : 0 ≤ z) (hz : z < n.c2) :
    0 ≤ make_index n x y z ∧ make_index n x y z < n.c0 * n.c1 * n.c2 := by
  have h0 : 1 ≤ n.c0 := by omega
  have h1 : 1 ≤ n.c1 := by omega
  have h2 : 1 ≤ n.c2 := by omega
  unfold make_index
  constructor
  · have hzy : 0 ≤ z * n.c1 + y := by positivity
    have : 0 ≤ (z * n.c1 + y) * n.c0 := by positivity
    omega
  · have hzy : z * n.c1 + y ≤ n.c2 * n.c1 - 1 := by nlinarith

    have hstep : (z * n.c1 + y) * n.c0 ≤ (n.c2 * n.c1 - 1) * n.c0 :=
      mul_le_mul_of_nonneg_right hzy (by omega)
    nlinarith

/-- C1: for every grid constructed with the `Optimal` strategy and every
particle whose position lies within the bounding box, the flat cell index
computed during bucketing is nonnegative and strictly less than
`nx * ny * nz`; in particular a particle positioned exactly at
`min_position[axis] + length[axis]` gets the axis index
`number_of_cells[axis] - 1`, never `number_of_cells[axis]` — the nextafter
nudge loop having established `index_factor[axis] * length[axis] <
number_of_cells[axis]`.  The hypotheses `h0, h1, h2` are the per-axis sizing
results that the constructor (grid.cc:153-205) feeds into `cell_index_for`;
`NextValid` and the fuel bound express that `std::nextafter` steps toward
zero and that the C++ loop terminates. -/
theorem C1_bucketing_index_in_range
    (O : GridOptions) (limit : CellNumberLimitation) (mc : ℤ) (ilen : ℚ)
    (next : ℚ → ℚ) (fuel : ℕ) (minP len : V3) (n0 n1 n2 : ℤ) (f0 f1 f2 : ℚ)
    (hi : 0 < ilen) (hmc : 1 ≤ mc)
    (hmcP : O = GridOptions.PeriodicBoundaries → 2 ≤ mc)
    (hNV : NextValid next) (hfuel : 1 ≤ fuel)
    (h0 : size_axis O .Optimal limit mc ilen next fuel len.x = .ok (n0, f0))
    (h1 : size_axis O .Optimal limit mc ilen next fuel len.y = .ok (n1, f1))
    (h2 : size_axis O .Optimal limit mc ilen next fuel len.z = .ok (n2, f2))
    (p : ParticleData) (hp : inBox minP len p) :
    (0 ≤ cell_index_for ⟨n0, n1, n2⟩ minP f0 f1 f2 p ∧
      cell_index_for ⟨n0, n1, n2⟩ minP f0 f1 f2 p < n0 * n1 * n2) ∧
    (p.pos.x = minP.x + len.x → ⌊(p.pos.x - minP.x) * f0⌋ = n0 - 1) ∧
    (p.pos.y = minP.y + len.y → ⌊(p.pos.y - minP.y) * f1⌋ = n1 - 1) ∧
    (p.pos.z = minP.z + len.z → ⌊(p.pos.z - minP.z) * f2⌋ = n2 - 1) := by
  obtain ⟨hpx1, hpx2, hpy1, hpy2, hpz1, hpz2⟩ := hp
  have hLx : 0 ≤ len.x := by linarith
  have hLy : 0 ≤ len.y := by linarith
  have hLz : 0 ≤ len.z := by linarith
  obtain ⟨-, -, -, hf0pos, hf0lt, hf0bnd⟩ := size_axis_inv hi hLx hmc hmcP hNV hfuel h0
  obtain ⟨-, -, -, hf1pos, hf1lt, hf1bnd⟩ := size_axis_inv hi hLy hmc hmcP hNV hfuel h1
  obtain ⟨-, -, -, hf2pos, hf2lt, hf2bnd⟩ := size_axis_inv hi hLz hmc hmcP hNV hfuel h2
  have hax := axis_index_range hf0pos hf0lt (by linarith : (0 : ℚ) ≤ p.pos.x - minP.x)
    (by linarith : p.pos.x - minP.x ≤ len.x)
  have hay := axis_index_range hf1pos hf1lt (by linarith : (0 : ℚ) ≤ p.pos.y - minP.y)
    (by linarith : p.pos.y - minP.y ≤ len.y)
  have haz := axis_index_range hf2pos hf2lt (by linarith : (0 : ℚ) ≤ p.pos.z - minP.z)
    (by linarith : p.pos.z - minP.z ≤ len.z)
  refine ⟨?_, ?_, ?_, ?_⟩
  · exact make_index_range hax.1 hax.2 hay.1 hay.2 haz.1 haz.2
  · intro hb
    have : p.pos.x - minP.x = len.x := by linarith
    rw [this]
    exact axis_index_boundary hf0lt (hf0bnd rfl)
  · intro hb
    have : p.pos.y - minP.y = len.y := by linarith
    rw [this]
    exact axis_index_boundary hf1lt (hf1bnd rfl)
  · intro hb
    have : p.pos.z - minP.z = len.z := by linarith
    rw [this]
    exact axis_index_boundary hf2lt (hf2bnd rfl)

/-- Witness for C1 at a concrete input: a normal-mode grid over the box
`[0,10]^3` with interaction length 5 (two cells per axis) and a particle at
the far corner `(10, 10, 10)`. -/
theorem C1_bucketing_index_in_range_witness :
    (0 ≤ cell_index_for ⟨2, 2, 2⟩ ⟨0, 0, 0⟩ (9007199254740991 / 45035996273704960)
        (9007199254740991 / 45035996273704960) (9007199254740991 / 45035996273704960)
        ⟨7, ⟨10, 10, 10⟩, 1⟩ ∧
      cell_index_for ⟨2, 2, 2⟩ ⟨0, 0, 0⟩ (9007199254740991 / 45035996273704960)
        (9007199254740991 / 45035996273704960) (9007199254740991 / 45035996273704960)
        ⟨7, ⟨10, 10, 10⟩, 1⟩ < 2 * 2 * 2) ∧
    ((10 : ℚ) = 0 + 10 →
      ⌊((10 : ℚ) - 0) * (9007199254740991 / 45035996273704960)⌋ = 2 - 1) ∧
    ((10 : ℚ) = 0 + 10 →
      ⌊((10 : ℚ) - 0) * (9007199254740991 / 45035996273704960)⌋ = 2 - 1) ∧
    ((10 : ℚ) = 0 + 10 →
      ⌊((10 : ℚ) - 0) * (9007199254740991 / 45035996273704960)⌋ = 2 - 1) :=
  C1_bucketing_index_in_range GridOptions.Normal CellNumberLimitation.None 1 5
    nextModel 2 ⟨0, 0, 0⟩ ⟨10, 10, 10⟩ 2 2 2
    (9007199254740991 / 45035996273704960) (9007199254740991 / 45035996273704960)
    (9007199254740991 / 45035996273704960)
    (by norm_num) (by norm_num) (by intro h; cases h) nextModel_valid (by norm_num)
    (by with_unfolding_all rfl) (by with_unfolding_all rfl) (by with_unfolding_all rfl)
    ⟨7, ⟨10, 10, 10⟩, 1⟩ (by refine ⟨?_, ?_, ?_, ?_, ?_, ?_⟩ <;> norm_num)

/-! ## Coverage of the bucketing loop -/

lemma flatten_replicate_nil {α : Type} (N : ℕ) :
    (List.replicate N ([] : List α)).flatten = [] := by
  induction N with
  | zero => rfl
  | succ k IH => simp [List.replicate, IH]

lemma flatten_set_append {α : Type} (cells : List (List α)) (i : ℕ) (p : α)
    (h : i < cells.length) :
    (cells.set i (cells.getD i [] ++ [p])).flatten.Perm (p :: cells.flatten) := by
  induction cells generalizing i with
  | nil => simp at h
  | cons c cs IH =>
    cases i with
    | zero =>
      simp only [List.getD_cons_zero, List.set_cons_zero, List.flatten_cons, List.append_assoc,
        List.singleton_append]
      exact List.perm_middle
    | succ j =>
      simp only [List.getD_cons_succ, List.set_cons_succ, List.flatten_cons]
      have h2 : j < cs.length := by simpa using h
      exact ((IH j h2).append_left c).trans List.perm_middle

lemma foldl_bucket_step_error {inc : Bool} {n : I3} {minP : V3} {f0 f1 f2 : ℚ} {N : ℕ}
    {e : GridError} (ps : List ParticleData) :
    ps.foldl (bucket_step inc n minP f0 f1 f2 N) (.error e) = .error e := by
  induction ps with
  | nil => rfl
  | cons p ps IH => simpa [bucket_step] using IH

lemma bucket_loop_perm {inc : Bool} {n : I3} {minP : V3} {f0 f1 f2 : ℚ} {N : ℕ} :
    ∀ (ps : List ParticleData) (acc cells : List (List ParticleData)),
      acc.length = N →
      ps.foldl (bucket_step inc n minP f0 f1 f2 N) (.ok acc) = .ok cells →
      cells.length = N ∧
        cells.flatten.Perm (acc.flatten ++
          ps.filter (fun p => !decide (inc = false ∧ p.xsec_scaling_factor ≤ 0))) := by
  intro ps
  induction ps with
  | nil =>
    intro acc cells hlen h
    injection h with h
    subst h
    refine ⟨hlen, ?_⟩
    simp
  | cons p ps IH =>
    intro acc cells hlen h
    rw [List.foldl_cons] at h
    by_cases hskip : inc = false ∧ p.xsec_scaling_factor ≤ 0
    · rw [show bucket_step inc n minP f0 f1 f2 N (.ok acc) p = .ok acc by
        simp [bucket_step, if_pos hskip]] at h
      obtain ⟨h1, h2⟩ := IH acc cells hlen h
      refine ⟨h1, ?_⟩
      rw [List.filter_cons_of_neg (by rw [decide_eq_true hskip]; decide)]
      exact h2
    · by_cases hbad : cell_index_for n minP f0 f1 f2 p < 0 ∨
        (N : ℤ) ≤ cell_index_for n minP f0 f1 f2 p
      · rw [show bucket_step inc n minP f0 f1 f2 N (.ok acc) p = .error .outOfBounds by
          simp only [bucket_step, if_neg hskip]; rw [if_pos hbad]] at h
        rw [foldl_bucket_step_error] at h
        cases h
      · set idx := cell_index_for n minP f0 f1 f2 p with hidx
        have hrange : idx.toNat < acc.length := by
          push_neg at hbad
          omega
        rw [show bucket_step inc n minP f0 f1 f2 N (.ok acc) p =
            .ok (acc.set idx.toNat (acc.getD idx.toNat [] ++ [p])) by
          simp only [bucket_step, if_neg hskip]; rw [if_neg hbad]] at h
        obtain ⟨h1, h2⟩ := IH _ cells (by simpa using hlen) h
        refine ⟨h1, ?_⟩
        rw [List.filter_cons_of_pos (by rw [decide_eq_false hskip]; rfl)]
        have hset : (acc.set idx.toNat (acc.getD idx.toNat [] ++ [p])).flatten.Perm
            (p :: acc.flatten) := flatten_set_append acc idx.toNat p hrange
        have h3 := h2.trans (hset.append_right
          (ps.filter (fun q => !decide (inc = false ∧ q.xsec_scaling_factor ≤ 0))))
        exact h3.trans (List.cons_append p _ _ ▸ List.perm_middle.symm)

lemma kept_filter_eq (inc : Bool) (ps : List ParticleData) :
    ps.filter (fun p => !decide (inc = false ∧ p.xsec_scaling_factor ≤ 0)) =
      if inc then ps else ps.filter (fun p => decide (0 < p.xsec_scaling_factor)) := by
  cases inc with
  | true => simp
  | false =>
    simp only [if_neg (by simp : ¬ (false = true))]
    apply List.filter_congr
    intro p _
    by_cases hp : p.xsec_scaling_factor ≤ 0
    · simp [hp, not_lt.mpr hp]
    · simp [hp, not_le.mp hp]

/-- The union (as a multiset, i.e. up to permutation) of the constructed
cells: the whole particle list on the Normal+Largest fast path, the whole
list when `include_unformed_particles`, and the particles with positive
scaling factor otherwise. -/
lemma gridConstruct_flatten_perm {O : GridOptions} {next : ℚ → ℚ} {fuel : ℕ}
    {minP len : V3} {ps : List ParticleData} {ilen : ℚ} {limit : CellNumberLimitation}
    {inc : Bool} {strat : CellSizeStrategy} {g : Grid}
    (h : gridConstruct O next fuel (minP, len) ps ilen limit inc strat = .ok g) :
    g.cells_.flatten.Perm
      (if O = GridOptions.Normal ∧ strat = CellSizeStrategy.Largest then ps
       else if inc then ps
       else ps.filter (fun p => decide (0 < p.xsec_scaling_factor))) := by
  simp only [gridConstruct] at h
  by_cases hfast : O = GridOptions.Normal ∧ strat = CellSizeStrategy.Largest
  · rw [if_pos hfast] at h
    injection h with h
    subst h
    rw [if_pos hfast]
    simp
  · rw [if_neg hfast] at h
    rw [if_neg hfast]
    rcases hs0 : size_axis O strat limit
        (if O = GridOptions.Normal then (icbrt ps.length : ℤ)
         else max 2 (icbrt ps.length : ℤ)) ilen next fuel len.x with e0 | ⟨n0, f0⟩ <;>
      rw [hs0] at h <;> dsimp only at h
    · cases h
    rcases hs1 : size_axis O strat limit
        (if O = GridOptions.Normal then (icbrt ps.length : ℤ)
         else max 2 (icbrt ps.length : ℤ)) ilen next fuel len.y with e1 | ⟨n1, f1⟩ <;>
      rw [hs1] at h <;> dsimp only at h
    · cases h
    rcases hs2 : size_axis O strat limit
        (if O = GridOptions.Normal then (icbrt ps.length : ℤ)
         else max 2 (icbrt ps.length : ℤ)) ilen next fuel len.z with e2 | ⟨n2, f2⟩ <;>
      rw [hs2] at h <;> dsimp only at h
    · cases h
    by_cases hfall : O = GridOptions.Normal ∧ n0 ≤ 2 ∧ n1 ≤ 2 ∧ n2 ≤ 2
    · rw [if_pos hfall] at h
      injection h with h
      subst h
      simp only [List.flatten_cons, List.flatten_nil, List.append_nil]
      exact List.Perm.refl _
    · rw [if_neg hfall] at h
      rcases hb : bucket_particles inc ⟨n0, n1, n2⟩ minP f0 f1 f2 ((n0 * n1 * n2).toNat) ps
          with eb | cells <;> rw [hb] at h
      · cases h
      injection h with h
      subst h
      obtain ⟨-, hperm⟩ := bucket_loop_perm ps _ cells (by simp) hb
      rw [flatten_replicate_nil, List.nil_append, kept_filter_eq] at hperm
      exact hperm

lemma mem_getD_sub {α : Type} (l : List (List α)) (k : ℕ) :
    ∀ q ∈ l.getD k [], ∃ c ∈ l, q ∈ c := by
  intro q hq
  by_cases hk : k < l.length
  · rw [List.getD_eq_getElem l [] hk] at hq
    exact ⟨l[k], List.getElem_mem hk, hq⟩
  · rw [List.getD_eq_default l [] (by omega)] at hq
    cases hq

lemma translated_xsec (p : ParticleData) (v : V3) :
    (p.translated v).xsec_scaling_factor = p.xsec_scaling_factor := rfl

/-- C2 (amended): for every particle list, both modes and all construction
options, whenever construction succeeds the multiset union of the cell
contents equals: the eligible input set (every particle when
`include_unformed_particles`, otherwise the particles with positive scaling
factor) — except on the Normal+Largest fast path (grid.cc:126-133), which
copies every particle into its single cell without applying the eligibility
filter.  Equality of multisets (`List.Perm` of the concatenations) is
precisely "every eligible particle in exactly one cell, none lost, none
duplicated". -/
theorem C2_cells_union_is_eligible_set
    (O : GridOptions) (next : ℚ → ℚ) (fuel : ℕ) (minP len : V3) (ps : List ParticleData)
    (ilen : ℚ) (limit : CellNumberLimitation) (inc : Bool) (strat : CellSizeStrategy)
    (g : Grid)
    (h : gridConstruct O next fuel (minP, len) ps ilen limit inc strat = .ok g) :
    g.cells_.flatten.Perm
      (if O = GridOptions.Normal ∧ strat = CellSizeStrategy.Largest then ps
       else if inc then ps
       else ps.filter (fun p => decide (0 < p.xsec_scaling_factor))) :=
  gridConstruct_flatten_perm h

/-- Witness for C2 at a concrete input: one eligible particle at the origin,
normal mode, `Optimal` strategy (the construction takes the dilute-fallback
path and produces a single filtered cell). -/
theorem C2_cells_union_is_eligible_set_witness :
    (Grid.mk ⟨1, 1, 1⟩ 1 ⟨1, 1, 1⟩ [[⟨1, ⟨0, 0, 0⟩, 1⟩]]).cells_.flatten.Perm
      (if GridOptions.Normal = GridOptions.Normal ∧
          CellSizeStrategy.Optimal = CellSizeStrategy.Largest then
        [(⟨1, ⟨0, 0, 0⟩, 1⟩ : ParticleData)]
       else if false then [(⟨1, ⟨0, 0, 0⟩, 1⟩ : ParticleData)]
       else [(⟨1, ⟨0, 0, 0⟩, 1⟩ : ParticleData)].filter
         (fun p => decide (0 < p.xsec_scaling_factor))) :=
  C2_cells_union_is_eligible_set GridOptions.Normal nextModel 2 ⟨0, 0, 0⟩ ⟨1, 1, 1⟩
    [⟨1, ⟨0, 0, 0⟩, 1⟩] 1 CellNumberLimitation.None false CellSizeStrategy.Optimal
    (Grid.mk ⟨1, 1, 1⟩ 1 ⟨1, 1, 1⟩ [[⟨1, ⟨0, 0, 0⟩, 1⟩]]) (by with_unfolding_all rfl)

/-- Counterexample to C2 as stated: in normal mode with the `Largest`
strategy and `include_unformed_particles = false`, a particle with scaling
factor 0 (hence an empty eligible set) still ends up in the single cell: the
union of the cell contents is not the eligible input set. -/
theorem C2_counterexample :
    gridConstruct GridOptions.Normal nextModel 2 (⟨0, 0, 0⟩, ⟨1, 1, 1⟩)
        [⟨1, ⟨0, 0, 0⟩, 0⟩] 1 CellNumberLimitation.None false CellSizeStrategy.Largest =
      .ok (Grid.mk ⟨1, 1, 1⟩ 1 ⟨1, 1, 1⟩ [[⟨1, ⟨0, 0, 0⟩, 0⟩]]) ∧
    ([(⟨1, ⟨0, 0, 0⟩, 0⟩ : ParticleData)].filter
      (fun p => decide (0 < p.xsec_scaling_factor))) = [] ∧
    (Grid.mk ⟨1, 1, 1⟩ 1 ⟨1, 1, 1⟩ [[⟨1, ⟨0, 0, 0⟩, 0⟩]]).cells_.flatten ≠ [] := by
  refine ⟨by with_unfolding_all rfl, by with_unfolding_all rfl, by simp⟩

/-- C6 (amended): in both modes and with both strategies — except the
Normal+Largest fast path, which skips the filter — a particle whose scaling
factor is exactly 0 appears, when `include_unformed_particles = false`, in no
cell, in no `search_cell_callback` invocation and in no
`neighbor_cell_callback` invocation. -/
theorem C6_zero_scaling_factor_excluded
    (O : GridOptions) (next : ℚ → ℚ) (fuel : ℕ) (minP len : V3) (ps : List ParticleData)
    (ilen : ℚ) (limit : CellNumberLimitation) (strat : CellSizeStrategy) (g : Grid)
    (hnot : ¬(O = GridOptions.Normal ∧ strat = CellSizeStrategy.Largest))
    (h : gridConstruct O next fuel (minP, len) ps ilen limit false strat = .ok g)
    (p : ParticleData) (hsf : p.xsec_scaling_factor = 0) :
    (∀ c ∈ g.cells_, p ∉ c) ∧ (∀ c ∈ searchCalls g, p ∉ c) ∧
    (∀ pr ∈ neighborCalls O g, p ∉ pr.1 ∧ p ∉ pr.2) := by
  have hperm := gridConstruct_flatten_perm h
  rw [if_neg hnot, if_neg (by simp)] at hperm
  have hnot_mem : ∀ q : ParticleData, q.xsec_scaling_factor = 0 → q ∉ g.cells_.flatten := by
    intro q hq hmem
    have := (hperm.mem_iff).mp hmem
    rw [List.mem_filter] at this
    rw [hq] at this
    simp at this
  have hcells : ∀ c ∈ g.cells_, p ∉ c := by
    intro c hc hpc
    exact hnot_mem p hsf (List.mem_flatten.mpr ⟨c, hc, hpc⟩)
  have hcellAt : ∀ c : I3, p ∉ cellAt g c := by
    intro c hpc
    obtain ⟨l, hl, hpl⟩ := mem_getD_sub g.cells_ _ p hpc
    exact hcells l hl hpl
  have htrans : ∀ (v : V3) (c : I3), p ∉ translateList v (cellAt g c) := by
    intro v c hpc
    obtain ⟨q, hq, hqe⟩ := List.mem_map.mp hpc
    obtain ⟨l, hl, hql⟩ := mem_getD_sub g.cells_ _ q hq
    have hq0 : q.xsec_scaling_factor = 0 := by
      rw [← hsf, ← hqe, translated_xsec]
    exact hnot_mem q hq0 (List.mem_flatten.mpr ⟨l, hl, hql⟩)
  refine ⟨hcells, hcells, ?_⟩
  cases O with
  | Normal =>
    intro pr hpr
    obtain ⟨e, _, hpe⟩ := List.mem_map.mp hpr
    rw [← hpe]
    exact ⟨hcellAt e.1, hcellAt e.2⟩
  | PeriodicBoundaries =>
    intro pr hpr
    obtain ⟨e, _, hpe⟩ := List.mem_map.mp hpr
    rw [← hpe]
    exact ⟨htrans _ e.1, hcellAt e.2.1⟩

/-- Witness for C6 at a concrete input: periodic mode, `Largest` strategy,
one formed and one unformed particle; the unformed one is nowhere. -/
theorem C6_zero_scaling_factor_excluded_witness :
    (∀ c ∈ (Grid.mk ⟨10, 10, 10⟩ 125 ⟨2, 2, 2⟩
        [[⟨1, ⟨1, 1, 1⟩, 1⟩], [], [], [], [], [], [], []]).cells_,
      (⟨2, ⟨6, 6, 6⟩, 0⟩ : ParticleData) ∉ c) ∧
    (∀ c ∈ searchCalls (Grid.mk ⟨10, 10, 10⟩ 125 ⟨2, 2, 2⟩
        [[⟨1, ⟨1, 1, 1⟩, 1⟩], [], [], [], [], [], [], []]),
      (⟨2, ⟨6, 6, 6⟩, 0⟩ : ParticleData) ∉ c) ∧
    (∀ pr ∈ neighborCalls GridOptions.PeriodicBoundaries
        (Grid.mk ⟨10, 10, 10⟩ 125 ⟨2, 2, 2⟩
          [[⟨1, ⟨1, 1, 1⟩, 1⟩], [], [], [], [], [], [], []]),
      (⟨2, ⟨6, 6, 6⟩, 0⟩ : ParticleData) ∉ pr.1 ∧
      (⟨2, ⟨6, 6, 6⟩, 0⟩ : ParticleData) ∉ pr.2) :=
  C6_zero_scaling_factor_excluded GridOptions.PeriodicBoundaries nextModel 2
    ⟨0, 0, 0⟩ ⟨10, 10, 10⟩ [⟨1, ⟨1, 1, 1⟩, 1⟩, ⟨2, ⟨6, 6, 6⟩, 0⟩] 5
    CellNumberLimitation.None CellSizeStrategy.Largest
    (Grid.mk ⟨10, 10, 10⟩ 125 ⟨2, 2, 2⟩
      [[⟨1, ⟨1, 1, 1⟩, 1⟩], [], [], [], [], [], [], []])
    (by rintro ⟨h, -⟩; cases h) (by with_unfolding_all rfl)
    ⟨2, ⟨6, 6, 6⟩, 0⟩ rfl

/-- Counterexample to C6 as stated: on the Normal+Largest fast path with
`include_unformed_particles = false`, the particle with scaling factor 0 sits
in the single cell and in the first `search_cell_callback` invocation. -/
theorem C6_counterexample :
    gridConstruct GridOptions.Normal nextModel 2 (⟨0, 0, 0⟩, ⟨1, 1, 1⟩)
        [⟨1, ⟨0, 0, 0⟩, 0⟩] 1 CellNumberLimitation.None false CellSizeStrategy.Largest =
      .ok (Grid.mk ⟨1, 1, 1⟩ 1 ⟨1, 1, 1⟩ [[⟨1, ⟨0, 0, 0⟩, 0⟩]]) ∧
    (⟨1, ⟨0, 0, 0⟩, 0⟩ : ParticleData).xsec_scaling_factor = 0 ∧
    (∃ c ∈ (Grid.mk ⟨1, 1, 1⟩ 1 ⟨1, 1, 1⟩ [[⟨1, ⟨0, 0, 0⟩, 0⟩]]).cells_,
      (⟨1, ⟨0, 0, 0⟩, 0⟩ : ParticleData) ∈ c) ∧
    (∃ c ∈ searchCalls (Grid.mk ⟨1, 1, 1⟩ 1 ⟨1, 1, 1⟩ [[⟨1, ⟨0, 0, 0⟩, 0⟩]]),
      (⟨1, ⟨0, 0, 0⟩, 0⟩ : ParticleData) ∈ c) := by
  refine ⟨by with_unfolding_all rfl, rfl,
    ⟨[⟨1, ⟨0, 0, 0⟩, 0⟩], by simp, by simp⟩,
    ⟨[⟨1, ⟨0, 0, 0⟩, 0⟩], by simp [searchCalls], by simp⟩⟩

/-- C7 (amended): in normal mode, when the `Optimal` sizing yields at most 2
cells on every axis, construction produces exactly the same grid as the
explicit `Largest` strategy — same cell counts, same volume, same cells and
hence the same enumeration behavior — provided the two paths bucket the same
particles, i.e. when `include_unformed_particles` is set or every particle
has a positive scaling factor (otherwise the fallback filters and the fast
path does not; see the C7 counterexample). -/
theorem C7_dilute_fallback_equals_largest
    (next : ℚ → ℚ) (fuel : ℕ) (minP len : V3) (ps : List ParticleData)
    (ilen : ℚ) (limit : CellNumberLimitation) (inc : Bool)
    (n0 n1 n2 : ℤ) (f0 f1 f2 : ℚ)
    (h0 : size_axis GridOptions.Normal CellSizeStrategy.Optimal limit
      (icbrt ps.length : ℤ) ilen next fuel len.x = .ok (n0, f0))
    (h1 : size_axis GridOptions.Normal CellSizeStrategy.Optimal limit
      (icbrt ps.length : ℤ) ilen next fuel len.y = .ok (n1, f1))
    (h2 : size_axis GridOptions.Normal CellSizeStrategy.Optimal limit
      (icbrt ps.length : ℤ) ilen next fuel len.z = .ok (n2, f2))
    (hle : n0 ≤ 2 ∧ n1 ≤ 2 ∧ n2 ≤ 2)
    (hel : inc = true ∨ ∀ p ∈ ps, 0 < p.xsec_scaling_factor) :
    gridConstruct GridOptions.Normal next fuel (minP, len) ps ilen limit inc
        CellSizeStrategy.Optimal =
      gridConstruct GridOptions.Normal next fuel (minP, len) ps ilen limit inc
        CellSizeStrategy.Largest := by
  have hcells : (if inc = true then ps
      else ps.filter (fun p => decide (0 < p.xsec_scaling_factor))) = ps := by
    by_cases hinc : inc = true
    · rw [if_pos hinc]
    · rw [if_neg hinc]
      exact List.filter_eq_self.mpr
        (fun p hp => decide_eq_true (hel.resolve_left hinc p hp))
  simp only [gridConstruct, reduceCtorEq, reduceIte, eq_self_iff_true, true_and, and_true,
    false_and, and_false, if_true, if_false]
  rw [h0]
  dsimp only
  rw [h1]
  dsimp only
  rw [h2]
  dsimp only
  rw [if_pos ⟨hle.1, hle.2.1, hle.2.2⟩, hcells]

/-- Witness for C7 at a concrete input: one particle, a unit box, interaction
length 10 (so one cell per axis in the fallback). -/
theorem C7_dilute_fallback_equals_largest_witness :
    gridConstruct GridOptions.Normal nextModel 2 (⟨0, 0, 0⟩, ⟨1, 1, 1⟩)
        [⟨1, ⟨0, 0, 0⟩, 1⟩] 10 CellNumberLimitation.None true CellSizeStrategy.Optimal =
      gridConstruct GridOptions.Normal nextModel 2 (⟨0, 0, 0⟩, ⟨1, 1, 1⟩)
        [⟨1, ⟨0, 0, 0⟩, 1⟩] 10 CellNumberLimitation.None true CellSizeStrategy.Largest :=
  C7_dilute_fallback_equals_largest nextModel 2 ⟨0, 0, 0⟩ ⟨1, 1, 1⟩
    [⟨1, ⟨0, 0, 0⟩, 1⟩] 10 CellNumberLimitation.None true 1 1 1 (1 / 10) (1 / 10) (1 / 10)
    (by with_unfolding_all rfl) (by with_unfolding_all rfl) (by with_unfolding_all rfl)
    ⟨by omega, by omega, by omega⟩ (Or.inl rfl)

/-- Counterexample to C7 as stated: with an ineligible particle present and
`include_unformed_particles = false`, the dilute fallback filters it out but
the `Largest` fast path keeps it, so the two constructions differ even though
every computed axis count is at most 2. -/
theorem C7_counterexample :
    size_axis GridOptions.Normal CellSizeStrategy.Optimal CellNumberLimitation.None
        (icbrt 1 : ℤ) 10 nextModel 2 (1 : ℚ) = .ok (1, 1 / 10) ∧
    gridConstruct GridOptions.Normal nextModel 2 (⟨0, 0, 0⟩, ⟨1, 1, 1⟩)
        [⟨1, ⟨0, 0, 0⟩, 0⟩] 10 CellNumberLimitation.None false CellSizeStrategy.Optimal ≠
      gridConstruct GridOptions.Normal nextModel 2 (⟨0, 0, 0⟩, ⟨1, 1, 1⟩)
        [⟨1, ⟨0, 0, 0⟩, 0⟩] 10 CellNumberLimitation.None false CellSizeStrategy.Largest := by
  constructor
  · with_unfolding_all rfl
  · with_unfolding_all decide

/-! ## Counting machinery for the neighbor enumerations -/

lemma count_flatMap_single {α β : Type} [DecidableEq α] [BEq β] [LawfulBEq β]
    (l : List α) (f : α → List β) (b : β) (key : α) (hnd : l.Nodup)
    (hz : ∀ a ∈ l, a ≠ key → b ∉ f a) :
    (l.flatMap f).count b = if key ∈ l then (f key).count b else 0 := by
  induction l with
  | nil => simp
  | cons a l IH =>
    obtain ⟨hal, hl⟩ := List.nodup_cons.mp hnd
    rw [List.flatMap_cons, List.count_append,
      IH hl (fun x hx hxk => hz x (List.mem_cons_of_mem a hx) hxk)]
    by_cases hak : a = key
    · subst hak
      rw [if_neg hal, if_pos (List.mem_cons_self a l)]
      try omega
    · rw [List.count_eq_zero.mpr (hz a (List.mem_cons_self a l) hak)]
      by_cases hkl : key ∈ l
      · rw [if_pos hkl, if_pos (List.mem_cons_of_mem a hkl)]
        try omega
      · rw [if_neg hkl, if_neg (by
          intro hc
          rcases List.mem_cons.mp hc with hc | hc
          · exact hak hc.symm
          · exact hkl hc)]
        try omega

lemma rangeZ_nodup (n : ℤ) : (rangeZ n).Nodup := by
  unfold rangeZ
  apply List.Nodup.map
  · intro a b h
    exact Int.ofNat.inj h
  · exact List.nodup_range n.toNat

lemma mem_rangeZ {n a : ℤ} : a ∈ rangeZ n ↔ 0 ≤ a ∧ a < n := by
  unfold rangeZ
  rw [List.mem_map]
  constructor
  · rintro ⟨k, hk, rfl⟩
    rw [List.mem_range] at hk
    simp only [Int.ofNat_eq_natCast]
    omega
  · rintro ⟨h0, hn⟩
    refine ⟨a.toNat, List.mem_range.mpr (by omega), ?_⟩
    simp only [Int.ofNat_eq_natCast]
    omega

lemma d_list_normal_nodup (na c : ℤ) : (d_list_normal na c).Nodup := by
  unfold d_list_normal ZERO ZERO_ONE MINUS_ONE_ZERO MINUS_ONE_ZERO_ONE
  split_ifs <;> decide

lemma dz_list_normal_nodup (n2 z : ℤ) : (dz_list_normal n2 z).Nodup := by
  unfold dz_list_normal ZERO ZERO_ONE
  split_ifs <;> decide

lemma mem_dz_list_normal {n2 z d : ℤ} (h0 : 0 ≤ z) (h1 : z < n2) :
    d ∈ dz_list_normal n2 z ↔ (d = 0 ∨ d = 1) ∧ z + d < n2 := by
  unfold dz_list_normal ZERO ZERO_ONE
  split_ifs with h <;> simp [List.mem_cons] <;> omega

lemma mem_d_list_normal {na c d : ℤ} (h0 : 0 ≤ c) (h1 : c < na) :
    d ∈ d_list_normal na c ↔ (-1 ≤ d ∧ d ≤ 1) ∧ 0 ≤ c + d ∧ c + d < na := by
  unfold d_list_normal ZERO ZERO_ONE MINUS_ONE_ZERO MINUS_ONE_ZERO_ONE
  split_ifs with hA hB hC <;> simp [List.mem_cons] <;> omega

lemma make_index_sub (n : I3) (a b : I3) :
    make_index n (b.c0 - a.c0) (b.c1 - a.c1) (b.c2 - a.c2) =
      make_index n b.c0 b.c1 b.c2 - make_index n a.c0 a.c1 a.c2 := by
  unfold make_index; ring

lemma make_index_neg_delta (n : I3) (a b : I3) :
    make_index n (a.c0 - b.c0) (a.c1 - b.c1) (a.c2 - b.c2) =
      -make_index n (b.c0 - a.c0) (b.c1 - a.c1) (b.c2 - a.c2) := by
  unfold make_index; ring

lemma flat_step_pos {A n0 dx : ℤ} (hA : 1 ≤ A) (hn0 : 1 ≤ n0) (hdx : -1 ≤ dx)
    (hx1 : n0 = 1 → dx = 0) : 0 < A * n0 + dx := by
  by_cases hc : n0 = 1
  · have := hx1 hc
    subst hc
    omega
  · have h2 : 2 ≤ n0 := by omega
    nlinarith [mul_nonneg (show (0 : ℤ) ≤ A - 1 by omega) (show (0 : ℤ) ≤ n0 by omega)]

/-- The plus-direction filter is positive exactly on lexicographically
forward displacements: if `(dz, dy, dx)` is lexicographically positive (z
most significant) then the flat-index difference is positive. -/
lemma make_index_lex_pos {n : I3} {dx dy dz : ℤ}
    (hx : -1 ≤ dx ∧ dx ≤ 1) (hy : -1 ≤ dy ∧ dy ≤ 1)
    (hn0 : 1 ≤ n.c0) (hn1 : 1 ≤ n.c1)
    (hx1 : n.c0 = 1 → dx = 0) (hy1 : n.c1 = 1 → dy = 0)
    (hlex : 0 < dz ∨ (dz = 0 ∧ 0 < dy) ∨ (dz = 0 ∧ dy = 0 ∧ 0 < dx)) :
    0 < make_index n dx dy dz := by
  unfold make_index
  rcases hlex with h | ⟨h1, h2⟩ | ⟨h1, h2, h3⟩
  · have hA : 1 ≤ dz * n.c1 + dy := by
      by_cases hc1 : n.c1 = 1
      · have := hy1 hc1
        rw [hc1]
        omega
      · have hge : 2 ≤ n.c1 := by omega
        nlinarith [mul_nonneg (show (0 : ℤ) ≤ dz - 1 by omega)
          (show (0 : ℤ) ≤ n.c1 by omega)]
    exact flat_step_pos hA hn0 hx.1 hx1
  · subst h1
    have hA : 1 ≤ 0 * n.c1 + dy := by omega
    exact flat_step_pos hA hn0 hx.1 hx1
  · subst h1; subst h2
    simp only [zero_mul, add_zero, zero_add]
    omega

lemma mem_normalEmitX {n : I3} {x y z dy dz : ℤ} {e : I3 × I3}
    (he : e ∈ normalEmitX n x y z dy dz) :
    e.1 = ⟨x, y, z⟩ ∧ e.2.c1 = y + dy ∧ e.2.c2 = z + dz := by
  obtain ⟨dx, -, hmem⟩ := List.mem_flatMap.mp he
  split at hmem
  · rw [List.mem_singleton] at hmem
    subst hmem
    exact ⟨rfl, rfl, rfl⟩
  · cases hmem

lemma mem_normalEmitY {n : I3} {x y z dz : ℤ} {e : I3 × I3}
    (he : e ∈ normalEmitY n x y z dz) :
    e.1 = ⟨x, y, z⟩ ∧ e.2.c2 = z + dz := by
  obtain ⟨dy, -, hmem⟩ := List.mem_flatMap.mp he
  obtain ⟨h1, -, h3⟩ := mem_normalEmitX hmem
  exact ⟨h1, h3⟩

lemma mem_normalEmit {n : I3} {x y z : ℤ} {e : I3 × I3}
    (he : e ∈ normalEmit n x y z) : e.1 = ⟨x, y, z⟩ := by
  obtain ⟨dz, -, hmem⟩ := List.mem_flatMap.mp he
  exact (mem_normalEmitY hmem).1

lemma count_normalEmitX {n : I3} {x y z dy dz : ℤ} {a b : I3} :
    (normalEmitX n x y z dy dz).count (a, b) =
      if a = ⟨x, y, z⟩ ∧ b.c1 = y + dy ∧ b.c2 = z + dz ∧
          (b.c0 - x) ∈ d_list_normal n.c0 x ∧ 0 < make_index n (b.c0 - x) dy dz
      then 1 else 0 := by
  unfold normalEmitX
  have hz : ∀ dx ∈ d_list_normal n.c0 x, dx ≠ b.c0 - x →
      (a, b) ∉ (if 0 < make_index n dx dy dz then
        [((⟨x, y, z⟩ : I3), (⟨x + dx, y + dy, z + dz⟩ : I3))] else []) := by
    intro dx hdx hne hmem
    split at hmem
    · rw [List.mem_singleton, Prod.mk.injEq] at hmem
      apply hne
      have := congrArg I3.c0 hmem.2
      simp only at this
      omega
    · cases hmem
  rw [count_flatMap_single (d_list_normal n.c0 x)
    (fun dx => if 0 < make_index n dx dy dz then
      [((⟨x, y, z⟩ : I3), (⟨x + dx, y + dy, z + dz⟩ : I3))] else [])
    (a, b) (b.c0 - x) (d_list_normal_nodup n.c0 x) hz]
  by_cases hel : (b.c0 - x) ∈ d_list_normal n.c0 x
  · rw [if_pos hel]
    by_cases hpos : 0 < make_index n (b.c0 - x) dy dz
    · rw [if_pos hpos]
      by_cases hab : a = (⟨x, y, z⟩ : I3) ∧ b.c1 = y + dy ∧ b.c2 = z + dz
      · rw [if_pos ⟨hab.1, hab.2.1, hab.2.2, hel, hpos⟩]
        have hb : b = (⟨x + (b.c0 - x), y + dy, z + dz⟩ : I3) := by
          cases b
          simp only [I3.mk.injEq]
          obtain ⟨-, h2, h3⟩ := hab
          refine ⟨by omega, by simpa using h2, by simpa using h3⟩
        have hpair : ((⟨x, y, z⟩ : I3), (⟨x + (b.c0 - x), y + dy, z + dz⟩ : I3)) = (a, b) := by
          rw [hab.1]
          exact congrArg _ hb.symm
        rw [hpair]
        exact List.count_singleton_self _
      · rw [if_neg (fun hc => hab ⟨hc.1, hc.2.1, hc.2.2.1⟩)]
        rw [List.count_eq_zero]
        intro hmem
        rw [List.mem_singleton, Prod.mk.injEq] at hmem
        have h1 := congrArg I3.c1 hmem.2
        have h2 := congrArg I3.c2 hmem.2
        simp only at h1 h2
        exact hab ⟨hmem.1, by omega, by omega⟩
    · rw [if_neg hpos, if_neg (fun hc => hpos hc.2.2.2.2)]
      simp
  · rw [if_neg hel, if_neg (fun hc => hel hc.2.2.2.1)]

lemma count_normalEmitY {n : I3} {x y z dz : ℤ} {a b : I3} :
    (normalEmitY n x y z dz).count (a, b) =
      if a = ⟨x, y, z⟩ ∧ b.c2 = z + dz ∧
          (b.c1 - y) ∈ d_list_normal n.c1 y ∧ (b.c0 - x) ∈ d_list_normal n.c0 x ∧
          0 < make_index n (b.c0 - x) (b.c1 - y) dz
      then 1 else 0 := by
  unfold normalEmitY
  have hz : ∀ dy ∈ d_list_normal n.c1 y, dy ≠ b.c1 - y →
      (a, b) ∉ normalEmitX n x y z dy dz := by
    intro dy hdy hne hmem
    obtain ⟨-, h2, -⟩ := mem_normalEmitX hmem
    apply hne
    simp only at h2
    omega
  rw [count_flatMap_single (d_list_normal n.c1 y) (fun dy => normalEmitX n x y z dy dz)
    (a, b) (b.c1 - y) (d_list_normal_nodup n.c1 y) hz]
  by_cases hel : (b.c1 - y) ∈ d_list_normal n.c1 y
  · rw [if_pos hel, count_normalEmitX]
    have hyy : y + (b.c1 - y) = b.c1 := by omega
    by_cases hc : a = (⟨x, y, z⟩ : I3) ∧ b.c2 = z + dz ∧
        (b.c0 - x) ∈ d_list_normal n.c0 x ∧ 0 < make_index n (b.c0 - x) (b.c1 - y) dz
    · rw [if_pos ⟨hc.1, hyy.symm, hc.2.1, hc.2.2.1, hc.2.2.2⟩,
        if_pos ⟨hc.1, hc.2.1, hel, hc.2.2.1, hc.2.2.2⟩]
    · rw [if_neg (by
        rintro ⟨h1, -, h3, h4, h5⟩
        exact hc ⟨h1, h3, h4, h5⟩), if_neg (by
        rintro ⟨h1, h3, -, h4, h5⟩
        exact hc ⟨h1, h3, h4, h5⟩)]
  · rw [if_neg hel, if_neg (fun hc => hel hc.2.2.1)]

lemma count_normalEmit {n : I3} {x y z : ℤ} {a b : I3} :
    (normalEmit n x y z).count (a, b) =
      if a = ⟨x, y, z⟩ ∧ (b.c2 - z) ∈ dz_list_normal n.c2 z ∧
          (b.c1 - y) ∈ d_list_normal n.c1 y ∧ (b.c0 - x) ∈ d_list_normal n.c0 x ∧
          0 < make_index n (b.c0 - x) (b.c1 - y) (b.c2 - z)
      then 1 else 0 := by
  unfold normalEmit
  have hz : ∀ dz ∈ dz_list_normal n.c2 z, dz ≠ b.c2 - z →
      (a, b) ∉ normalEmitY n x y z dz := by
    intro dz hdz hne hmem
    obtain ⟨-, h2⟩ := mem_normalEmitY hmem
    apply hne
    simp only at h2
    omega
  rw [count_flatMap_single (dz_list_normal n.c2 z) (fun dz => normalEmitY n x y z dz)
    (a, b) (b.c2 - z) (dz_list_normal_nodup n.c2 z) hz]
  by_cases hel : (b.c2 - z) ∈ dz_list_normal n.c2 z
  · rw [if_pos hel, count_normalEmitY]
    have hzz : z + (b.c2 - z) = b.c2 := by omega
    by_cases hc : a = (⟨x, y, z⟩ : I3) ∧
        (b.c1 - y) ∈ d_list_normal n.c1 y ∧ (b.c0 - x) ∈ d_list_normal n.c0 x ∧
        0 < make_index n (b.c0 - x) (b.c1 - y) (b.c2 - z)
    · rw [if_pos ⟨hc.1, hzz.symm, hc.2.1, hc.2.2.1, hc.2.2.2⟩,
        if_pos ⟨hc.1, hel, hc.2.1, hc.2.2.1, hc.2.2.2⟩]
    · rw [if_neg (by
        rintro ⟨h1, -, h3, h4, h5⟩
        exact hc ⟨h1, h3, h4, h5⟩), if_neg (by
        rintro ⟨h1, -, h3, h4, h5⟩
        exact hc ⟨h1, h3, h4, h5⟩)]
  · rw [if_neg hel, if_neg (fun hc => hel hc.2.1)]

lemma count_normalPairTrace (n : I3) (a b : I3) :
    (normalPairTrace n).count (a, b) =
      if inCellRange n a ∧ (b.c2 - a.c2) ∈ dz_list_normal n.c2 a.c2 ∧
          (b.c1 - a.c1) ∈ d_list_normal n.c1 a.c1 ∧
          (b.c0 - a.c0) ∈ d_list_normal n.c0 a.c0 ∧
          0 < make_index n (b.c0 - a.c0) (b.c1 - a.c1) (b.c2 - a.c2)
      then 1 else 0 := by
  unfold normalPairTrace
  have hzz : ∀ z ∈ rangeZ n.c2, z ≠ a.c2 →
      (a, b) ∉ (rangeZ n.c1).flatMap fun y => (rangeZ n.c0).flatMap fun x =>
        normalEmit n x y z := by
    intro z hz hne hmem
    obtain ⟨y, -, hmem⟩ := List.mem_flatMap.mp hmem
    obtain ⟨x, -, hmem⟩ := List.mem_flatMap.mp hmem
    have := congrArg I3.c2 (mem_normalEmit hmem)
    simp only at this
    exact hne this.symm
  rw [count_flatMap_single (rangeZ n.c2)
    (fun z => (rangeZ n.c1).flatMap fun y => (rangeZ n.c0).flatMap fun x =>
      normalEmit n x y z) (a, b) a.c2 (rangeZ_nodup n.c2) hzz]
  by_cases h2 : a.c2 ∈ rangeZ n.c2
  case neg =>
    rw [if_neg h2, if_neg (by
      rintro ⟨⟨-, -, -, -, hz0, hz1⟩, -⟩
      exact h2 (mem_rangeZ.mpr ⟨hz0, hz1⟩))]
  rw [if_pos h2]
  have hzy : ∀ y ∈ rangeZ n.c1, y ≠ a.c1 →
      (a, b) ∉ (rangeZ n.c0).flatMap fun x => normalEmit n x y a.c2 := by
    intro y hy hne hmem
    obtain ⟨x, -, hmem⟩ := List.mem_flatMap.mp hmem
    have := congrArg I3.c1 (mem_normalEmit hmem)
    simp only at this
    exact hne this.symm
  rw [count_flatMap_single (rangeZ n.c1)
    (fun y => (rangeZ n.c0).flatMap fun x => normalEmit n x y a.c2)
    (a, b) a.c1 (rangeZ_nodup n.c1) hzy]
  by_cases h1 : a.c1 ∈ rangeZ n.c1
  case neg =>
    rw [if_neg h1, if_neg (by
      rintro ⟨⟨-, -, hy0, hy1, -, -⟩, -⟩
      exact h1 (mem_rangeZ.mpr ⟨hy0, hy1⟩))]
  rw [if_pos h1]
  have hzx : ∀ x ∈ rangeZ n.c0, x ≠ a.c0 → (a, b) ∉ normalEmit n x a.c1 a.c2 := by
    intro x hx hne hmem
    have := congrArg I3.c0 (mem_normalEmit hmem)
    simp only at this
    exact hne this.symm
  rw [count_flatMap_single (rangeZ n.c0) (fun x => normalEmit n x a.c1 a.c2)
    (a, b) a.c0 (rangeZ_nodup n.c0) hzx]
  by_cases h0 : a.c0 ∈ rangeZ n.c0
  case neg =>
    rw [if_neg h0, if_neg (by
      rintro ⟨⟨hx0, hx1, -, -, -, -⟩, -⟩
      exact h0 (mem_rangeZ.mpr ⟨hx0, hx1⟩))]
  rw [if_pos h0, count_normalEmit]
  have haeq : a = (⟨a.c0, a.c1, a.c2⟩ : I3) := by cases a; rfl
  rw [mem_rangeZ] at h0 h1 h2
  by_cases hc : (b.c2 - a.c2) ∈ dz_list_normal n.c2 a.c2 ∧
      (b.c1 - a.c1) ∈ d_list_normal n.c1 a.c1 ∧
      (b.c0 - a.c0) ∈ d_list_normal n.c0 a.c0 ∧
      0 < make_index n (b.c0 - a.c0) (b.c1 - a.c1) (b.c2 - a.c2)
  · rw [if_pos ⟨haeq, hc.1, hc.2.1, hc.2.2.1, hc.2.2.2⟩,
      if_pos ⟨⟨h0.1, h0.2, h1.1, h1.2, h2.1, h2.2⟩, hc.1, hc.2.1, hc.2.2.1, hc.2.2.2⟩]
  · rw [if_neg (by
      rintro ⟨-, hx1, hx2, hx3, hx4⟩
      exact hc ⟨hx1, hx2, hx3, hx4⟩), if_neg (by
      rintro ⟨-, hx1, hx2, hx3, hx4⟩
      exact hc ⟨hx1, hx2, hx3, hx4⟩)]

lemma i3_ext {a b : I3} (h0 : a.c0 = b.c0) (h1 : a.c1 = b.c1) (h2 : a.c2 = b.c2) :
    a = b := by
  cases a; cases b
  simp only [I3.mk.injEq]
  exact ⟨h0, h1, h2⟩

/-- Soundness of an emitted pair: both cells in range, distinct, adjacent. -/
lemma normal_count_condition_sound {n a b : I3}
    (hc : inCellRange n a ∧ (b.c2 - a.c2) ∈ dz_list_normal n.c2 a.c2 ∧
      (b.c1 - a.c1) ∈ d_list_normal n.c1 a.c1 ∧
      (b.c0 - a.c0) ∈ d_list_normal n.c0 a.c0 ∧
      0 < make_index n (b.c0 - a.c0) (b.c1 - a.c1) (b.c2 - a.c2)) :
    inCellRange n a ∧ inCellRange n b ∧ a ≠ b ∧ adjacentCells a b := by
  obtain ⟨hA, hz, hy, hx, hpos⟩ := hc
  obtain ⟨hx0, hx1, hy0, hy1, hz0, hz1⟩ := hA
  rw [mem_dz_list_normal hz0 hz1] at hz
  rw [mem_d_list_normal hy0 hy1] at hy
  rw [mem_d_list_normal hx0 hx1] at hx
  refine ⟨⟨hx0, hx1, hy0, hy1, hz0, hz1⟩,
    ⟨by omega, by omega, by omega, by omega, by omega, by omega⟩, ?_,
    abs_le.mpr ⟨by omega, by omega⟩, abs_le.mpr ⟨by omega, by omega⟩,
    abs_le.mpr ⟨by omega, by omega⟩⟩
  rintro rfl
  simp only [sub_self] at hpos
  unfold make_index at hpos
  omega

/-- Completeness for the forward orientation: an adjacent pair whose
displacement is lexicographically positive is emitted exactly once from the
lower cell and never from the upper cell. -/
lemma normal_count_orientation {n a b : I3}
    (hA : inCellRange n a) (hB : inCellRange n b) (hadj : adjacentCells a b)
    (hlex : 0 < b.c2 - a.c2 ∨ (b.c2 - a.c2 = 0 ∧ 0 < b.c1 - a.c1) ∨
      (b.c2 - a.c2 = 0 ∧ b.c1 - a.c1 = 0 ∧ 0 < b.c0 - a.c0)) :
    (normalPairTrace n).count (a, b) = 1 ∧ (normalPairTrace n).count (b, a) = 0 := by
  obtain ⟨hx0, hx1, hy0, hy1, hz0, hz1⟩ := hA
  obtain ⟨hbx0, hbx1, hby0, hby1, hbz0, hbz1⟩ := hB
  obtain ⟨ha0, ha1, ha2⟩ := hadj
  rw [abs_le] at ha0 ha1 ha2
  have hD : 0 < make_index n (b.c0 - a.c0) (b.c1 - a.c1) (b.c2 - a.c2) :=
    make_index_lex_pos ⟨by omega, by omega⟩ ⟨by omega, by omega⟩
      (by omega) (by omega) (fun h => by omega) (fun h => by omega) hlex
  constructor
  · rw [count_normalPairTrace]
    rw [if_pos ⟨⟨hx0, hx1, hy0, hy1, hz0, hz1⟩,
      (mem_dz_list_normal hz0 hz1).mpr ⟨by omega, by omega⟩,
      (mem_d_list_normal hy0 hy1).mpr ⟨⟨by omega, by omega⟩, by omega, by omega⟩,
      (mem_d_list_normal hx0 hx1).mpr ⟨⟨by omega, by omega⟩, by omega, by omega⟩, hD⟩]
  · rw [count_normalPairTrace]
    rw [if_neg]
    rintro ⟨-, -, -, -, hpos⟩
    rw [make_index_neg_delta] at hpos
    omega

/-- The normal traversal realizes every unordered pair of distinct, in-range,
geometrically adjacent cells exactly once and nothing else. -/
lemma normalPairTrace_pairCount (n : I3) (a b : I3) :
    pairCount (normalPairTrace n) a b =
      if inCellRange n a ∧ inCellRange n b ∧ a ≠ b ∧ adjacentCells a b then 1 else 0 := by
  by_cases hR : inCellRange n a ∧ inCellRange n b ∧ a ≠ b ∧ adjacentCells a b
  · obtain ⟨hA, hB, hne, hadj⟩ := hR
    have hne' : ¬(b.c0 - a.c0 = 0 ∧ b.c1 - a.c1 = 0 ∧ b.c2 - a.c2 = 0) := by
      rintro ⟨h1, h2, h3⟩
      exact hne (i3_ext (by omega) (by omega) (by omega))
    have htri : (0 < b.c2 - a.c2 ∨ (b.c2 - a.c2 = 0 ∧ 0 < b.c1 - a.c1) ∨
        (b.c2 - a.c2 = 0 ∧ b.c1 - a.c1 = 0 ∧ 0 < b.c0 - a.c0)) ∨
        (0 < a.c2 - b.c2 ∨ (a.c2 - b.c2 = 0 ∧ 0 < a.c1 - b.c1) ∨
        (a.c2 - b.c2 = 0 ∧ a.c1 - b.c1 = 0 ∧ 0 < a.c0 - b.c0)) := by omega
    rw [if_pos ⟨hA, hB, hne, hadj⟩]
    unfold pairCount
    rcases htri with hl | hl
    · obtain ⟨hc1, hc2⟩ := normal_count_orientation hA hB hadj hl
      omega
    · have hadj' : adjacentCells b a := by
        obtain ⟨h1, h2, h3⟩ := hadj
        exact ⟨by rw [abs_sub_comm]; exact h1, by rw [abs_sub_comm]; exact h2,
          by rw [abs_sub_comm]; exact h3⟩
      obtain ⟨hc1, hc2⟩ := normal_count_orientation hB hA hadj' hl
      omega
  · rw [if_neg hR]
    unfold pairCount
    have h1 : (normalPairTrace n).count (a, b) = 0 := by
      rw [count_normalPairTrace, if_neg]
      intro hc
      exact hR (normal_count_condition_sound hc)
    have h2 : (normalPairTrace n).count (b, a) = 0 := by
      rw [count_normalPairTrace, if_neg]
      intro hc
      obtain ⟨hB', hA', hne', hadj'⟩ := normal_count_condition_sound hc
      refine hR ⟨hA', hB', hne'.symm, ?_⟩
      obtain ⟨q1, q2, q3⟩ := hadj'
      exact ⟨by rw [abs_sub_comm]; exact q1, by rw [abs_sub_comm]; exact q2,
        by rw [abs_sub_comm]; exact q3⟩
    omega

/-- C4: in normal mode, the per-cell clipped offset sets, filtered by a
strictly positive flat-index difference, realize the forward (plus-direction)
neighbor scheme exactly: over the whole traversal, every unordered pair of
distinct, in-range, geometrically adjacent cells is passed to the neighbor
callback exactly once, self-pairs never, and non-adjacent pairs never. -/
theorem C4_normal_mode_pairs_exactly_once (n : I3) (a b : I3) :
    pairCount (normalPairTrace n) a b =
      if inCellRange n a ∧ inCellRange n b ∧ a ≠ b ∧ adjacentCells a b then 1 else 0 :=
  normalPairTrace_pairCount n a b

/-! ## Counting machinery for the periodic enumeration -/

/-- The wrap flag whose wrap sign is the given value (inverse of `wrapSign`
on `{-1, 0, 1}`). -/
def wrapOfSign (s : ℤ) : NeedsToWrap :=
  if s = 1 then .PlusLength else if s = -1 then .MinusLength else .No

lemma wrapOfSign_wrapSign (wr : NeedsToWrap) : wrapOfSign (wrapSign wr) = wr := by
  cases wr <;> decide

lemma wrapSign_wrapOfSign {s : ℤ} (h : -1 ≤ s ∧ s ≤ 1) : wrapSign (wrapOfSign s) = s := by
  have hc : s = -1 ∨ s = 0 ∨ s = 1 := by omega
  rcases hc with rfl | rfl | rfl <;> decide

lemma wrapOfSign_cases {s : ℤ} (h : -1 ≤ s ∧ s ≤ 1) :
    (wrapOfSign s = .No ↔ s = 0) ∧ (wrapOfSign s = .PlusLength ↔ s = 1) ∧
    (wrapOfSign s = .MinusLength ↔ s = -1) := by
  have hc : s = -1 ∨ s = 0 ∨ s = 1 := by omega
  rcases hc with rfl | rfl | rfl <;> refine ⟨⟨?_, ?_⟩, ⟨?_, ?_⟩, ⟨?_, ?_⟩⟩ <;> decide

lemma dz_list_periodic_nodup (n2 z : ℤ) : (dz_list_periodic n2 z).Nodup := by
  unfold dz_list_periodic
  split_ifs <;> simp [NeighborLookup.mk.injEq] <;> omega

lemma d3_list_periodic_nodup (na c : ℤ) : (d3_list_periodic na c).Nodup := by
  unfold d3_list_periodic
  split_ifs <;> simp [NeighborLookup.mk.injEq] <;> omega

lemma mem_dz_list_periodic {n2 z : ℤ} (h0 : 0 ≤ z) (h1 : z < n2) {j : ℤ}
    {wr : NeedsToWrap} :
    (⟨j, wr⟩ : NeighborLookup) ∈ dz_list_periodic n2 z ↔
      (wr = .No ∧ (j = z ∨ (j = z + 1 ∧ j < n2))) ∨
      (wr = .MinusLength ∧ z = n2 - 1 ∧ j = 0) := by
  unfold dz_list_periodic
  split_ifs with h <;> cases wr <;>
    simp [List.mem_cons, NeighborLookup.mk.injEq] <;> omega

lemma mem_d3_list_periodic {na c : ℤ} (h0 : 0 ≤ c) (h1 : c < na) (h2 : 2 ≤ na)
    {j : ℤ} {wr : NeedsToWrap} :
    (⟨j, wr⟩ : NeighborLookup) ∈ d3_list_periodic na c ↔
      (wr = .No ∧ c - 1 ≤ j ∧ j ≤ c + 1 ∧ 0 ≤ j ∧ j < na) ∨
      (wr = .PlusLength ∧ c = 0 ∧ j = na - 1) ∨
      (wr = .MinusLength ∧ c = na - 1 ∧ j = 0) := by
  unfold d3_list_periodic
  split_ifs with hA hB <;> cases wr <;>
    simp [List.mem_cons, NeighborLookup.mk.injEq] <;> omega

lemma mem_periodicEmitX {n : I3} {x y z : ℤ} {ey ez : NeighborLookup} {e : I3 × I3 × I3}
    (he : e ∈ periodicEmitX n x y z ey ez) :
    e.1 = ⟨x, y, z⟩ ∧ e.2.1.c1 = ey.index ∧ e.2.2.c1 = wrapSign ey.wrap ∧
      e.2.1.c2 = ez.index ∧ e.2.2.c2 = wrapSign ez.wrap := by
  obtain ⟨ex, -, hmem⟩ := List.mem_flatMap.mp he
  split at hmem
  · rw [List.mem_singleton] at hmem
    subst hmem
    exact ⟨rfl, rfl, rfl, rfl, rfl⟩
  · cases hmem

lemma mem_periodicEmitY {n : I3} {x y z : ℤ} {ez : NeighborLookup} {e : I3 × I3 × I3}
    (he : e ∈ periodicEmitY n x y z ez) :
    e.1 = ⟨x, y, z⟩ ∧ e.2.1.c2 = ez.index ∧ e.2.2.c2 = wrapSign ez.wrap := by
  obtain ⟨ey, -, hmem⟩ := List.mem_flatMap.mp he
  obtain ⟨h1, -, -, h4, h5⟩ := mem_periodicEmitX hmem
  exact ⟨h1, h4, h5⟩

lemma mem_periodicEmit {n : I3} {x y z : ℤ} {e : I3 × I3 × I3}
    (he : e ∈ periodicEmit n x y z) : e.1 = ⟨x, y, z⟩ := by
  obtain ⟨ez, -, hmem⟩ := List.mem_flatMap.mp he
  exact (mem_periodicEmitY hmem).1

/-- Every wrap sign recorded in the trace is in `{-1, 0, 1}`. -/
lemma mem_periodicTrace_wrap {n : I3} {e : I3 × I3 × I3} (he : e ∈ periodicTrace n) :
    (-1 ≤ e.2.2.c0 ∧ e.2.2.c0 ≤ 1) ∧ (-1 ≤ e.2.2.c1 ∧ e.2.2.c1 ≤ 1) ∧
      (-1 ≤ e.2.2.c2 ∧ e.2.2.c2 ≤ 1) := by
  obtain ⟨z, -, he⟩ := List.mem_flatMap.mp he
  obtain ⟨y, -, he⟩ := List.mem_flatMap.mp he
  obtain ⟨x, -, he⟩ := List.mem_flatMap.mp he
  obtain ⟨ez, -, he⟩ := List.mem_flatMap.mp he
  obtain ⟨ey, -, he⟩ := List.mem_flatMap.mp he
  obtain ⟨ex, -, he⟩ := List.mem_flatMap.mp he
  split at he
  · rw [List.mem_singleton] at he
    subst he
    have hb : ∀ wr : NeedsToWrap, -1 ≤ wrapSign wr ∧ wrapSign wr ≤ 1 := by
      intro wr
      cases wr <;> decide
    exact ⟨hb ex.wrap, hb ey.wrap, hb ez.wrap⟩
  · cases he

/-- The emission condition of the periodic traversal for the descriptor
`(a, b, w)`: the search cell is in range, each axis has the lookup entry
`(b[i], wrap flag of w[i])` in its list, and the neighbor flat index exceeds
the virtual search flat index. -/
def periodicCond (n : I3) (a b w : I3) : Prop :=
  inCellRange n a ∧
  (⟨b.c2, wrapOfSign w.c2⟩ : NeighborLookup) ∈ dz_list_periodic n.c2 a.c2 ∧
  (⟨b.c1, wrapOfSign w.c1⟩ : NeighborLookup) ∈ d3_list_periodic n.c1 a.c1 ∧
  (⟨b.c0, wrapOfSign w.c0⟩ : NeighborLookup) ∈ d3_list_periodic n.c0 a.c0 ∧
  make_index n (virtualCoord n.c0 a.c0 (wrapOfSign w.c0))
      (virtualCoord n.c1 a.c1 (wrapOfSign w.c1))
      (virtualCoord n.c2 a.c2 (wrapOfSign w.c2)) <
    make_index n b.c0 b.c1 b.c2

instance (n a b w : I3) : Decidable (periodicCond n a b w) := by
  unfold periodicCond
  infer_instance

lemma count_periodicEmitX {n : I3} {x y z : ℤ} {ey ez : NeighborLookup} {a b w : I3}
    (hw0 : -1 ≤ w.c0 ∧ w.c0 ≤ 1) :
    (periodicEmitX n x y z ey ez).count (a, b, w) =
      if a = ⟨x, y, z⟩ ∧ b.c1 = ey.index ∧ w.c1 = wrapSign ey.wrap ∧
          b.c2 = ez.index ∧ w.c2 = wrapSign ez.wrap ∧
          (⟨b.c0, wrapOfSign w.c0⟩ : NeighborLookup) ∈ d3_list_periodic n.c0 x ∧
          make_index n (virtualCoord n.c0 x (wrapOfSign w.c0))
              (virtualCoord n.c1 y ey.wrap) (virtualCoord n.c2 z ez.wrap) <
            make_index n b.c0 ey.index ez.index
      then 1 else 0 := by
  unfold periodicEmitX
  have hz : ∀ ex ∈ d3_list_periodic n.c0 x, ex ≠ ⟨b.c0, wrapOfSign w.c0⟩ →
      (a, b, w) ∉ (if make_index n (virtualCoord n.c0 x ex.wrap)
          (virtualCoord n.c1 y ey.wrap) (virtualCoord n.c2 z ez.wrap) <
          make_index n ex.index ey.index ez.index then
        [((⟨x, y, z⟩ : I3), (⟨ex.index, ey.index, ez.index⟩ : I3),
          (⟨wrapSign ex.wrap, wrapSign ey.wrap, wrapSign ez.wrap⟩ : I3))]
      else []) := by
    intro ex hex hne hmem
    split at hmem
    · rw [List.mem_singleton, Prod.mk.injEq, Prod.mk.injEq] at hmem
      apply hne
      have hb0 : b.c0 = ex.index := by
        have := congrArg I3.c0 hmem.2.1
        simpa using this
      have hw0' : w.c0 = wrapSign ex.wrap := by
        have := congrArg I3.c0 hmem.2.2
        simpa using this
      cases ex
      simp only [NeighborLookup.mk.injEq]
      simp only at hb0 hw0'
      exact ⟨hb0.symm, by rw [hw0', wrapOfSign_wrapSign]⟩
    · cases hmem
  rw [count_flatMap_single (d3_list_periodic n.c0 x)
    (fun ex => if make_index n (virtualCoord n.c0 x ex.wrap)
        (virtualCoord n.c1 y ey.wrap) (virtualCoord n.c2 z ez.wrap) <
        make_index n ex.index ey.index ez.index then
      [((⟨x, y, z⟩ : I3), (⟨ex.index, ey.index, ez.index⟩ : I3),
        (⟨wrapSign ex.wrap, wrapSign ey.wrap, wrapSign ez.wrap⟩ : I3))]
    else []) (a, b, w) ⟨b.c0, wrapOfSign w.c0⟩ (d3_list_periodic_nodup n.c0 x) hz]
  by_cases hel : (⟨b.c0, wrapOfSign w.c0⟩ : NeighborLookup) ∈ d3_list_periodic n.c0 x
  · rw [if_pos hel]
    by_cases hpos : make_index n (virtualCoord n.c0 x (wrapOfSign w.c0))
        (virtualCoord n.c1 y ey.wrap) (virtualCoord n.c2 z ez.wrap) <
        make_index n b.c0 ey.index ez.index
    · rw [if_pos hpos]
      by_cases hab : a = (⟨x, y, z⟩ : I3) ∧ b.c1 = ey.index ∧ w.c1 = wrapSign ey.wrap ∧
          b.c2 = ez.index ∧ w.c2 = wrapSign ez.wrap
      · rw [if_pos ⟨hab.1, hab.2.1, hab.2.2.1, hab.2.2.2.1, hab.2.2.2.2, hel, hpos⟩]
        have hb : b = (⟨b.c0, ey.index, ez.index⟩ : I3) :=
          i3_ext rfl hab.2.1 hab.2.2.2.1
        have hww : w = (⟨wrapSign (wrapOfSign w.c0), wrapSign ey.wrap,
            wrapSign ez.wrap⟩ : I3) :=
          i3_ext (wrapSign_wrapOfSign hw0).symm hab.2.2.1 hab.2.2.2.2
        have hpair : ((⟨x, y, z⟩ : I3), (⟨b.c0, ey.index, ez.index⟩ : I3),
            (⟨wrapSign (wrapOfSign w.c0), wrapSign ey.wrap, wrapSign ez.wrap⟩ : I3)) =
            (a, b, w) := by
          rw [hab.1, ← hb, ← hww]
        rw [hpair]
        exact List.count_singleton_self _
      · rw [if_neg (fun hc => hab ⟨hc.1, hc.2.1, hc.2.2.1, hc.2.2.2.1, hc.2.2.2.2.1⟩)]
        rw [List.count_eq_zero]
        intro hmem
        rw [List.mem_singleton, Prod.mk.injEq, Prod.mk.injEq] at hmem
        apply hab
        have e1 := congrArg I3.c1 hmem.2.1
        have e2 := congrArg I3.c2 hmem.2.1
        have e3 := congrArg I3.c1 hmem.2.2
        have e4 := congrArg I3.c2 hmem.2.2
        simp only at e1 e2 e3 e4
        exact ⟨hmem.1, e1, e3, e2, e4⟩
    · rw [if_neg hpos, if_neg (fun hc => hpos hc.2.2.2.2.2.2)]
      simp
  · rw [if_neg hel, if_neg (fun hc => hel hc.2.2.2.2.2.1)]

lemma count_periodicEmitY {n : I3} {x y z : ℤ} {ez : NeighborLookup} {a b w : I3}
    (hw0 : -1 ≤ w.c0 ∧ w.c0 ≤ 1) (hw1 : -1 ≤ w.c1 ∧ w.c1 ≤ 1) :
    (periodicEmitY n x y z ez).count (a, b, w) =
      if a = ⟨x, y, z⟩ ∧ b.c2 = ez.index ∧ w.c2 = wrapSign ez.wrap ∧
          (⟨b.c1, wrapOfSign w.c1⟩ : NeighborLookup) ∈ d3_list_periodic n.c1 y ∧
          (⟨b.c0, wrapOfSign w.c0⟩ : NeighborLookup) ∈ d3_list_periodic n.c0 x ∧
          make_index n (virtualCoord n.c0 x (wrapOfSign w.c0))
              (virtualCoord n.c1 y (wrapOfSign w.c1)) (virtualCoord n.c2 z ez.wrap) <
            make_index n b.c0 b.c1 ez.index
      then 1 else 0 := by
  unfold periodicEmitY
  have hz : ∀ ey ∈ d3_list_periodic n.c1 y, ey ≠ ⟨b.c1, wrapOfSign w.c1⟩ →
      (a, b, w) ∉ periodicEmitX n x y z ey ez := by
    intro ey hey hne hmem
    obtain ⟨-, h2, h3, -, -⟩ := mem_periodicEmitX hmem
    apply hne
    cases ey
    simp only [NeighborLookup.mk.injEq]
    simp only at h2 h3
    exact ⟨h2.symm, by rw [h3, wrapOfSign_wrapSign]⟩
  rw [count_flatMap_single (d3_list_periodic n.c1 y)
    (fun ey => periodicEmitX n x y z ey ez) (a, b, w) ⟨b.c1, wrapOfSign w.c1⟩
    (d3_list_periodic_nodup n.c1 y) hz]
  by_cases hel : (⟨b.c1, wrapOfSign w.c1⟩ : NeighborLookup) ∈ d3_list_periodic n.c1 y
  · rw [if_pos hel, count_periodicEmitX hw0]
    by_cases hc : a = (⟨x, y, z⟩ : I3) ∧ b.c2 = ez.index ∧ w.c2 = wrapSign ez.wrap ∧
        (⟨b.c0, wrapOfSign w.c0⟩ : NeighborLookup) ∈ d3_list_periodic n.c0 x ∧
        make_index n (virtualCoord n.c0 x (wrapOfSign w.c0))
            (virtualCoord n.c1 y (wrapOfSign w.c1)) (virtualCoord n.c2 z ez.wrap) <
          make_index n b.c0 b.c1 ez.index
    · rw [if_pos ⟨hc.1, rfl, (wrapSign_wrapOfSign hw1).symm, hc.2.1, hc.2.2.1,
        hc.2.2.2.1, hc.2.2.2.2⟩,
        if_pos ⟨hc.1, hc.2.1, hc.2.2.1, hel, hc.2.2.2.1, hc.2.2.2.2⟩]
    · rw [if_neg (by
        rintro ⟨h1, -, -, h4, h5, h6, h7⟩
        exact hc ⟨h1, h4, h5, h6, h7⟩), if_neg (by
        rintro ⟨h1, h4, h5, -, h6, h7⟩
        exact hc ⟨h1, h4, h5, h6, h7⟩)]
  · rw [if_neg hel, if_neg (fun hc => hel hc.2.2.2.1)]

lemma count_periodicEmit {n : I3} {x y z : ℤ} {a b w : I3}
    (hw0 : -1 ≤ w.c0 ∧ w.c0 ≤ 1) (hw1 : -1 ≤ w.c1 ∧ w.c1 ≤ 1)
    (hw2 : -1 ≤ w.c2 ∧ w.c2 ≤ 1) :
    (periodicEmit n x y z).count (a, b, w) =
      if a = ⟨x, y, z⟩ ∧
          (⟨b.c2, wrapOfSign w.c2⟩ : NeighborLookup) ∈ dz_list_periodic n.c2 z ∧
          (⟨b.c1, wrapOfSign w.c1⟩ : NeighborLookup) ∈ d3_list_periodic n.c1 y ∧
          (⟨b.c0, wrapOfSign w.c0⟩ : NeighborLookup) ∈ d3_list_periodic n.c0 x ∧
          make_index n (virtualCoord n.c0 x (wrapOfSign w.c0))
              (virtualCoord n.c1 y (wrapOfSign w.c1))
              (virtualCoord n.c2 z (wrapOfSign w.c2)) <
            make_index n b.c0 b.c1 b.c2
      then 1 else 0 := by
  unfold periodicEmit
  have hz : ∀ ez ∈ dz_list_periodic n.c2 z, ez ≠ ⟨b.c2, wrapOfSign w.c2⟩ →
      (a, b, w) ∉ periodicEmitY n x y z ez := by
    intro ez hez hne hmem
    obtain ⟨-, h2, h3⟩ := mem_periodicEmitY hmem
    apply hne
    cases ez
    simp only [NeighborLookup.mk.injEq]
    simp only at h2 h3
    exact ⟨h2.symm, by rw [h3, wrapOfSign_wrapSign]⟩
  rw [count_flatMap_single (dz_list_periodic n.c2 z)
    (fun ez => periodicEmitY n x y z ez) (a, b, w) ⟨b.c2, wrapOfSign w.c2⟩
    (dz_list_periodic_nodup n.c2 z) hz]
  by_cases hel : (⟨b.c2, wrapOfSign w.c2⟩ : NeighborLookup) ∈ dz_list_periodic n.c2 z
  · rw [if_pos hel, count_periodicEmitY hw0 hw1]
    by_cases hc : a = (⟨x, y, z⟩ : I3) ∧
        (⟨b.c1, wrapOfSign w.c1⟩ : NeighborLookup) ∈ d3_list_periodic n.c1 y ∧
        (⟨b.c0, wrapOfSign w.c0⟩ : NeighborLookup) ∈ d3_list_periodic n.c0 x ∧
        make_index n (virtualCoord n.c0 x (wrapOfSign w.c0))
            (virtualCoord n.c1 y (wrapOfSign w.c1))
            (virtualCoord n.c2 z (wrapOfSign w.c2)) <
          make_index n b.c0 b.c1 b.c2
    · rw [if_pos ⟨hc.1, rfl, (wrapSign_wrapOfSign hw2).symm, hc.2.1, hc.2.2.1,
        hc.2.2.2⟩, if_pos ⟨hc.1, hel, hc.2.1, hc.2.2.1, hc.2.2.2⟩]
    · rw [if_neg (by
        rintro ⟨h1, -, -, h4, h5, h6⟩
        exact hc ⟨h1, h4, h5, h6⟩), if_neg (by
        rintro ⟨h1, -, h4, h5, h6⟩
        exact hc ⟨h1, h4, h5, h6⟩)]
  · rw [if_neg hel, if_neg (fun hc => hel hc.2.1)]

lemma count_periodicTrace (n : I3) (a b w : I3)
    (hw0 : -1 ≤ w.c0 ∧ w.c0 ≤ 1) (hw1 : -1 ≤ w.c1 ∧ w.c1 ≤ 1)
    (hw2 : -1 ≤ w.c2 ∧ w.c2 ≤ 1) :
    (periodicTrace n).count (a, b, w) = if periodicCond n a b w then 1 else 0 := by
  unfold periodicTrace
  have hzz : ∀ z ∈ rangeZ n.c2, z ≠ a.c2 →
      (a, b, w) ∉ (rangeZ n.c1).flatMap fun y => (rangeZ n.c0).flatMap fun x =>
        periodicEmit n x y z := by
    intro z hz hne hmem
    obtain ⟨y, -, hmem⟩ := List.mem_flatMap.mp hmem
    obtain ⟨x, -, hmem⟩ := List.mem_flatMap.mp hmem
    have := congrArg I3.c2 (mem_periodicEmit hmem)
    simp only at this
    exact hne this.symm
  rw [count_flatMap_single (rangeZ n.c2)
    (fun z => (rangeZ n.c1).flatMap fun y => (rangeZ n.c0).flatMap fun x =>
      periodicEmit n x y z) (a, b, w) a.c2 (rangeZ_nodup n.c2) hzz]
  by_cases h2 : a.c2 ∈ rangeZ n.c2
  case neg =>
    rw [if_neg h2, if_neg (by
      rintro ⟨⟨-, -, -, -, hz0, hz1⟩, -⟩
      exact h2 (mem_rangeZ.mpr ⟨hz0, hz1⟩))]
  rw [if_pos h2]
  have hzy : ∀ y ∈ rangeZ n.c1, y ≠ a.c1 →
      (a, b, w) ∉ (rangeZ n.c0).flatMap fun x => periodicEmit n x y a.c2 := by
    intro y hy hne hmem
    obtain ⟨x, -, hmem⟩ := List.mem_flatMap.mp hmem
    have := congrArg I3.c1 (mem_periodicEmit hmem)
    simp only at this
    exact hne this.symm
  rw [count_flatMap_single (rangeZ n.c1)
    (fun y => (rangeZ n.c0).flatMap fun x => periodicEmit n x y a.c2)
    (a, b, w) a.c1 (rangeZ_nodup n.c1) hzy]
  by_cases h1 : a.c1 ∈ rangeZ n.c1
  case neg =>
    rw [if_neg h1, if_neg (by
      rintro ⟨⟨-, -, hy0, hy1, -, -⟩, -⟩
      exact h1 (mem_rangeZ.mpr ⟨hy0, hy1⟩))]
  rw [if_pos h1]
  have hzx : ∀ x ∈ rangeZ n.c0, x ≠ a.c0 → (a, b, w) ∉ periodicEmit n x a.c1 a.c2 := by
    intro x hx hne hmem
    have := congrArg I3.c0 (mem_periodicEmit hmem)
    simp only at this
    exact hne this.symm
  rw [count_flatMap_single (rangeZ n.c0) (fun x => periodicEmit n x a.c1 a.c2)
    (a, b, w) a.c0 (rangeZ_nodup n.c0) hzx]
  by_cases h0 : a.c0 ∈ rangeZ n.c0
  case neg =>
    rw [if_neg h0, if_neg (by
      rintro ⟨⟨hx0, hx1, -, -, -, -⟩, -⟩
      exact h0 (mem_rangeZ.mpr ⟨hx0, hx1⟩))]
  rw [if_pos h0, count_periodicEmit hw0 hw1 hw2]
  have haeq : a = (⟨a.c0, a.c1, a.c2⟩ : I3) := by cases a; rfl
  rw [mem_rangeZ] at h0 h1 h2
  unfold periodicCond
  by_cases hc : (⟨b.c2, wrapOfSign w.c2⟩ : NeighborLookup) ∈ dz_list_periodic n.c2 a.c2 ∧
      (⟨b.c1, wrapOfSign w.c1⟩ : NeighborLookup) ∈ d3_list_periodic n.c1 a.c1 ∧
      (⟨b.c0, wrapOfSign w.c0⟩ : NeighborLookup) ∈ d3_list_periodic n.c0 a.c0 ∧
      make_index n (virtualCoord n.c0 a.c0 (wrapOfSign w.c0))
          (virtualCoord n.c1 a.c1 (wrapOfSign w.c1))
          (virtualCoord n.c2 a.c2 (wrapOfSign w.c2)) <
        make_index n b.c0 b.c1 b.c2
  · rw [if_pos ⟨haeq, hc.1, hc.2.1, hc.2.2.1, hc.2.2.2⟩,
      if_pos ⟨⟨h0.1, h0.2, h1.1, h1.2, h2.1, h2.2⟩, hc.1, hc.2.1, hc.2.2.1, hc.2.2.2⟩]
  · rw [if_neg (by
      rintro ⟨-, hx1, hx2, hx3, hx4⟩
      exact hc ⟨hx1, hx2, hx3, hx4⟩), if_neg (by
      rintro ⟨-, hx1, hx2, hx3, hx4⟩
      exact hc ⟨hx1, hx2, hx3, hx4⟩)]

lemma torusDelta_neg (na ca cb w : ℤ) :
    torusDelta na cb ca (-w) = -torusDelta na ca cb w := by
  unfold torusDelta
  ring

lemma make_index_torus_diff (n : I3) (a b w : I3) :
    make_index n b.c0 b.c1 b.c2 -
      make_index n (a.c0 + w.c0 * n.c0) (a.c1 + w.c1 * n.c1) (a.c2 + w.c2 * n.c2) =
    make_index n (torusDelta n.c0 a.c0 b.c0 w.c0) (torusDelta n.c1 a.c1 b.c1 w.c1)
      (torusDelta n.c2 a.c2 b.c2 w.c2) := by
  unfold make_index torusDelta
  ring

/-- Realizability of a valid wrap on a y/x axis: the lookup entry is in the
list and the virtual coordinate is the unwrapped search coordinate. -/
lemma d3_mem_of_valid {na ca cb w : ℤ} (h0a : 0 ≤ ca) (h1a : ca < na)
    (h0b : 0 ≤ cb) (h1b : cb < na) (hna : 2 ≤ na) (hw : -1 ≤ w ∧ w ≤ 1)
    (ht : -1 ≤ torusDelta na ca cb w ∧ torusDelta na ca cb w ≤ 1) :
    (⟨cb, wrapOfSign w⟩ : NeighborLookup) ∈ d3_list_periodic na ca ∧
      virtualCoord na ca (wrapOfSign w) = ca + w * na := by
  unfold torusDelta at ht
  have hc : w = -1 ∨ w = 0 ∨ w = 1 := by omega
  rcases hc with rfl | rfl | rfl
  · have hca : ca = na - 1 ∧ cb = 0 := by omega
    refine ⟨(mem_d3_list_periodic h0a h1a hna).mpr (Or.inr (Or.inr ⟨by decide, hca.1, hca.2⟩)),
      ?_⟩
    show virtualCoord na ca NeedsToWrap.MinusLength = ca + -1 * na
    simp only [virtualCoord]
    omega
  · refine ⟨(mem_d3_list_periodic h0a h1a hna).mpr (Or.inl ⟨by decide, by omega, by omega,
      h0b, h1b⟩), ?_⟩
    show virtualCoord na ca NeedsToWrap.No = ca + 0 * na
    simp only [virtualCoord]
    omega
  · have hca : ca = 0 ∧ cb = na - 1 := by omega
    refine ⟨(mem_d3_list_periodic h0a h1a hna).mpr (Or.inr (Or.inl ⟨by decide, hca.1, hca.2⟩)),
      ?_⟩
    show virtualCoord na ca NeedsToWrap.PlusLength = ca + 1 * na
    simp only [virtualCoord]
    omega

/-- Realizability of a valid wrap on the z axis, whose lookup list carries
only the forward offsets: it requires a forward displacement. -/
lemma dz_mem_of_valid {n2 ca cb w : ℤ} (h0a : 0 ≤ ca) (h1a : ca < n2)
    (h0b : 0 ≤ cb) (h1b : cb < n2) (hn2 : 2 ≤ n2) (hw : -1 ≤ w ∧ w ≤ 1)
    (ht : -1 ≤ torusDelta n2 ca cb w ∧ torusDelta n2 ca cb w ≤ 1)
    (htpos : 0 ≤ torusDelta n2 ca cb w) :
    (⟨cb, wrapOfSign w⟩ : NeighborLookup) ∈ dz_list_periodic n2 ca ∧
      virtualCoord n2 ca (wrapOfSign w) = ca + w * n2 := by
  unfold torusDelta at ht htpos
  have hc : w = -1 ∨ w = 0 ∨ w = 1 := by omega
  rcases hc with rfl | rfl | rfl
  · have hca : ca = n2 - 1 ∧ cb = 0 := by omega
    refine ⟨(mem_dz_list_periodic h0a h1a).mpr (Or.inr ⟨by decide, hca.1, hca.2⟩), ?_⟩
    show virtualCoord n2 ca NeedsToWrap.MinusLength = ca + -1 * n2
    simp only [virtualCoord]
    omega
  · refine ⟨(mem_dz_list_periodic h0a h1a).mpr (Or.inl ⟨by decide, by omega⟩), ?_⟩
    show virtualCoord n2 ca NeedsToWrap.No = ca + 0 * n2
    simp only [virtualCoord]
    omega
  · omega

/-- Soundness of a y/x lookup entry: the neighbor coordinate is in range, the
unwrapped displacement is at most one cell, and the virtual coordinate is the
unwrapped search coordinate. -/
lemma d3_mem_sound {na ca cb w : ℤ} (h0a : 0 ≤ ca) (h1a : ca < na) (hna : 2 ≤ na)
    (hw : -1 ≤ w ∧ w ≤ 1)
    (hm : (⟨cb, wrapOfSign w⟩ : NeighborLookup) ∈ d3_list_periodic na ca) :
    0 ≤ cb ∧ cb < na ∧ -1 ≤ torusDelta na ca cb w ∧ torusDelta na ca cb w ≤ 1 ∧
      virtualCoord na ca (wrapOfSign w) = ca + w * na := by
  obtain ⟨c1, c2, c3⟩ := wrapOfSign_cases hw
  rw [mem_d3_list_periodic h0a h1a hna] at hm
  unfold torusDelta
  rcases hm with ⟨hwr, hj⟩ | ⟨hwr, hj⟩ | ⟨hwr, hj⟩
  · have hw0 : w = 0 := c1.mp hwr
    subst hw0
    rw [hwr]
    refine ⟨by omega, by omega, by omega, by omega, ?_⟩
    show virtualCoord na ca NeedsToWrap.No = ca + 0 * na
    simp only [virtualCoord]
    omega
  · have hw0 : w = 1 := c2.mp hwr
    subst hw0
    rw [hwr]
    refine ⟨by omega, by omega, by omega, by omega, ?_⟩
    show virtualCoord na ca NeedsToWrap.PlusLength = ca + 1 * na
    simp only [virtualCoord]
    omega
  · have hw0 : w = -1 := c3.mp hwr
    subst hw0
    rw [hwr]
    refine ⟨by omega, by omega, by omega, by omega, ?_⟩
    show virtualCoord na ca NeedsToWrap.MinusLength = ca + -1 * na
    simp only [virtualCoord]
    omega

/-- Soundness of a z lookup entry. -/
lemma dz_mem_sound {n2 ca cb w : ℤ} (h0a : 0 ≤ ca) (h1a : ca < n2) (hn2 : 2 ≤ n2)
    (hw : -1 ≤ w ∧ w ≤ 1)
    (hm : (⟨cb, wrapOfSign w⟩ : NeighborLookup) ∈ dz_list_periodic n2 ca) :
    0 ≤ cb ∧ cb < n2 ∧ -1 ≤ torusDelta n2 ca cb w ∧ torusDelta n2 ca cb w ≤ 1 ∧
      virtualCoord n2 ca (wrapOfSign w) = ca + w * n2 := by
  obtain ⟨c1, c2, c3⟩ := wrapOfSign_cases hw
  rw [mem_dz_list_periodic h0a h1a] at hm
  unfold torusDelta
  rcases hm with ⟨hwr, hj⟩ | ⟨hwr, hj⟩
  · have hw0 : w = 0 := c1.mp hwr
    subst hw0
    rw [hwr]
    refine ⟨by omega, by omega, by omega, by omega, ?_⟩
    show virtualCoord n2 ca NeedsToWrap.No = ca + 0 * n2
    simp only [virtualCoord]
    omega
  · have hw0 : w = -1 := c3.mp hwr
    subst hw0
    rw [hwr]
    refine ⟨by omega, by omega, by omega, by omega, ?_⟩
    show virtualCoord n2 ca NeedsToWrap.MinusLength = ca + -1 * n2
    simp only [virtualCoord]
    omega

/-- A wrapped displacement of zero on an axis forces a trivial axis: no wrap
and equal coordinates. -/
lemma torus_axis_zero {na ca cb w : ℤ} (h0a : 0 ≤ ca) (h1a : ca < na)
    (h0b : 0 ≤ cb) (h1b : cb < na) (hw : -1 ≤ w ∧ w ≤ 1)
    (ht : torusDelta na ca cb w = 0) : w = 0 ∧ ca = cb := by
  unfold torusDelta at ht
  have hc : w = -1 ∨ w = 0 ∨ w = 1 := by omega
  rcases hc with rfl | rfl | rfl <;> omega

/-- An emission of the periodic traversal realizes a torus adjacency whose
flat-index displacement is positive. -/
lemma periodic_cond_sound {n a b w : I3} (hn0 : 2 ≤ n.c0) (hn1 : 2 ≤ n.c1)
    (hn2 : 2 ≤ n.c2) (hw0 : -1 ≤ w.c0 ∧ w.c0 ≤ 1) (hw1 : -1 ≤ w.c1 ∧ w.c1 ≤ 1)
    (hw2 : -1 ≤ w.c2 ∧ w.c2 ≤ 1) (hc : periodicCond n a b w) :
    torusAdjacency n a b w ∧
      0 < make_index n (torusDelta n.c0 a.c0 b.c0 w.c0)
        (torusDelta n.c1 a.c1 b.c1 w.c1) (torusDelta n.c2 a.c2 b.c2 w.c2) := by
  obtain ⟨hA, hm2, hm1, hm0, hlt⟩ := hc
  obtain ⟨hA0, hA0', hA1, hA1', hA2, hA2'⟩ := hA
  obtain ⟨hb0, hb0', ht0, ht0', hv0⟩ := d3_mem_sound hA0 hA0' hn0 hw0 hm0
  obtain ⟨hb1, hb1', ht1, ht1', hv1⟩ := d3_mem_sound hA1 hA1' hn1 hw1 hm1
  obtain ⟨hb2, hb2', ht2, ht2', hv2⟩ := dz_mem_sound hA2 hA2' hn2 hw2 hm2
  rw [hv0, hv1, hv2] at hlt
  have hdiff := make_index_torus_diff n a b w
  have hpos : 0 < make_index n (torusDelta n.c0 a.c0 b.c0 w.c0)
      (torusDelta n.c1 a.c1 b.c1 w.c1) (torusDelta n.c2 a.c2 b.c2 w.c2) := by
    linarith
  refine ⟨⟨⟨hA0, hA0', hA1, hA1', hA2, hA2'⟩, ⟨hb0, hb0', hb1, hb1', hb2, hb2'⟩,
    abs_le.mpr hw0, abs_le.mpr hw1, abs_le.mpr hw2,
    abs_le.mpr ⟨ht0, ht0'⟩, abs_le.mpr ⟨ht1, ht1'⟩, abs_le.mpr ⟨ht2, ht2'⟩, ?_⟩, hpos⟩
  rintro ⟨rfl, hwz⟩
  have hz0 : w.c0 = 0 := congrArg I3.c0 hwz
  have hz1 : w.c1 = 0 := congrArg I3.c1 hwz
  have hz2 : w.c2 = 0 := congrArg I3.c2 hwz
  have e0 : torusDelta n.c0 a.c0 a.c0 w.c0 = 0 := by
    unfold torusDelta
    rw [hz0]
    ring
  have e1 : torusDelta n.c1 a.c1 a.c1 w.c1 = 0 := by
    unfold torusDelta
    rw [hz1]
    ring
  have e2 : torusDelta n.c2 a.c2 a.c2 w.c2 = 0 := by
    unfold torusDelta
    rw [hz2]
    ring
  rw [e0, e1, e2] at hpos
  unfold make_index at hpos
  omega

/-- Of the two orientations of a torus adjacency, the lexicographically
forward one is emitted exactly once and the backward one never. -/
lemma periodic_orientation {n a b w : I3} (hn0 : 2 ≤ n.c0) (hn1 : 2 ≤ n.c1)
    (hn2 : 2 ≤ n.c2) (hadj : torusAdjacency n a b w)
    (hlex : 0 < torusDelta n.c2 a.c2 b.c2 w.c2 ∨
      (torusDelta n.c2 a.c2 b.c2 w.c2 = 0 ∧ 0 < torusDelta n.c1 a.c1 b.c1 w.c1) ∨
      (torusDelta n.c2 a.c2 b.c2 w.c2 = 0 ∧ torusDelta n.c1 a.c1 b.c1 w.c1 = 0 ∧
        0 < torusDelta n.c0 a.c0 b.c0 w.c0)) :
    (periodicTrace n).count (a, b, w) = 1 ∧
      (periodicTrace n).count (b, a, (⟨-w.c0, -w.c1, -w.c2⟩ : I3)) = 0 := by
  obtain ⟨hA, hB, hwa0, hwa1, hwa2, hta0, hta1, hta2, -⟩ := hadj
  obtain ⟨hA0, hA0', hA1, hA1', hA2, hA2'⟩ := hA
  obtain ⟨hB0, hB0', hB1, hB1', hB2, hB2'⟩ := hB
  have hw0 := abs_le.mp hwa0
  have hw1 := abs_le.mp hwa1
  have hw2 := abs_le.mp hwa2
  have ht0 := abs_le.mp hta0
  have ht1 := abs_le.mp hta1
  have ht2 := abs_le.mp hta2
  have ht2nn : 0 ≤ torusDelta n.c2 a.c2 b.c2 w.c2 := by
    rcases hlex with h | ⟨h, -⟩ | ⟨h, -⟩ <;> omega
  obtain ⟨hm0, hv0⟩ := d3_mem_of_valid hA0 hA0' hB0 hB0' hn0 hw0 ht0
  obtain ⟨hm1, hv1⟩ := d3_mem_of_valid hA1 hA1' hB1 hB1' hn1 hw1 ht1
  obtain ⟨hm2, hv2⟩ := dz_mem_of_valid hA2 hA2' hB2 hB2' hn2 hw2 ht2 ht2nn
  have hflat : 0 < make_index n (torusDelta n.c0 a.c0 b.c0 w.c0)
      (torusDelta n.c1 a.c1 b.c1 w.c1) (torusDelta n.c2 a.c2 b.c2 w.c2) :=
    make_index_lex_pos ht0 ht1 (by omega) (by omega)
      (fun h => absurd h (by omega)) (fun h => absurd h (by omega)) hlex
  have hcond : periodicCond n a b w := by
    refine ⟨⟨hA0, hA0', hA1, hA1', hA2, hA2'⟩, hm2, hm1, hm0, ?_⟩
    rw [hv0, hv1, hv2]
    have hdiff := make_index_torus_diff n a b w
    linarith
  have h0' : -1 ≤ (⟨-w.c0, -w.c1, -w.c2⟩ : I3).c0 ∧ (⟨-w.c0, -w.c1, -w.c2⟩ : I3).c0 ≤ 1 := by
    show -1 ≤ -w.c0 ∧ -w.c0 ≤ 1
    omega
  have h1' : -1 ≤ (⟨-w.c0, -w.c1, -w.c2⟩ : I3).c1 ∧ (⟨-w.c0, -w.c1, -w.c2⟩ : I3).c1 ≤ 1 := by
    show -1 ≤ -w.c1 ∧ -w.c1 ≤ 1
    omega
  have h2' : -1 ≤ (⟨-w.c0, -w.c1, -w.c2⟩ : I3).c2 ∧ (⟨-w.c0, -w.c1, -w.c2⟩ : I3).c2 ≤ 1 := by
    show -1 ≤ -w.c2 ∧ -w.c2 ≤ 1
    omega
  have hnc : ¬ periodicCond n b a (⟨-w.c0, -w.c1, -w.c2⟩ : I3) := by
    intro hc
    have hs := periodic_cond_sound hn0 hn1 hn2 h0' h1' h2' hc
    have hs2 : 0 < make_index n (torusDelta n.c0 b.c0 a.c0 (-w.c0))
        (torusDelta n.c1 b.c1 a.c1 (-w.c1)) (torusDelta n.c2 b.c2 a.c2 (-w.c2)) := hs.2
    rw [torusDelta_neg n.c0 a.c0 b.c0 w.c0, torusDelta_neg n.c1 a.c1 b.c1 w.c1,
      torusDelta_neg n.c2 a.c2 b.c2 w.c2] at hs2
    have hflip : make_index n (-torusDelta n.c0 a.c0 b.c0 w.c0)
        (-torusDelta n.c1 a.c1 b.c1 w.c1) (-torusDelta n.c2 a.c2 b.c2 w.c2) =
        -make_index n (torusDelta n.c0 a.c0 b.c0 w.c0) (torusDelta n.c1 a.c1 b.c1 w.c1)
          (torusDelta n.c2 a.c2 b.c2 w.c2) := by
      unfold make_index
      ring
    rw [hflip] at hs2
    linarith
  constructor
  · rw [count_periodicTrace n a b w hw0 hw1 hw2, if_pos hcond]
  · rw [count_periodicTrace n b a (⟨-w.c0, -w.c1, -w.c2⟩ : I3) h0' h1' h2', if_neg hnc]

/-- A torus adjacency read in the opposite orientation. -/
lemma torusAdjacency_symm {n a b w : I3} (h : torusAdjacency n a b w) :
    torusAdjacency n b a (⟨-w.c0, -w.c1, -w.c2⟩ : I3) := by
  obtain ⟨hA, hB, hw0, hw1, hw2, ht0, ht1, ht2, hnt⟩ := h
  refine ⟨hB, hA, ?_, ?_, ?_, ?_, ?_, ?_, ?_⟩
  · show |(-w.c0)| ≤ 1
    rw [abs_neg]
    exact hw0
  · show |(-w.c1)| ≤ 1
    rw [abs_neg]
    exact hw1
  · show |(-w.c2)| ≤ 1
    rw [abs_neg]
    exact hw2
  · show |torusDelta n.c0 b.c0 a.c0 (-w.c0)| ≤ 1
    rw [torusDelta_neg n.c0 a.c0 b.c0 w.c0, abs_neg]
    exact ht0
  · show |torusDelta n.c1 b.c1 a.c1 (-w.c1)| ≤ 1
    rw [torusDelta_neg n.c1 a.c1 b.c1 w.c1, abs_neg]
    exact ht1
  · show |torusDelta n.c2 b.c2 a.c2 (-w.c2)| ≤ 1
    rw [torusDelta_neg n.c2 a.c2 b.c2 w.c2, abs_neg]
    exact ht2
  · rintro ⟨rfl, hwz⟩
    have hz0 : -w.c0 = 0 := congrArg I3.c0 hwz
    have hz1 : -w.c1 = 0 := congrArg I3.c1 hwz
    have hz2 : -w.c2 = 0 := congrArg I3.c2 hwz
    exact hnt ⟨rfl, i3_ext (show w.c0 = 0 by omega) (show w.c1 = 0 by omega)
      (show w.c2 = 0 by omega)⟩

/-- A torus adjacency of the flipped orientation read back. -/
lemma torusAdjacency_flip {n a b w : I3}
    (h : torusAdjacency n b a (⟨-w.c0, -w.c1, -w.c2⟩ : I3)) :
    torusAdjacency n a b w := by
  obtain ⟨hB, hA, hw0, hw1, hw2, ht0, ht1, ht2, hnt⟩ := h
  have hw0' : |(-w.c0)| ≤ 1 := hw0
  have hw1' : |(-w.c1)| ≤ 1 := hw1
  have hw2' : |(-w.c2)| ≤ 1 := hw2
  have ht0' : |torusDelta n.c0 b.c0 a.c0 (-w.c0)| ≤ 1 := ht0
  have ht1' : |torusDelta n.c1 b.c1 a.c1 (-w.c1)| ≤ 1 := ht1
  have ht2' : |torusDelta n.c2 b.c2 a.c2 (-w.c2)| ≤ 1 := ht2
  rw [torusDelta_neg n.c0 a.c0 b.c0 w.c0, abs_neg] at ht0'
  rw [torusDelta_neg n.c1 a.c1 b.c1 w.c1, abs_neg] at ht1'
  rw [torusDelta_neg n.c2 a.c2 b.c2 w.c2, abs_neg] at ht2'
  rw [abs_neg] at hw0' hw1' hw2'
  refine ⟨hA, hB, hw0', hw1', hw2', ht0', ht1', ht2', ?_⟩
  rintro ⟨rfl, rfl⟩
  exact hnt ⟨rfl, by decide⟩

/-- The periodic traversal realizes every torus adjacency class exactly once
(in exactly one of its two orientations) and nothing else, on a grid with at
least 2 cells per axis. -/
lemma periodicTrace_torusPairCount (n a b w : I3) (hn0 : 2 ≤ n.c0)
    (hn1 : 2 ≤ n.c1) (hn2 : 2 ≤ n.c2) :
    torusPairCount (periodicTrace n) a b w =
      if torusAdjacency n a b w then 1 else 0 := by
  by_cases hwB : (-1 ≤ w.c0 ∧ w.c0 ≤ 1) ∧ (-1 ≤ w.c1 ∧ w.c1 ≤ 1) ∧
      (-1 ≤ w.c2 ∧ w.c2 ≤ 1)
  case neg =>
    rw [if_neg (fun hadj => hwB ⟨abs_le.mp hadj.2.2.1, abs_le.mp hadj.2.2.2.1,
      abs_le.mp hadj.2.2.2.2.1⟩)]
    unfold torusPairCount
    have h1 : (periodicTrace n).count (a, b, w) = 0 := by
      rw [List.count_eq_zero]
      intro hmem
      exact hwB (mem_periodicTrace_wrap hmem)
    have h2 : (periodicTrace n).count (b, a, (⟨-w.c0, -w.c1, -w.c2⟩ : I3)) = 0 := by
      rw [List.count_eq_zero]
      intro hmem
      have h' : (-1 ≤ -w.c0 ∧ -w.c0 ≤ 1) ∧ (-1 ≤ -w.c1 ∧ -w.c1 ≤ 1) ∧
          (-1 ≤ -w.c2 ∧ -w.c2 ≤ 1) := mem_periodicTrace_wrap hmem
      obtain ⟨⟨u1, u2⟩, ⟨u3, u4⟩, u5, u6⟩ := h'
      exact hwB ⟨⟨by omega, by omega⟩, ⟨by omega, by omega⟩, by omega, by omega⟩
    rw [h1, h2]
  case pos =>
    obtain ⟨hw0, hw1, hw2⟩ := hwB
    have h0' : -1 ≤ (⟨-w.c0, -w.c1, -w.c2⟩ : I3).c0 ∧ (⟨-w.c0, -w.c1, -w.c2⟩ : I3).c0 ≤ 1 := by
      show -1 ≤ -w.c0 ∧ -w.c0 ≤ 1
      omega
    have h1' : -1 ≤ (⟨-w.c0, -w.c1, -w.c2⟩ : I3).c1 ∧ (⟨-w.c0, -w.c1, -w.c2⟩ : I3).c1 ≤ 1 := by
      show -1 ≤ -w.c1 ∧ -w.c1 ≤ 1
      omega
    have h2' : -1 ≤ (⟨-w.c0, -w.c1, -w.c2⟩ : I3).c2 ∧ (⟨-w.c0, -w.c1, -w.c2⟩ : I3).c2 ≤ 1 := by
      show -1 ≤ -w.c2 ∧ -w.c2 ≤ 1
      omega
    by_cases hadj : torusAdjacency n a b w
    case neg =>
      rw [if_neg hadj]
      unfold torusPairCount
      rw [count_periodicTrace n a b w hw0 hw1 hw2,
        if_neg (fun hc => hadj (periodic_cond_sound hn0 hn1 hn2 hw0 hw1 hw2 hc).1),
        count_periodicTrace n b a (⟨-w.c0, -w.c1, -w.c2⟩ : I3) h0' h1' h2',
        if_neg (fun hc =>
          hadj (torusAdjacency_flip (periodic_cond_sound hn0 hn1 hn2 h0' h1' h2' hc).1))]
    case pos =>
      rw [if_pos hadj]
      unfold torusPairCount
      obtain ⟨hA, hB, -, -, -, -, -, -, hnt⟩ := id hadj
      have hT : ¬(torusDelta n.c0 a.c0 b.c0 w.c0 = 0 ∧ torusDelta n.c1 a.c1 b.c1 w.c1 = 0 ∧
          torusDelta n.c2 a.c2 b.c2 w.c2 = 0) := by
        rintro ⟨e0, e1, e2⟩
        obtain ⟨f0, f0'⟩ := torus_axis_zero hA.1 hA.2.1 hB.1 hB.2.1 hw0 e0
        obtain ⟨f1, f1'⟩ := torus_axis_zero hA.2.2.1 hA.2.2.2.1 hB.2.2.1 hB.2.2.2.1 hw1 e1
        obtain ⟨f2, f2'⟩ :=
          torus_axis_zero hA.2.2.2.2.1 hA.2.2.2.2.2 hB.2.2.2.2.1 hB.2.2.2.2.2 hw2 e2
        exact hnt ⟨i3_ext f0' f1' f2', i3_ext f0 f1 f2⟩
      have e0 := torusDelta_neg n.c0 a.c0 b.c0 w.c0
      have e1 := torusDelta_neg n.c1 a.c1 b.c1 w.c1
      have e2 := torusDelta_neg n.c2 a.c2 b.c2 w.c2
      have htri : (0 < torusDelta n.c2 a.c2 b.c2 w.c2 ∨
          (torusDelta n.c2 a.c2 b.c2 w.c2 = 0 ∧ 0 < torusDelta n.c1 a.c1 b.c1 w.c1) ∨
          (torusDelta n.c2 a.c2 b.c2 w.c2 = 0 ∧ torusDelta n.c1 a.c1 b.c1 w.c1 = 0 ∧
            0 < torusDelta n.c0 a.c0 b.c0 w.c0)) ∨
          (0 < torusDelta n.c2 b.c2 a.c2 (-w.c2) ∨
          (torusDelta n.c2 b.c2 a.c2 (-w.c2) = 0 ∧ 0 < torusDelta n.c1 b.c1 a.c1 (-w.c1)) ∨
          (torusDelta n.c2 b.c2 a.c2 (-w.c2) = 0 ∧ torusDelta n.c1 b.c1 a.c1 (-w.c1) = 0 ∧
            0 < torusDelta n.c0 b.c0 a.c0 (-w.c0))) := by
        rw [e0, e1, e2]
        omega
      rcases htri with hlex | hlex
      · obtain ⟨hc1, hc2⟩ := periodic_orientation hn0 hn1 hn2 hadj hlex
        rw [hc1, hc2]
      · have hadj2 : torusAdjacency n b a (⟨-w.c0, -w.c1, -w.c2⟩ : I3) :=
          torusAdjacency_symm hadj
        obtain ⟨hc1, hc2⟩ := periodic_orientation hn0 hn1 hn2 hadj2 hlex
        have hc2' : (periodicTrace n).count
            (a, b, (⟨-(-w.c0), -(-w.c1), -(-w.c2)⟩ : I3)) = 0 := hc2
        rw [neg_neg, neg_neg, neg_neg] at hc2'
        have heta : (⟨w.c0, w.c1, w.c2⟩ : I3) = w := rfl
        have hfin : (periodicTrace n).count (a, b, w) = 0 := heta ▸ hc2'
        rw [hfin, hc1]

/-- C3 (amended): within one `iterate_cells` call, adjacencies are passed to
the neighbor callback exactly once *per adjacency class*.  In normal mode the
classes are the unordered pairs of distinct, in-range, geometrically touching
cells, so every such pair is passed exactly once and non-adjacent pairs
never.  In periodic mode the classes are torus adjacencies — a cell pair
together with the per-axis wrap signs realizing the touch — and each class is
passed exactly once in exactly one orientation; a pair of cells that touches
both directly and across the boundary of a 2-cell axis realizes two distinct
classes and is therefore passed twice (see `C3_counterexample`). -/
theorem C3_adjacent_pairs_passed_exactly_once (n a b w : I3)
    (hn0 : 2 ≤ n.c0) (hn1 : 2 ≤ n.c1) (hn2 : 2 ≤ n.c2) :
    pairCount (normalPairTrace n) a b =
      (if inCellRange n a ∧ inCellRange n b ∧ a ≠ b ∧ adjacentCells a b then 1 else 0) ∧
    torusPairCount (periodicTrace n) a b w =
      (if torusAdjacency n a b w then 1 else 0) :=
  ⟨normalPairTrace_pairCount n a b, periodicTrace_torusPairCount n a b w hn0 hn1 hn2⟩

/-- Witness for C3 at a concrete input: the 3×3×3 grid, the corner-touching
pair `(0,0,0)`–`(1,1,1)` without wrap; both counts evaluate to 1. -/
theorem C3_adjacent_pairs_passed_exactly_once_witness :
    pairCount (normalPairTrace ⟨3, 3, 3⟩) ⟨0, 0, 0⟩ ⟨1, 1, 1⟩ =
      (if inCellRange ⟨3, 3, 3⟩ ⟨0, 0, 0⟩ ∧ inCellRange ⟨3, 3, 3⟩ ⟨1, 1, 1⟩ ∧
          (⟨0, 0, 0⟩ : I3) ≠ ⟨1, 1, 1⟩ ∧ adjacentCells ⟨0, 0, 0⟩ ⟨1, 1, 1⟩ then 1 else 0) ∧
    torusPairCount (periodicTrace ⟨3, 3, 3⟩) ⟨0, 0, 0⟩ ⟨1, 1, 1⟩ ⟨0, 0, 0⟩ =
      (if torusAdjacency ⟨3, 3, 3⟩ ⟨0, 0, 0⟩ ⟨1, 1, 1⟩ ⟨0, 0, 0⟩ then 1 else 0) :=
  C3_adjacent_pairs_passed_exactly_once ⟨3, 3, 3⟩ ⟨0, 0, 0⟩ ⟨1, 1, 1⟩ ⟨0, 0, 0⟩
    (by decide) (by decide) (by decide)

/-- Counterexample to C3 as stated: a periodic 2×2×2 grid with every cell
non-empty.  The neighbor cells `(0,0,0)` and `(1,0,0)` touch both directly
and across the x boundary, and the traversal passes this unordered pair of
distinct adjacent non-empty cells to the neighbor callback twice, not exactly
once. -/
theorem C3_counterexample :
    gridConstruct GridOptions.PeriodicBoundaries nextModel 2 (⟨0, 0, 0⟩, ⟨10, 10, 10⟩)
        [⟨1, ⟨2, 2, 2⟩, 1⟩, ⟨2, ⟨7, 2, 2⟩, 1⟩, ⟨3, ⟨2, 7, 2⟩, 1⟩, ⟨4, ⟨7, 7, 2⟩, 1⟩,
         ⟨5, ⟨2, 2, 7⟩, 1⟩, ⟨6, ⟨7, 2, 7⟩, 1⟩, ⟨7, ⟨2, 7, 7⟩, 1⟩, ⟨8, ⟨7, 7, 7⟩, 1⟩] 5
        CellNumberLimitation.None false CellSizeStrategy.Optimal =
      .ok (Grid.mk ⟨10, 10, 10⟩ 125 ⟨2, 2, 2⟩
        [[⟨1, ⟨2, 2, 2⟩, 1⟩], [⟨2, ⟨7, 2, 2⟩, 1⟩], [⟨3, ⟨2, 7, 2⟩, 1⟩], [⟨4, ⟨7, 7, 2⟩, 1⟩],
         [⟨5, ⟨2, 2, 7⟩, 1⟩], [⟨6, ⟨7, 2, 7⟩, 1⟩], [⟨7, ⟨2, 7, 7⟩, 1⟩],
         [⟨8, ⟨7, 7, 7⟩, 1⟩]]) ∧
    (∀ c ∈ (Grid.mk ⟨10, 10, 10⟩ 125 ⟨2, 2, 2⟩
        [[⟨1, ⟨2, 2, 2⟩, 1⟩], [⟨2, ⟨7, 2, 2⟩, 1⟩], [⟨3, ⟨2, 7, 2⟩, 1⟩], [⟨4, ⟨7, 7, 2⟩, 1⟩],
         [⟨5, ⟨2, 2, 7⟩, 1⟩], [⟨6, ⟨7, 2, 7⟩, 1⟩], [⟨7, ⟨2, 7, 7⟩, 1⟩],
         [⟨8, ⟨7, 7, 7⟩, 1⟩]] : Grid).cells_, c ≠ []) ∧
    ((periodicTrace ⟨2, 2, 2⟩).filter (fun e =>
      decide ((e.1 = (⟨0, 0, 0⟩ : I3) ∧ e.2.1 = (⟨1, 0, 0⟩ : I3)) ∨
        (e.1 = (⟨1, 0, 0⟩ : I3) ∧ e.2.1 = (⟨0, 0, 0⟩ : I3))))).length = 2 :=
  ⟨by with_unfolding_all rfl, by decide, by decide⟩

/-- C5: in a periodic grid with domain length 10 per axis and 2 cells per
axis, the particle at `(10 - 0.01, 0, 0)` and the particle at `(0.01, 0, 0)`
are presented to the neighbor callback as neighbors: the invocation hands
over a copy of the search cell translated by the wrap vector `-length` on x,
so the copy sits at `-0.01` and the effective separation is `0.02`, not
`10 - 0.02`; the canonical cell contents (visible in the constructed grid)
keep the untranslated positions. -/
theorem C5_periodic_wrap_translates_search_cell :
    gridConstruct GridOptions.PeriodicBoundaries nextModel 2 (⟨0, 0, 0⟩, ⟨10, 10, 10⟩)
        [⟨1, ⟨999/100, 0, 0⟩, 1⟩, ⟨2, ⟨1/100, 0, 0⟩, 1⟩] 5
        CellNumberLimitation.None false CellSizeStrategy.Optimal =
      .ok (Grid.mk ⟨10, 10, 10⟩ 125 ⟨2, 2, 2⟩
        [[⟨2, ⟨1/100, 0, 0⟩, 1⟩], [⟨1, ⟨999/100, 0, 0⟩, 1⟩], [], [], [], [], [], []]) ∧
    ([(⟨1, ⟨-1/100, 0, 0⟩, 1⟩ : ParticleData)], [(⟨2, ⟨1/100, 0, 0⟩, 1⟩ : ParticleData)]) ∈
      neighborCalls GridOptions.PeriodicBoundaries
        (Grid.mk ⟨10, 10, 10⟩ 125 ⟨2, 2, 2⟩
          [[⟨2, ⟨1/100, 0, 0⟩, 1⟩], [⟨1, ⟨999/100, 0, 0⟩, 1⟩], [], [], [], [], [], []]) ∧
    |(⟨1, ⟨-1/100, 0, 0⟩, 1⟩ : ParticleData).pos.x -
        (⟨2, ⟨1/100, 0, 0⟩, 1⟩ : ParticleData).pos.x| = 2/100 ∧
    (⟨1, ⟨-1/100, 0, 0⟩, 1⟩ : ParticleData) =
      (⟨1, ⟨999/100, 0, 0⟩, 1⟩ : ParticleData).translated ⟨(-1 : ℤ) * 10, 0 * 10, 0 * 10⟩ :=
  ⟨by with_unfolding_all rfl, by with_unfolding_all decide,
   by with_unfolding_all decide, by with_unfolding_all decide⟩

/-! ## The error behaviour of the sizing loop (grid.cc:153-192) -/

lemma size_axis_optimal_ovf {O : GridOptions} {limit : CellNumberLimitation} {mc : ℤ}
    {ilen : ℚ} {next : ℚ → ℚ} {fuel : ℕ} {L : ℚ}
    (hov : (intMax : ℚ) / (1 / ilen) < L) :
    size_axis O CellSizeStrategy.Optimal limit mc ilen next fuel L = .error .overflow := by
  unfold size_axis
  rw [if_neg (by decide), if_pos hov]

lemma size_axis_optimal_no_ovf {O : GridOptions} {limit : CellNumberLimitation} {mc : ℤ}
    {ilen : ℚ} {next : ℚ → ℚ} {fuel : ℕ} {L : ℚ}
    (hov : ¬((intMax : ℚ) / (1 / ilen) < L)) :
    size_axis O CellSizeStrategy.Optimal limit mc ilen next fuel L =
      size_axis_adjust O limit mc ilen next fuel L ⌊L * (1 / ilen)⌋ := by
  unfold size_axis
  rw [if_neg (by decide), if_neg hov]

lemma size_axis_adjust_small {O : GridOptions} {limit : CellNumberLimitation} {mc : ℤ}
    {ilen : ℚ} {next : ℚ → ℚ} {fuel : ℕ} {L : ℚ} {m : ℤ}
    (hP : O = GridOptions.PeriodicBoundaries) (hm : m < 2) :
    size_axis_adjust O limit mc ilen next fuel L m = .error .boxTooSmall := by
  unfold size_axis_adjust
  rw [if_neg (by rintro ⟨-, hn⟩; exact hn hP), if_pos ⟨hm, hP⟩]

lemma size_axis_adjust_not_small {O : GridOptions} {limit : CellNumberLimitation} {mc : ℤ}
    {ilen : ℚ} {next : ℚ → ℚ} {fuel : ℕ} {L : ℚ} {m : ℤ}
    (h : ¬(m < 2 ∧ O = GridOptions.PeriodicBoundaries)) :
    ∃ p, size_axis_adjust O limit mc ilen next fuel L m = .ok p := by
  unfold size_axis_adjust
  by_cases h1 : m = 0 ∧ O ≠ GridOptions.PeriodicBoundaries
  · rw [if_pos h1]
    exact ⟨_, rfl⟩
  · rw [if_neg h1, if_neg h]
    by_cases h3 : limit = CellNumberLimitation.ParticleNumber ∧ mc < m
    · rw [if_pos h3]
      exact ⟨_, rfl⟩
    · rw [if_neg h3]
      exact ⟨_, rfl⟩

/-- The complete behaviour of one `Optimal`-strategy sizing iteration: the
overflow guard fires exactly on `INT_MAX / index_factor < length`; otherwise
periodic mode with `floor(length * index_factor) < 2` is the box-too-small
error; otherwise the axis succeeds. -/
lemma size_axis_optimal_cases (O : GridOptions) (limit : CellNumberLimitation) (mc : ℤ)
    (ilen : ℚ) (next : ℚ → ℚ) (fuel : ℕ) (L : ℚ) :
    ((intMax : ℚ) / (1 / ilen) < L ∧
      size_axis O CellSizeStrategy.Optimal limit mc ilen next fuel L = .error .overflow) ∨
    (¬((intMax : ℚ) / (1 / ilen) < L) ∧
      (O = GridOptions.PeriodicBoundaries ∧ ⌊L * (1 / ilen)⌋ < 2) ∧
      size_axis O CellSizeStrategy.Optimal limit mc ilen next fuel L = .error .boxTooSmall) ∨
    (¬((intMax : ℚ) / (1 / ilen) < L) ∧
      ¬(O = GridOptions.PeriodicBoundaries ∧ ⌊L * (1 / ilen)⌋ < 2) ∧
      ∃ p, size_axis O CellSizeStrategy.Optimal limit mc ilen next fuel L = .ok p) := by
  by_cases hov : (intMax : ℚ) / (1 / ilen) < L
  · exact Or.inl ⟨hov, size_axis_optimal_ovf hov⟩
  · by_cases hsm : O = GridOptions.PeriodicBoundaries ∧ ⌊L * (1 / ilen)⌋ < 2
    · refine Or.inr (Or.inl ⟨hov, hsm, ?_⟩)
      rw [size_axis_optimal_no_ovf hov]
      exact size_axis_adjust_small hsm.1 hsm.2
    · refine Or.inr (Or.inr ⟨hov, hsm, ?_⟩)
      rw [size_axis_optimal_no_ovf hov]
      apply size_axis_adjust_not_small
      rintro ⟨h1, h2⟩
      exact hsm ⟨h2, h1⟩

/-- A `Largest`-strategy sizing iteration always succeeds (grid.cc:154-155
skips the overflow branch and the decided count 2 passes every later check,
the `ParticleNumber` clamp included). -/
lemma size_axis_largest_ok (O : GridOptions) (limit : CellNumberLimitation) (mc : ℤ)
    (ilen : ℚ) (next : ℚ → ℚ) (fuel : ℕ) (L : ℚ) :
    ∃ p, size_axis O CellSizeStrategy.Largest limit mc ilen next fuel L = .ok p := by
  unfold size_axis
  rw [if_pos rfl]
  apply size_axis_adjust_not_small
  rintro ⟨h, -⟩
  exact absurd h (by decide)

/-- The bucketing loop can only fail with the out-of-bounds error. -/
lemma bucket_step_preserve (inc : Bool) (n : I3) (minP : V3) (f0 f1 f2 : ℚ) (N : ℕ)
    (acc : Except GridError (List (List ParticleData))) (p : ParticleData) (e : GridError)
    (he : e ≠ GridError.outOfBounds) (hacc : acc ≠ Except.error e) :
    bucket_step inc n minP f0 f1 f2 N acc p ≠ .error e := by
  unfold bucket_step
  match acc with
  | .error e' => exact hacc
  | .ok cells =>
    dsimp only
    by_cases hskip : inc = false ∧ p.xsec_scaling_factor ≤ 0
    · rw [if_pos hskip]
      simp
    · rw [if_neg hskip]
      by_cases hoob : cell_index_for n minP f0 f1 f2 p < 0 ∨
          (N : ℤ) ≤ cell_index_for n minP f0 f1 f2 p
      · rw [if_pos hoob]
        intro hk
        injection hk with hk
        exact he hk.symm
      · rw [if_neg hoob]
        simp

lemma bucket_particles_not_err (inc : Bool) (n : I3) (minP : V3) (f0 f1 f2 : ℚ) (N : ℕ)
    (ps : List ParticleData) (e : GridError) (he : e ≠ GridError.outOfBounds) :
    bucket_particles inc n minP f0 f1 f2 N ps ≠ .error e := by
  unfold bucket_particles
  have H : ∀ (l : List ParticleData) (acc : Except GridError (List (List ParticleData))),
      acc ≠ Except.error e →
      l.foldl (bucket_step inc n minP f0 f1 f2 N) acc ≠ .error e := by
    intro l
    induction l with
    | nil => intro acc hacc; exact hacc
    | cons p l ih =>
      intro acc hacc
      rw [List.foldl_cons]
      exact ih _ (bucket_step_preserve inc n minP f0 f1 f2 N acc p e he hacc)
  exact H ps _ (by simp)

/-- Complete decomposition of a construction outside the Normal+Largest fast
path: the first axis error is the result, and on success the grid's cell
counts are either the dilute-fallback `(1,1,1)` or the three sized counts. -/
lemma gridConstruct_decompose (O : GridOptions) (next : ℚ → ℚ) (fuel : ℕ)
    (minP len : V3) (ps : List ParticleData) (ilen : ℚ) (limit : CellNumberLimitation)
    (inc : Bool) (strat : CellSizeStrategy)
    (hO : ¬(O = GridOptions.Normal ∧ strat = CellSizeStrategy.Largest)) :
    (∃ e, size_axis O strat limit
        (if O = GridOptions.Normal then (icbrt ps.length : ℤ)
         else max 2 (icbrt ps.length : ℤ)) ilen next fuel len.x = .error e ∧
      gridConstruct O next fuel (minP, len) ps ilen limit inc strat = .error e) ∨
    (∃ n0 f0, size_axis O strat limit
        (if O = GridOptions.Normal then (icbrt ps.length : ℤ)
         else max 2 (icbrt ps.length : ℤ)) ilen next fuel len.x = .ok (n0, f0) ∧
      ((∃ e, size_axis O strat limit
          (if O = GridOptions.Normal then (icbrt ps.length : ℤ)
           else max 2 (icbrt ps.length : ℤ)) ilen next fuel len.y = .error e ∧
        gridConstruct O next fuel (minP, len) ps ilen limit inc strat = .error e) ∨
       (∃ n1 f1, size_axis O strat limit
          (if O = GridOptions.Normal then (icbrt ps.length : ℤ)
           else max 2 (icbrt ps.length : ℤ)) ilen next fuel len.y = .ok (n1, f1) ∧
        ((∃ e, size_axis O strat limit
            (if O = GridOptions.Normal then (icbrt ps.length : ℤ)
             else max 2 (icbrt ps.length : ℤ)) ilen next fuel len.z = .error e ∧
          gridConstruct O next fuel (minP, len) ps ilen limit inc strat = .error e) ∨
         (∃ n2 f2, size_axis O strat limit
            (if O = GridOptions.Normal then (icbrt ps.length : ℤ)
             else max 2 (icbrt ps.length : ℤ)) ilen next fuel len.z = .ok (n2, f2) ∧
          ((∃ g, gridConstruct O next fuel (minP, len) ps ilen limit inc strat = .ok g ∧
             (g.number_of_cells_ = ⟨1, 1, 1⟩ ∨ g.number_of_cells_ = ⟨n0, n1, n2⟩)) ∨
           gridConstruct O next fuel (minP, len) ps ilen limit inc strat =
             .error .outOfBounds)))))) := by
  rcases hs0 : size_axis O strat limit
      (if O = GridOptions.Normal then (icbrt ps.length : ℤ)
       else max 2 (icbrt ps.length : ℤ)) ilen next fuel len.x with e0 | ⟨n0, f0⟩
  · refine Or.inl ⟨e0, rfl, ?_⟩
    simp only [gridConstruct]
    rw [if_neg hO, hs0]
  refine Or.inr ⟨n0, f0, rfl, ?_⟩
  rcases hs1 : size_axis O strat limit
      (if O = GridOptions.Normal then (icbrt ps.length : ℤ)
       else max 2 (icbrt ps.length : ℤ)) ilen next fuel len.y with e1 | ⟨n1, f1⟩
  · refine Or.inl ⟨e1, rfl, ?_⟩
    simp only [gridConstruct]
    rw [if_neg hO, hs0, hs1]
  refine Or.inr ⟨n1, f1, rfl, ?_⟩
  rcases hs2 : size_axis O strat limit
      (if O = GridOptions.Normal then (icbrt ps.length : ℤ)
       else max 2 (icbrt ps.length : ℤ)) ilen next fuel len.z with e2 | ⟨n2, f2⟩
  · refine Or.inl ⟨e2, rfl, ?_⟩
    simp only [gridConstruct]
    rw [if_neg hO, hs0, hs1, hs2]
  refine Or.inr ⟨n2, f2, rfl, ?_⟩
  by_cases hfall : O = GridOptions.Normal ∧ n0 ≤ 2 ∧ n1 ≤ 2 ∧ n2 ≤ 2
  · refine Or.inl ⟨⟨len, len.x * len.y * len.z, ⟨1, 1, 1⟩,
      [if inc then ps else ps.filter (fun p => decide (0 < p.xsec_scaling_factor))]⟩,
      ?_, Or.inl rfl⟩
    simp only [gridConstruct]
    rw [if_neg hO, hs0, hs1, hs2]
    dsimp only
    rw [if_pos hfall]
  · rcases hb : bucket_particles inc ⟨n0, n1, n2⟩ minP f0 f1 f2 ((n0 * n1 * n2).toNat) ps
        with eb | cells
    · have heb : eb = GridError.outOfBounds := by
        cases eb with
        | overflow =>
          exact absurd hb (bucket_particles_not_err inc ⟨n0, n1, n2⟩ minP f0 f1 f2
            ((n0 * n1 * n2).toNat) ps GridError.overflow (by decide))
        | boxTooSmall =>
          exact absurd hb (bucket_particles_not_err inc ⟨n0, n1, n2⟩ minP f0 f1 f2
            ((n0 * n1 * n2).toNat) ps GridError.boxTooSmall (by decide))
        | outOfBounds => rfl
      subst heb
      refine Or.inr ?_
      simp only [gridConstruct]
      rw [if_neg hO, hs0, hs1, hs2]
      dsimp only
      rw [if_neg hfall, hb]
    · refine Or.inl ⟨⟨len, (len.x / n0) * (len.y / n1) * (len.z / n2), ⟨n0, n1, n2⟩, cells⟩,
        ?_, Or.inr rfl⟩
      simp only [gridConstruct]
      rw [if_neg hO, hs0, hs1, hs2]
      dsimp only
      rw [if_neg hfall, hb]

/-- Normal mode never produces the box-too-small error on an axis: the
`number_of_cells == 0` case is clamped to 1 (grid.cc:168-173) and the `< 2`
error branch requires periodic boundaries (grid.cc:174-188). -/
lemma size_axis_normal_not_bts (strat : CellSizeStrategy) (limit : CellNumberLimitation)
    (mc : ℤ) (ilen : ℚ) (next : ℚ → ℚ) (fuel : ℕ) (L : ℚ) :
    size_axis GridOptions.Normal strat limit mc ilen next fuel L ≠
      .error .boxTooSmall := by
  cases strat with
  | Largest =>
    obtain ⟨p, hp⟩ := size_axis_largest_ok GridOptions.Normal limit mc ilen next fuel L
    rw [hp]
    simp
  | Optimal =>
    rcases size_axis_optimal_cases GridOptions.Normal limit mc ilen next fuel L with
      ⟨-, h⟩ | ⟨-, ⟨hP, -⟩, -⟩ | ⟨-, -, p, h⟩
    · rw [h]
      simp
    · cases hP
    · rw [h]
      simp

/-- C8: with the `Optimal` strategy and no axis tripping the overflow guard,
a periodic construction fails with the box-too-small error exactly when some
axis has `floor(length * index_factor) < 2` (`index_factor` being
`1 / max_interaction_length` at that point); a normal-mode construction never
raises this error under any strategy, a zero count being clamped to 1 (the
third conjunct exhibits the clamp: the decided count of a zero-floor axis is
1). -/
theorem C8_box_too_small_iff (next : ℚ → ℚ) (fuel : ℕ) (minP len : V3)
    (ps : List ParticleData) (ilen : ℚ) (limit : CellNumberLimitation) (inc : Bool)
    (hx : ¬((intMax : ℚ) / (1 / ilen) < len.x))
    (hy : ¬((intMax : ℚ) / (1 / ilen) < len.y))
    (hz : ¬((intMax : ℚ) / (1 / ilen) < len.z)) :
    (gridConstruct GridOptions.PeriodicBoundaries next fuel (minP, len) ps ilen limit inc
        CellSizeStrategy.Optimal = .error .boxTooSmall ↔
      (⌊len.x * (1 / ilen)⌋ < 2 ∨ ⌊len.y * (1 / ilen)⌋ < 2 ∨ ⌊len.z * (1 / ilen)⌋ < 2)) ∧
    (∀ strat, gridConstruct GridOptions.Normal next fuel (minP, len) ps ilen limit inc
        strat ≠ .error .boxTooSmall) ∧
    (∀ mc : ℤ, ⌊len.x * (1 / ilen)⌋ = 0 →
      (size_axis GridOptions.Normal CellSizeStrategy.Optimal limit mc ilen next
        fuel len.x).map Prod.fst = .ok 1) := by
  have hOP : ¬(GridOptions.PeriodicBoundaries = GridOptions.Normal ∧
      CellSizeStrategy.Optimal = CellSizeStrategy.Largest) := by
    rintro ⟨h, -⟩
    cases h
  refine ⟨⟨?_, ?_⟩, ?_, ?_⟩
  · -- forward: a box-too-small result names a small axis
    intro hcon
    rcases gridConstruct_decompose GridOptions.PeriodicBoundaries next fuel minP len ps
        ilen limit inc CellSizeStrategy.Optimal hOP with
      ⟨e, hse, hcons⟩ | ⟨n0, f0, hs0, hrest⟩
    · rw [hcons] at hcon
      injection hcon with hcon
      subst hcon
      rcases size_axis_optimal_cases GridOptions.PeriodicBoundaries limit _ ilen next
          fuel len.x with ⟨hov, -⟩ | ⟨-, ⟨-, hfl⟩, -⟩ | ⟨-, -, p, hp⟩
      · exact absurd hov hx
      · exact Or.inl hfl
      · rw [hp] at hse
        simp at hse
    rcases hrest with ⟨e, hse, hcons⟩ | ⟨n1, f1, hs1, hrest⟩
    · rw [hcons] at hcon
      injection hcon with hcon
      subst hcon
      rcases size_axis_optimal_cases GridOptions.PeriodicBoundaries limit _ ilen next
          fuel len.y with ⟨hov, -⟩ | ⟨-, ⟨-, hfl⟩, -⟩ | ⟨-, -, p, hp⟩
      · exact absurd hov hy
      · exact Or.inr (Or.inl hfl)
      · rw [hp] at hse
        simp at hse
    rcases hrest with ⟨e, hse, hcons⟩ | ⟨n2, f2, hs2, hrest⟩
    · rw [hcons] at hcon
      injection hcon with hcon
      subst hcon
      rcases size_axis_optimal_cases GridOptions.PeriodicBoundaries limit _ ilen next
          fuel len.z with ⟨hov, -⟩ | ⟨-, ⟨-, hfl⟩, -⟩ | ⟨-, -, p, hp⟩
      · exact absurd hov hz
      · exact Or.inr (Or.inr hfl)
      · rw [hp] at hse
        simp at hse
    rcases hrest with ⟨g, hok, -⟩ | hoob
    · rw [hok] at hcon
      cases hcon
    · rw [hoob] at hcon
      injection hcon with hcon
      cases hcon
  · -- backward: a small axis forces the box-too-small result
    intro hdisj
    by_cases h2x : ⌊len.x * (1 / ilen)⌋ < 2
    · have hsx : size_axis GridOptions.PeriodicBoundaries CellSizeStrategy.Optimal limit
          (if GridOptions.PeriodicBoundaries = GridOptions.Normal then (icbrt ps.length : ℤ)
           else max 2 (icbrt ps.length : ℤ)) ilen next fuel len.x = .error .boxTooSmall := by
        rw [size_axis_optimal_no_ovf hx]
        exact size_axis_adjust_small rfl h2x
      rcases gridConstruct_decompose GridOptions.PeriodicBoundaries next fuel minP len ps
          ilen limit inc CellSizeStrategy.Optimal hOP with
        ⟨e, hse, hcons⟩ | ⟨n0, f0, hs0, -⟩
      · rw [hsx] at hse
        injection hse with hse
        subst hse
        exact hcons
      · rw [hsx] at hs0
        cases hs0
    · have hokx : ∃ p, size_axis GridOptions.PeriodicBoundaries CellSizeStrategy.Optimal
          limit (if GridOptions.PeriodicBoundaries = GridOptions.Normal
            then (icbrt ps.length : ℤ) else max 2 (icbrt ps.length : ℤ)) ilen next fuel
          len.x = .ok p := by
        rw [size_axis_optimal_no_ovf hx]
        exact size_axis_adjust_not_small (by rintro ⟨h, -⟩; exact h2x h)
      obtain ⟨px, hsx⟩ := hokx
      by_cases h2y : ⌊len.y * (1 / ilen)⌋ < 2
      · have hsy : size_axis GridOptions.PeriodicBoundaries CellSizeStrategy.Optimal limit
            (if GridOptions.PeriodicBoundaries = GridOptions.Normal
             then (icbrt ps.length : ℤ) else max 2 (icbrt ps.length : ℤ)) ilen next fuel
            len.y = .error .boxTooSmall := by
          rw [size_axis_optimal_no_ovf hy]
          exact size_axis_adjust_small rfl h2y
        rcases gridConstruct_decompose GridOptions.PeriodicBoundaries next fuel minP len ps
            ilen limit inc CellSizeStrategy.Optimal hOP with
          ⟨e, hse, hcons⟩ | ⟨n0, f0, hs0, hrest⟩
        · rw [hsx] at hse
          cases hse
        rcases hrest with ⟨e, hse, hcons⟩ | ⟨n1, f1, hs1, -⟩
        · rw [hsy] at hse
          injection hse with hse
          subst hse
          exact hcons
        · rw [hsy] at hs1
          cases hs1
      · have hoky : ∃ p, size_axis GridOptions.PeriodicBoundaries CellSizeStrategy.Optimal
            limit (if GridOptions.PeriodicBoundaries = GridOptions.Normal
              then (icbrt ps.length : ℤ) else max 2 (icbrt ps.length : ℤ)) ilen next fuel
            len.y = .ok p := by
          rw [size_axis_optimal_no_ovf hy]
          exact size_axis_adjust_not_small (by rintro ⟨h, -⟩; exact h2y h)
        obtain ⟨py, hsy⟩ := hoky
        have h2z : ⌊len.z * (1 / ilen)⌋ < 2 := by
          rcases hdisj with h | h | h
          · exact absurd h h2x
          · exact absurd h h2y
          · exact h
        have hsz : size_axis GridOptions.PeriodicBoundaries CellSizeStrategy.Optimal limit
            (if GridOptions.PeriodicBoundaries = GridOptions.Normal
             then (icbrt ps.length : ℤ) else max 2 (icbrt ps.length : ℤ)) ilen next fuel
            len.z = .error .boxTooSmall := by
          rw [size_axis_optimal_no_ovf hz]
          exact size_axis_adjust_small rfl h2z
        rcases gridConstruct_decompose GridOptions.PeriodicBoundaries next fuel minP len ps
            ilen limit inc CellSizeStrategy.Optimal hOP with
          ⟨e, hse, hcons⟩ | ⟨n0, f0, hs0, hrest⟩
        · rw [hsx] at hse
          cases hse
        rcases hrest with ⟨e, hse, hcons⟩ | ⟨n1, f1, hs1, hrest⟩
        · rw [hsy] at hse
          cases hse
        rcases hrest with ⟨e, hse, hcons⟩ | ⟨n2, f2, hs2, -⟩
        · rw [hsz] at hse
          injection hse with hse
          subst hse
          exact hcons
        · rw [hsz] at hs2
          cases hs2
  · -- normal mode never raises box-too-small
    intro strat hcon
    cases strat with
    | Largest =>
      have : gridConstruct GridOptions.Normal next fuel (minP, len) ps ilen limit inc
          CellSizeStrategy.Largest = .ok
            { length_ := len, cell_volume_ := len.x * len.y * len.z,
              number_of_cells_ := ⟨1, 1, 1⟩, cells_ := [ps] } := by
        simp [gridConstruct]
      rw [this] at hcon
      cases hcon
    | Optimal =>
      have hON : ¬(GridOptions.Normal = GridOptions.Normal ∧
          CellSizeStrategy.Optimal = CellSizeStrategy.Largest) := by
        rintro ⟨-, h⟩
        cases h
      rcases gridConstruct_decompose GridOptions.Normal next fuel minP len ps
          ilen limit inc CellSizeStrategy.Optimal hON with
        ⟨e, hse, hcons⟩ | ⟨n0, f0, hs0, hrest⟩
      · rw [hcons] at hcon
        injection hcon with hcon
        subst hcon
        exact size_axis_normal_not_bts _ _ _ _ _ _ _ hse
      rcases hrest with ⟨e, hse, hcons⟩ | ⟨n1, f1, hs1, hrest⟩
      · rw [hcons] at hcon
        injection hcon with hcon
        subst hcon
        exact size_axis_normal_not_bts _ _ _ _ _ _ _ hse
      rcases hrest with ⟨e, hse, hcons⟩ | ⟨n2, f2, hs2, hrest⟩
      · rw [hcons] at hcon
        injection hcon with hcon
        subst hcon
        exact size_axis_normal_not_bts _ _ _ _ _ _ _ hse
      rcases hrest with ⟨g, hok, -⟩ | hoob
      · rw [hok] at hcon
        cases hcon
      · rw [hoob] at hcon
        injection hcon with hcon
        cases hcon
  · -- the zero-count clamp in normal mode
    intro mc hm0
    rw [size_axis_optimal_no_ovf hx, hm0]
    unfold size_axis_adjust
    rw [if_pos ⟨rfl, by rintro h; cases h⟩]
    rfl

/-- Witness for C8 at a concrete input: a 10×10×10 periodic box with
interaction length 5 (no axis overflows; every floor is 2). -/
theorem C8_box_too_small_iff_witness :
    (gridConstruct GridOptions.PeriodicBoundaries nextModel 2 (⟨0, 0, 0⟩, ⟨10, 10, 10⟩) []
        5 CellNumberLimitation.None false CellSizeStrategy.Optimal = .error .boxTooSmall ↔
      (⌊(10 : ℚ) * (1 / 5)⌋ < 2 ∨ ⌊(10 : ℚ) * (1 / 5)⌋ < 2 ∨ ⌊(10 : ℚ) * (1 / 5)⌋ < 2)) ∧
    (∀ strat, gridConstruct GridOptions.Normal nextModel 2 (⟨0, 0, 0⟩, ⟨10, 10, 10⟩) [] 5
        CellNumberLimitation.None false strat ≠ .error .boxTooSmall) ∧
    (∀ mc : ℤ, ⌊(10 : ℚ) * (1 / 5)⌋ = 0 →
      (size_axis GridOptions.Normal CellSizeStrategy.Optimal CellNumberLimitation.None mc 5
        nextModel 2 10).map Prod.fst = .ok 1) :=
  C8_box_too_small_iff nextModel 2 ⟨0, 0, 0⟩ ⟨10, 10, 10⟩ [] 5 CellNumberLimitation.None
    false (by with_unfolding_all decide) (by with_unfolding_all decide)
    (by with_unfolding_all decide)

lemma icbrt_pos {m : ℕ} (hm : 1 ≤ m) : 1 ≤ icbrt m := by
  unfold icbrt
  obtain ⟨k, rfl⟩ : ∃ k, m = k + 1 := ⟨m - 1, by omega⟩
  rw [List.range_succ_eq_map, List.takeWhile_cons_of_pos (by simp)]
  simp

/-- C9: with the `Optimal` strategy, in both modes, construction fails with
the overflow error exactly when some axis has
`length > INT_MAX / index_factor` (`index_factor = 1 / max_interaction_length`
there) and no earlier axis fired an error first; and a successful
construction never carries a nonpositive or wrapped-around cell count — every
axis count lies in `[1, INT_MAX]`. -/
theorem C9_overflow_iff (O : GridOptions) (next : ℚ → ℚ) (fuel : ℕ) (minP len : V3)
    (ps : List ParticleData) (ilen : ℚ) (limit : CellNumberLimitation) (inc : Bool) :
    (gridConstruct O next fuel (minP, len) ps ilen limit inc CellSizeStrategy.Optimal =
        .error .overflow ↔
      ((intMax : ℚ) / (1 / ilen) < len.x ∨
       (¬((intMax : ℚ) / (1 / ilen) < len.x) ∧
        ¬(O = GridOptions.PeriodicBoundaries ∧ ⌊len.x * (1 / ilen)⌋ < 2) ∧
        ((intMax : ℚ) / (1 / ilen) < len.y ∨
         (¬((intMax : ℚ) / (1 / ilen) < len.y) ∧
          ¬(O = GridOptions.PeriodicBoundaries ∧ ⌊len.y * (1 / ilen)⌋ < 2) ∧
          (intMax : ℚ) / (1 / ilen) < len.z))))) ∧
    (0 < ilen → NextValid next → 1 ≤ fuel → ps ≠ [] →
      0 ≤ len.x → 0 ≤ len.y → 0 ≤ len.z →
      ∀ g, gridConstruct O next fuel (minP, len) ps ilen limit inc
          CellSizeStrategy.Optimal = .ok g →
        (1 ≤ g.number_of_cells_.c0 ∧ g.number_of_cells_.c0 ≤ intMax) ∧
        (1 ≤ g.number_of_cells_.c1 ∧ g.number_of_cells_.c1 ≤ intMax) ∧
        (1 ≤ g.number_of_cells_.c2 ∧ g.number_of_cells_.c2 ≤ intMax)) := by
  have hO : ¬(O = GridOptions.Normal ∧
      CellSizeStrategy.Optimal = CellSizeStrategy.Largest) := by
    rintro ⟨-, h⟩
    cases h
  constructor
  · constructor
    · -- forward: an overflow result names the first overflowing axis
      intro hcon
      rcases gridConstruct_decompose O next fuel minP len ps ilen limit inc
          CellSizeStrategy.Optimal hO with ⟨e, hse, hcons⟩ | ⟨n0, f0, hs0, hrest⟩
      · rw [hcons] at hcon
        injection hcon with hcon
        subst hcon
        rcases size_axis_optimal_cases O limit
            (if O = GridOptions.Normal then (icbrt ps.length : ℤ)
             else max 2 (icbrt ps.length : ℤ)) ilen next fuel len.x with
          ⟨hov, -⟩ | ⟨-, -, hsb⟩ | ⟨-, -, p, hp⟩
        · exact Or.inl hov
        · rw [hsb] at hse
          simp at hse
        · rw [hp] at hse
          simp at hse
      · rcases size_axis_optimal_cases O limit
            (if O = GridOptions.Normal then (icbrt ps.length : ℤ)
             else max 2 (icbrt ps.length : ℤ)) ilen next fuel len.x with
          ⟨-, hb1⟩ | ⟨-, -, hb2⟩ | ⟨hnovx, hnsmx, -⟩
        · rw [hb1] at hs0
          cases hs0
        · rw [hb2] at hs0
          cases hs0
        refine Or.inr ⟨hnovx, hnsmx, ?_⟩
        rcases hrest with ⟨e, hse, hcons⟩ | ⟨n1, f1, hs1, hrest⟩
        · rw [hcons] at hcon
          injection hcon with hcon
          subst hcon
          rcases size_axis_optimal_cases O limit
              (if O = GridOptions.Normal then (icbrt ps.length : ℤ)
               else max 2 (icbrt ps.length : ℤ)) ilen next fuel len.y with
            ⟨hov, -⟩ | ⟨-, -, hsb⟩ | ⟨-, -, p, hp⟩
          · exact Or.inl hov
          · rw [hsb] at hse
            simp at hse
          · rw [hp] at hse
            simp at hse
        · rcases size_axis_optimal_cases O limit
              (if O = GridOptions.Normal then (icbrt ps.length : ℤ)
               else max 2 (icbrt ps.length : ℤ)) ilen next fuel len.y with
            ⟨-, hb1⟩ | ⟨-, -, hb2⟩ | ⟨hnovy, hnsmy, -⟩
          · rw [hb1] at hs1
            cases hs1
          · rw [hb2] at hs1
            cases hs1
          refine Or.inr ⟨hnovy, hnsmy, ?_⟩
          rcases hrest with ⟨e, hse, hcons⟩ | ⟨n2, f2, hs2, hrest⟩
          · rw [hcons] at hcon
            injection hcon with hcon
            subst hcon
            rcases size_axis_optimal_cases O limit
                (if O = GridOptions.Normal then (icbrt ps.length : ℤ)
                 else max 2 (icbrt ps.length : ℤ)) ilen next fuel len.z with
              ⟨hov, -⟩ | ⟨-, -, hsb⟩ | ⟨-, -, p, hp⟩
            · exact hov
            · rw [hsb] at hse
              simp at hse
            · rw [hp] at hse
              simp at hse
          · rcases hrest with ⟨g, hok, -⟩ | hoob
            · rw [hok] at hcon
              cases hcon
            · rw [hoob] at hcon
              injection hcon with hcon
              cases hcon
    · -- backward: the first overflowing axis forces the overflow result
      intro hdisj
      rcases hdisj with hovx | ⟨hnovx, hnsmx, hrest⟩
      · have hsx : size_axis O CellSizeStrategy.Optimal limit
            (if O = GridOptions.Normal then (icbrt ps.length : ℤ)
             else max 2 (icbrt ps.length : ℤ)) ilen next fuel len.x =
              .error .overflow := size_axis_optimal_ovf hovx
        rcases gridConstruct_decompose O next fuel minP len ps ilen limit inc
            CellSizeStrategy.Optimal hO with ⟨e, hse, hcons⟩ | ⟨n0, f0, hs0, -⟩
        · rw [hsx] at hse
          injection hse with hse
          subst hse
          exact hcons
        · rw [hsx] at hs0
          cases hs0
      · obtain ⟨px, hsx⟩ : ∃ p, size_axis O CellSizeStrategy.Optimal limit
            (if O = GridOptions.Normal then (icbrt ps.length : ℤ)
             else max 2 (icbrt ps.length : ℤ)) ilen next fuel len.x = .ok p := by
          rw [size_axis_optimal_no_ovf hnovx]
          exact size_axis_adjust_not_small (by rintro ⟨h1, h2⟩; exact hnsmx ⟨h2, h1⟩)
        rcases hrest with hovy | ⟨hnovy, hnsmy, hovz⟩
        · have hsy : size_axis O CellSizeStrategy.Optimal limit
              (if O = GridOptions.Normal then (icbrt ps.length : ℤ)
               else max 2 (icbrt ps.length : ℤ)) ilen next fuel len.y =
                .error .overflow := size_axis_optimal_ovf hovy
          rcases gridConstruct_decompose O next fuel minP len ps ilen limit inc
              CellSizeStrategy.Optimal hO with ⟨e, hse, hcons⟩ | ⟨n0, f0, hs0, hrest'⟩
          · rw [hsx] at hse
            cases hse
          rcases hrest' with ⟨e, hse, hcons⟩ | ⟨n1, f1, hs1, -⟩
          · rw [hsy] at hse
            injection hse with hse
            subst hse
            exact hcons
          · rw [hsy] at hs1
            cases hs1
        · obtain ⟨py, hsy⟩ : ∃ p, size_axis O CellSizeStrategy.Optimal limit
              (if O = GridOptions.Normal then (icbrt ps.length : ℤ)
               else max 2 (icbrt ps.length : ℤ)) ilen next fuel len.y = .ok p := by
            rw [size_axis_optimal_no_ovf hnovy]
            exact size_axis_adjust_not_small (by rintro ⟨h1, h2⟩; exact hnsmy ⟨h2, h1⟩)
          have hsz : size_axis O CellSizeStrategy.Optimal limit
              (if O = GridOptions.Normal then (icbrt ps.length : ℤ)
               else max 2 (icbrt ps.length : ℤ)) ilen next fuel len.z =
                .error .overflow := size_axis_optimal_ovf hovz
          rcases gridConstruct_decompose O next fuel minP len ps ilen limit inc
              CellSizeStrategy.Optimal hO with ⟨e, hse, hcons⟩ | ⟨n0, f0, hs0, hrest'⟩
          · rw [hsx] at hse
            cases hse
          rcases hrest' with ⟨e, hse, hcons⟩ | ⟨n1, f1, hs1, hrest'⟩
          · rw [hsy] at hse
            cases hse
          rcases hrest' with ⟨e, hse, hcons⟩ | ⟨n2, f2, hs2, -⟩
          · rw [hsz] at hse
            injection hse with hse
            subst hse
            exact hcons
          · rw [hsz] at hs2
            cases hs2
  · -- success sanity: every axis count lies in [1, INT_MAX]
    intro hi hNV hfuel hps hlx hly hlz g hg
    have hmc1 : 1 ≤ (if O = GridOptions.Normal then (icbrt ps.length : ℤ)
        else max 2 (icbrt ps.length : ℤ)) := by
      by_cases hO' : O = GridOptions.Normal
      · rw [if_pos hO']
        have h1 : 1 ≤ icbrt ps.length := icbrt_pos (List.length_pos.mpr hps)
        exact_mod_cast h1
      · rw [if_neg hO']
        exact le_trans (by norm_num) (le_max_left 2 _)
    have hmcP : O = GridOptions.PeriodicBoundaries →
        2 ≤ (if O = GridOptions.Normal then (icbrt ps.length : ℤ)
          else max 2 (icbrt ps.length : ℤ)) := by
      intro hO'
      rw [if_neg (by rw [hO']; rintro h; cases h)]
      exact le_max_left 2 _
    rcases gridConstruct_decompose O next fuel minP len ps ilen limit inc
        CellSizeStrategy.Optimal hO with ⟨e, hse, hcons⟩ | ⟨n0, f0, hs0, hrest⟩
    · rw [hcons] at hg
      cases hg
    rcases hrest with ⟨e, hse, hcons⟩ | ⟨n1, f1, hs1, hrest⟩
    · rw [hcons] at hg
      cases hg
    rcases hrest with ⟨e, hse, hcons⟩ | ⟨n2, f2, hs2, hrest⟩
    · rw [hcons] at hg
      cases hg
    rcases hrest with ⟨g', hok, hn⟩ | hoob
    · rw [hok] at hg
      injection hg with hg
      subst hg
      rcases hn with hn | hn
      · rw [hn]
        exact ⟨⟨by decide, by decide⟩, ⟨by decide, by decide⟩, by decide, by decide⟩
      · obtain ⟨h10, h1I, -, -, -, -⟩ := size_axis_inv hi hlx hmc1 hmcP hNV hfuel hs0
        obtain ⟨h20, h2I, -, -, -, -⟩ := size_axis_inv hi hly hmc1 hmcP hNV hfuel hs1
        obtain ⟨h30, h3I, -, -, -, -⟩ := size_axis_inv hi hlz hmc1 hmcP hNV hfuel hs2
        rw [hn]
        exact ⟨⟨h10, h1I⟩, ⟨h20, h2I⟩, h30, h3I⟩
    · rw [hoob] at hg
      cases hg

/-- Witness for C9 at a concrete input: a unit box with one particle,
interaction length 1, normal mode (the sized 1×1×1 grid is in range). -/
theorem C9_overflow_iff_witness :
    (1 ≤ (1 : ℤ) ∧ (1 : ℤ) ≤ intMax) ∧ (1 ≤ (1 : ℤ) ∧ (1 : ℤ) ≤ intMax) ∧
      (1 ≤ (1 : ℤ) ∧ (1 : ℤ) ≤ intMax) :=
  (C9_overflow_iff GridOptions.Normal nextModel 2 ⟨0, 0, 0⟩ ⟨1, 1, 1⟩
      [⟨1, ⟨0, 0, 0⟩, 1⟩] 1 CellNumberLimitation.None false).2
    (by with_unfolding_all decide) nextModel_valid (by decide) (by simp)
    (by with_unfolding_all decide) (by with_unfolding_all decide)
    (by with_unfolding_all decide)
    (Grid.mk ⟨1, 1, 1⟩ 1 ⟨1, 1, 1⟩ [[⟨1, ⟨0, 0, 0⟩, 1⟩]]) (by with_unfolding_all rfl)

/-- A `Largest`-strategy sizing iteration decides 2 cells and an index factor
with the usual safety bound. -/
lemma size_axis_largest_inv (O : GridOptions) (limit : CellNumberLimitation) (mc : ℤ)
    (ilen : ℚ) (next : ℚ → ℚ) (fuel : ℕ) (L : ℚ) (hmc : 2 ≤ mc) (hi : 0 < ilen)
    (hL : 0 ≤ L) (hNV : NextValid next) (hfuel : 1 ≤ fuel) :
    ∃ f, size_axis O CellSizeStrategy.Largest limit mc ilen next fuel L = .ok (2, f) ∧
      0 < f ∧ f * L < 2 := by
  have h2 : size_axis O CellSizeStrategy.Largest limit mc ilen next fuel L =
      .ok (size_axis_finish ilen next fuel L 2) := by
    unfold size_axis size_axis_adjust
    rw [if_pos rfl,
      if_neg (by rintro ⟨h, -⟩; exact absurd h (by decide)),
      if_neg (by rintro ⟨h, -⟩; exact absurd h (by decide)),
      if_neg (by rintro ⟨-, h⟩; omega)]
  obtain ⟨hn, hf, hfL, -, -⟩ :=
    size_axis_finish_inv hi hL (by decide) (by decide) hNV hfuel
      (rfl : size_axis_finish ilen next fuel L 2 =
        ((size_axis_finish ilen next fuel L 2).1, (size_axis_finish ilen next fuel L 2).2))
  refine ⟨(size_axis_finish ilen next fuel L 2).2, ?_, hf, ?_⟩
  · rw [h2]
    exact congrArg Except.ok (Prod.ext hn rfl).symm
  · exact lt_of_lt_of_eq hfL (by norm_num)

/-- The bucketing loop succeeds when every particle's flat index is a valid
cell index. -/
lemma bucket_particles_ok (inc : Bool) (n : I3) (minP : V3) (f0 f1 f2 : ℚ) (N : ℕ)
    (ps : List ParticleData)
    (h : ∀ p ∈ ps, 0 ≤ cell_index_for n minP f0 f1 f2 p ∧
      cell_index_for n minP f0 f1 f2 p < (N : ℤ)) :
    ∃ cells, bucket_particles inc n minP f0 f1 f2 N ps = .ok cells := by
  unfold bucket_particles
  have H : ∀ (l : List ParticleData),
      (∀ p ∈ l, 0 ≤ cell_index_for n minP f0 f1 f2 p ∧
        cell_index_for n minP f0 f1 f2 p < (N : ℤ)) →
      ∀ cells : List (List ParticleData),
        ∃ cells', l.foldl (bucket_step inc n minP f0 f1 f2 N) (.ok cells) = .ok cells' := by
    intro l
    induction l with
    | nil => intro _ cells; exact ⟨cells, rfl⟩
    | cons p l ih =>
      intro hl cells
      rw [List.foldl_cons]
      obtain ⟨h0, h1⟩ := hl p (by simp)
      by_cases hskip : inc = false ∧ p.xsec_scaling_factor ≤ 0
      · have hstep : bucket_step inc n minP f0 f1 f2 N (.ok cells) p = .ok cells := by
          unfold bucket_step
          dsimp only
          rw [if_pos hskip]
        rw [hstep]
        exact ih (fun q hq => hl q (by simp [hq])) cells
      · have hstep : bucket_step inc n minP f0 f1 f2 N (.ok cells) p =
            .ok (cells.set (cell_index_for n minP f0 f1 f2 p).toNat
              (cells.getD (cell_index_for n minP f0 f1 f2 p).toNat [] ++ [p])) := by
          unfold bucket_step
          dsimp only
          rw [if_neg hskip, if_neg (by omega)]
        rw [hstep]
        exact ih (fun q hq => hl q (by simp [hq])) _
  exact H ps h _

instance (minP len : V3) (p : ParticleData) : Decidable (inBox minP len p) := by
  unfold inBox
  infer_instance

/-- C10: construction with the `Largest` strategy never raises the overflow
or box-too-small errors of the sizing loop, for every input in both modes: in
normal mode the single-cell fast path returns before any check runs, and in
periodic mode every axis count is forced to 2 before the checks are
reachable, so with in-box particles a periodic box smaller than twice the
interaction length is accepted silently — yielding `number_of_cells = (2,2,2)`
and per-axis cell length `length/2`, which is smaller than the interaction
length whenever `length < 2 * interaction_length` (last conjunct). -/
theorem C10_largest_never_errors (O : GridOptions) (next : ℚ → ℚ) (fuel : ℕ)
    (minP len : V3) (ps : List ParticleData) (ilen : ℚ) (limit : CellNumberLimitation)
    (inc : Bool) :
    (gridConstruct O next fuel (minP, len) ps ilen limit inc CellSizeStrategy.Largest ≠
        .error .overflow ∧
     gridConstruct O next fuel (minP, len) ps ilen limit inc CellSizeStrategy.Largest ≠
        .error .boxTooSmall) ∧
    (O = GridOptions.Normal →
      gridConstruct O next fuel (minP, len) ps ilen limit inc CellSizeStrategy.Largest =
        .ok { length_ := len, cell_volume_ := len.x * len.y * len.z,
              number_of_cells_ := ⟨1, 1, 1⟩, cells_ := [ps] }) ∧
    (0 < ilen → NextValid next → 1 ≤ fuel → 0 ≤ len.x → 0 ≤ len.y → 0 ≤ len.z →
      (∀ p ∈ ps, inBox minP len p) →
      ∃ g, gridConstruct GridOptions.PeriodicBoundaries next fuel (minP, len) ps ilen
          limit inc CellSizeStrategy.Largest = .ok g ∧
        g.number_of_cells_ = ⟨2, 2, 2⟩ ∧
        g.cell_volume_ = (len.x / 2) * (len.y / 2) * (len.z / 2) ∧ g.length_ = len) ∧
    (len.x < 2 * ilen → len.x / 2 < ilen) := by
  have hnormal : ∀ O' : GridOptions, O' = GridOptions.Normal →
      gridConstruct O' next fuel (minP, len) ps ilen limit inc CellSizeStrategy.Largest =
        .ok { length_ := len, cell_volume_ := len.x * len.y * len.z,
              number_of_cells_ := ⟨1, 1, 1⟩, cells_ := [ps] } := by
    rintro O' rfl
    simp [gridConstruct]
  have hkey : ∀ e : GridError, e ≠ GridError.outOfBounds →
      gridConstruct O next fuel (minP, len) ps ilen limit inc CellSizeStrategy.Largest ≠
        .error e := by
    intro e he hcon
    cases O with
    | Normal =>
      rw [hnormal GridOptions.Normal rfl] at hcon
      cases hcon
    | PeriodicBoundaries =>
      have hOP : ¬(GridOptions.PeriodicBoundaries = GridOptions.Normal ∧
          CellSizeStrategy.Largest = CellSizeStrategy.Largest) := by
        rintro ⟨h, -⟩
        cases h
      obtain ⟨qx, hqx⟩ := size_axis_largest_ok GridOptions.PeriodicBoundaries limit
        (if GridOptions.PeriodicBoundaries = GridOptions.Normal then (icbrt ps.length : ℤ)
         else max 2 (icbrt ps.length : ℤ)) ilen next fuel len.x
      obtain ⟨qy, hqy⟩ := size_axis_largest_ok GridOptions.PeriodicBoundaries limit
        (if GridOptions.PeriodicBoundaries = GridOptions.Normal then (icbrt ps.length : ℤ)
         else max 2 (icbrt ps.length : ℤ)) ilen next fuel len.y
      obtain ⟨qz, hqz⟩ := size_axis_largest_ok GridOptions.PeriodicBoundaries limit
        (if GridOptions.PeriodicBoundaries = GridOptions.Normal then (icbrt ps.length : ℤ)
         else max 2 (icbrt ps.length : ℤ)) ilen next fuel len.z
      rcases gridConstruct_decompose GridOptions.PeriodicBoundaries next fuel minP len ps
          ilen limit inc CellSizeStrategy.Largest hOP with
        ⟨e', hse, hcons⟩ | ⟨n0, f0, hs0, hrest⟩
      · rw [hqx] at hse
        cases hse
      rcases hrest with ⟨e', hse, hcons⟩ | ⟨n1, f1, hs1, hrest⟩
      · rw [hqy] at hse
        cases hse
      rcases hrest with ⟨e', hse, hcons⟩ | ⟨n2, f2, hs2, hrest⟩
      · rw [hqz] at hse
        cases hse
      rcases hrest with ⟨g, hok, -⟩ | hoob
      · rw [hok] at hcon
        cases hcon
      · rw [hoob] at hcon
        injection hcon with hcon
        exact he hcon.symm
  refine ⟨⟨hkey GridError.overflow (by decide), hkey GridError.boxTooSmall (by decide)⟩,
    hnormal O, ?_, ?_⟩
  · intro hi hNV hfuel hlx hly hlz hbox
    have hmcge : (2 : ℤ) ≤ (if GridOptions.PeriodicBoundaries = GridOptions.Normal
        then (icbrt ps.length : ℤ) else max 2 (icbrt ps.length : ℤ)) := by
      rw [if_neg (by rintro h; cases h)]
      exact le_max_left 2 _
    obtain ⟨fx, hsx, hfx, hfxL⟩ := size_axis_largest_inv GridOptions.PeriodicBoundaries
      limit _ ilen next fuel len.x hmcge hi hlx hNV hfuel
    obtain ⟨fy, hsy, hfy, hfyL⟩ := size_axis_largest_inv GridOptions.PeriodicBoundaries
      limit _ ilen next fuel len.y hmcge hi hly hNV hfuel
    obtain ⟨fz, hsz, hfz, hfzL⟩ := size_axis_largest_inv GridOptions.PeriodicBoundaries
      limit _ ilen next fuel len.z hmcge hi hlz hNV hfuel
    have hidx : ∀ p ∈ ps, 0 ≤ cell_index_for ⟨2, 2, 2⟩ minP fx fy fz p ∧
        cell_index_for ⟨2, 2, 2⟩ minP fx fy fz p < (((2 * 2 * 2 : ℤ).toNat : ℕ) : ℤ) := by
      intro p hp
      obtain ⟨hx1, hx2, hy1, hy2, hz1, hz2⟩ := hbox p hp
      have hxr := axis_index_range hfx
        (show fx * len.x < ((2 : ℤ) : ℚ) by exact_mod_cast hfxL)
        (show 0 ≤ p.pos.x - minP.x by linarith) (show p.pos.x - minP.x ≤ len.x by linarith)
      have hyr := axis_index_range hfy
        (show fy * len.y < ((2 : ℤ) : ℚ) by exact_mod_cast hfyL)
        (show 0 ≤ p.pos.y - minP.y by linarith) (show p.pos.y - minP.y ≤ len.y by linarith)
      have hzr := axis_index_range hfz
        (show fz * len.z < ((2 : ℤ) : ℚ) by exact_mod_cast hfzL)
        (show 0 ≤ p.pos.z - minP.z by linarith) (show p.pos.z - minP.z ≤ len.z by linarith)
      have hmk := make_index_range (n := ⟨2, 2, 2⟩) hxr.1 hxr.2 hyr.1 hyr.2 hzr.1 hzr.2
      unfold cell_index_for
      refine ⟨hmk.1, ?_⟩
      have h8 : ((⟨2, 2, 2⟩ : I3).c0 * (⟨2, 2, 2⟩ : I3).c1 * (⟨2, 2, 2⟩ : I3).c2 : ℤ) =
          (((2 * 2 * 2 : ℤ).toNat : ℕ) : ℤ) := by decide
      rw [← h8]
      exact hmk.2
    obtain ⟨cells, hbucket⟩ := bucket_particles_ok inc ⟨2, 2, 2⟩ minP fx fy fz
      ((2 * 2 * 2 : ℤ).toNat) ps hidx
    refine ⟨⟨len, (len.x / ((2 : ℤ) : ℚ)) * (len.y / ((2 : ℤ) : ℚ)) *
        (len.z / ((2 : ℤ) : ℚ)), ⟨2, 2, 2⟩, cells⟩, ?_, rfl, ?_, rfl⟩
    · simp only [gridConstruct]
      rw [if_neg (by rintro ⟨h, -⟩; cases h), hsx, hsy, hsz]
      dsimp only
      rw [if_neg (by rintro ⟨h, -⟩; cases h), hbucket]
    · show (len.x / ((2 : ℤ) : ℚ)) * (len.y / ((2 : ℤ) : ℚ)) * (len.z / ((2 : ℤ) : ℚ)) =
        (len.x / 2) * (len.y / 2) * (len.z / 2)
      norm_num
  · intro h1
    linarith

/-- Witness for C10 at a concrete input: a periodic unit box with interaction
length 5 — far smaller than the `2 * 5` the `Optimal` strategy would demand —
is accepted silently with a 2×2×2 grid of cells of length `1/2 < 5`. -/
theorem C10_largest_never_errors_witness :
    (gridConstruct GridOptions.PeriodicBoundaries nextModel 2 (⟨0, 0, 0⟩, ⟨1, 1, 1⟩)
        [⟨1, ⟨1/2, 1/2, 1/2⟩, 1⟩] 5 CellNumberLimitation.None false
        CellSizeStrategy.Largest ≠ .error .overflow) ∧
    (gridConstruct GridOptions.PeriodicBoundaries nextModel 2 (⟨0, 0, 0⟩, ⟨1, 1, 1⟩)
        [⟨1, ⟨1/2, 1/2, 1/2⟩, 1⟩] 5 CellNumberLimitation.None false
        CellSizeStrategy.Largest ≠ .error .boxTooSmall) ∧
    (∃ g, gridConstruct GridOptions.PeriodicBoundaries nextModel 2 (⟨0, 0, 0⟩, ⟨1, 1, 1⟩)
        [⟨1, ⟨1/2, 1/2, 1/2⟩, 1⟩] 5 CellNumberLimitation.None false
        CellSizeStrategy.Largest = .ok g ∧
      g.number_of_cells_ = ⟨2, 2, 2⟩ ∧
      g.cell_volume_ = ((1 : ℚ) / 2) * ((1 : ℚ) / 2) * ((1 : ℚ) / 2) ∧
      g.length_ = ⟨1, 1, 1⟩) ∧
    ((1 : ℚ) / 2 < 5) :=
  ⟨(C10_largest_never_errors GridOptions.PeriodicBoundaries nextModel 2 ⟨0, 0, 0⟩
      ⟨1, 1, 1⟩ [⟨1, ⟨1/2, 1/2, 1/2⟩, 1⟩] 5 CellNumberLimitation.None false).1.1,
   (C10_largest_never_errors GridOptions.PeriodicBoundaries nextModel 2 ⟨0, 0, 0⟩
      ⟨1, 1, 1⟩ [⟨1, ⟨1/2, 1/2, 1/2⟩, 1⟩] 5 CellNumberLimitation.None false).1.2,
   (C10_largest_never_errors GridOptions.PeriodicBoundaries nextModel 2 ⟨0, 0, 0⟩
      ⟨1, 1, 1⟩ [⟨1, ⟨1/2, 1/2, 1/2⟩, 1⟩] 5 CellNumberLimitation.None false).2.2.1
     (by with_unfolding_all decide) nextModel_valid (by decide)
     (by with_unfolding_all decide) (by with_unfolding_all decide)
     (by with_unfolding_all decide) (by with_unfolding_all decide),
   (C10_largest_never_errors GridOptions.PeriodicBoundaries nextModel 2 ⟨0, 0, 0⟩
      ⟨1, 1, 1⟩ [⟨1, ⟨1/2, 1/2, 1/2⟩, 1⟩] 5 CellNumberLimitation.None false).2.2.2
     (by with_unfolding_all decide)⟩

end SmashGrid
